import Mathlib

/-!
OpenFM record validation.

A verification development for the record validator of OpenFM (Open Financial
Manager).  The validator `is_string_confirm_to_format` of
`src/trunk/src/common.c` is embedded as a total function on the characters of
the C string it receives, the clock it consults and the line number it prints;
what it writes to `stderr` is part of the result.  The earlier variant of the
validator, `src/trunk/common.c`, is embedded the same way in the namespace
`Earlier`, the loop of `read_and_parse_datafile` of `src/trunk/src/openfm.c` as
`loop_body` and `run_loop`, and both validators once more with every read of
the string checked against its bounds, in the namespace `Checked`.  In the
namespace `Stateful` the validator is embedded as a call in a process, which
holds the standard error stream and the static `struct tm` of `localtime`.

Conventions of the embedding:

* a C string is the list of its characters before the terminating NUL (the
  list itself holds no NUL); reading at the index of the terminator gives NUL;
* `int` values are `Int` (the date fields are at most four decimal digits, no
  arithmetic here can overflow);
* `time()` and `localtime()` are the `Clock` argument.
-/

namespace OpenFM

/-! ## Data model -/

/-- The failure reasons, one per `PRINTLN` call site of the validator.  Each
constructor stands for the message literal given in `Reason.text`. -/
inductive Reason
  | TooShort
  | InvalidSign
  | InvalidSeparator
  | MissingCategorySeparator
  | MissingAmountSeparator
  | InvalidCategory
  | InvalidAmount
  | InvalidDateDigits
  | InvalidDateSeparator
  | DayOutOfRange
  | MonthOutOfRange
  | YearIsZero
  | LeapDayOutOfRange
  | DayOutOfRangeForMonth
  | DateInFuture
  deriving DecidableEq, Repr

/-- The message literal printed for each reason. -/
def Reason.text : Reason → String
  | .TooShort => "String is too small"
  | .InvalidSign => "First field of string should be sign '+' or '-'!"
  | .InvalidSeparator => "Separator for fields should be sign '|'!"
  | .MissingCategorySeparator => "Separator after third field not found!"
  | .MissingAmountSeparator => "Separator after fourth field not found!"
  | .InvalidCategory => "Third field should consist of digitals only!"
  | .InvalidAmount => "Fourth field should consist of digitals and point or comma only!"
  | .InvalidDateDigits => "Date should consist of digitals only!"
  | .InvalidDateSeparator => "Separator for date should be sign '.'!"
  | .DayOutOfRange => "Invalid number of day"
  | .MonthOutOfRange => "Invalid number of month"
  | .YearIsZero => "Invalid number of year! Year should be more then 0"
  | .LeapDayOutOfRange => "Invalid day of month in leap year"
  | .DayOutOfRangeForMonth => "Invalid day of month"
  | .DateInFuture => "Date in future"

/-- One line written to `stderr`. -/
inductive Diag
  | println (lineno : Nat) (msg : Reason) (args : List Int)
  | perror_time
  | localtime_error
  deriving DecidableEq, Repr

/-- What a call of the validator does: the value it returns and what it wrote
to `stderr`. -/
structure Outcome where
  ret : Int
  err : List Diag
  deriving DecidableEq, Repr

/-- The fields of `struct tm` the validator reads. -/
structure Tm where
  tm_year : Int
  tm_mon : Int
  tm_mday : Int
  deriving DecidableEq, Repr

/-- The answer of `time(NULL)` followed by `localtime`. -/
inductive Clock
  | time_failed
  | localtime_failed
  | now (local_time : Tm)
  deriving DecidableEq, Repr

/-! ## libc -/

/-- Reads `str[i]`; the terminator is read at `i = strlen str`. -/
def charAt (str : List Char) (i : Nat) : Char :=
  str.getD i (Char.ofNat 0)

/-- The C function `strlen`. -/
def strlen (str : List Char) : Nat :=
  str.length

/-- The C function `isdigit`. -/
def isdigit (c : Char) : Bool :=
  c.isDigit

/-- Scans `rest`, whose first character has index `i`, for `c`. -/
def strchr_scan (c : Char) : List Char → Nat → Option Nat
  | [], _ => none
  | x :: rest, i => if x = c then some i else strchr_scan c rest (i + 1)

/-- The call `strchr(str + start, c)` for `c` other than NUL and
`start ≤ strlen str`: the index in `str` of the character found, `none` for
`NULL`. -/
def strchr (str : List Char) (start : Nat) (c : Char) : Option Nat :=
  strchr_scan c (str.drop start) start

/-! ## common.c -/

/-- The macro `ISLEAP`, as `common.c` defines it (the `__isleap` of glibc that
it is renamed from where available is the same expression); `%` of C is the
truncating remainder. -/
def ISLEAP (year : Int) : Bool :=
  decide (year.tmod 4 = 0) && (decide (year.tmod 100 ≠ 0) || decide (year.tmod 400 = 0))

/-- The macro `PRINTLN`. -/
def PRINTLN (lineno : Nat) (msg : Reason) : List Diag :=
  [Diag.println lineno msg []]

/-- The macro `PRINTLN1`. -/
def PRINTLN1 (lineno : Nat) (msg : Reason) (arg : Int) : List Diag :=
  [Diag.println lineno msg [arg]]

/-- The macro `PRINTLN2`. -/
def PRINTLN2 (lineno : Nat) (msg : Reason) (arg1 arg2 : Int) : List Diag :=
  [Diag.println lineno msg [arg1, arg2]]

/-- The macro `PRINTLN3`. -/
def PRINTLN3 (lineno : Nat) (msg : Reason) (arg1 arg2 arg3 : Int) : List Diag :=
  [Diag.println lineno msg [arg1, arg2, arg3]]

/-- The expression `str[i] - '0'`. -/
def digit (str : List Char) (i : Nat) : Int :=
  ((charAt str i).toNat : Int) - 48

/-- The loop `for (i = str+13; i < sep_cat; i++) if (!isdigit(*i)) return 0;`,
with `n` iterations left starting at index `i`: `true` when the loop runs to
its end. -/
def category_loop (str : List Char) : Nat → Nat → Bool
  | _, 0 => true
  | i, n + 1 => if !isdigit (charAt str i) then false else category_loop str (i + 1) n

/-- The loop `for (i = sep_cat+1; i < sep_amount; i++)` over the amount field,
with `n` iterations left starting at index `i`: `true` when the loop runs to
its end. -/
def amount_loop (str : List Char) : Nat → Nat → Bool
  | _, 0 => true
  | i, n + 1 =>
    if (!isdigit (charAt str i)) && charAt str i != '.' && charAt str i != ',' then false
    else amount_loop str (i + 1) n

/-- The tail of `is_string_confirm_to_format` from the comment
`if date is in the future` to `return 1`. -/
def check_future (day month year : Int) (lineno : Nat) (clock : Clock) : Outcome :=
  match clock with
  | .time_failed => ⟨1, [Diag.perror_time]⟩
  | .localtime_failed => ⟨1, [Diag.localtime_error]⟩
  | .now local_time =>
    let tm_year := local_time.tm_year + 1900
    if year > tm_year ∨
        (year = tm_year ∧ month > local_time.tm_mon + 1) ∨
        (year = tm_year ∧ month = local_time.tm_mon + 1 ∧ day > local_time.tm_mday) then
      ⟨0, PRINTLN3 lineno .DateInFuture day month year⟩
    else ⟨1, []⟩

/-- The function `is_string_confirm_to_format` of `src/trunk/src/common.c`.
A `return` inside the `month == 2` block leaves the function; where the block
falls through, the function goes on with `check_future`. -/
def is_string_confirm_to_format (str : List Char) (lineno : Nat) (clock : Clock) : Outcome :=
  if strlen str < 18 then ⟨0, PRINTLN lineno .TooShort⟩
  else if charAt str 0 ≠ '-' ∧ charAt str 0 ≠ '+' then ⟨0, PRINTLN lineno .InvalidSign⟩
  else if charAt str 1 ≠ '|' ∨ charAt str 12 ≠ '|' then ⟨0, PRINTLN lineno .InvalidSeparator⟩
  else
    match strchr str 13 '|' with
    | none => ⟨0, PRINTLN lineno .MissingCategorySeparator⟩
    | some sep_cat =>
      match strchr str (sep_cat + 1) '|' with
      | none => ⟨0, PRINTLN lineno .MissingAmountSeparator⟩
      | some sep_amount =>
        if category_loop str 13 (sep_cat - 13) = false then
          ⟨0, PRINTLN lineno .InvalidCategory⟩
        else if amount_loop str (sep_cat + 1) (sep_amount - (sep_cat + 1)) = false then
          ⟨0, PRINTLN lineno .InvalidAmount⟩
        else if ¬ (isdigit (charAt str 2) ∧ isdigit (charAt str 3) ∧
            isdigit (charAt str 5) ∧ isdigit (charAt str 6) ∧
            isdigit (charAt str 8) ∧ isdigit (charAt str 9) ∧
            isdigit (charAt str 10) ∧ isdigit (charAt str 11)) then
          ⟨0, PRINTLN lineno .InvalidDateDigits⟩
        else if charAt str 4 ≠ '.' ∨ charAt str 7 ≠ '.' then
          ⟨0, PRINTLN lineno .InvalidDateSeparator⟩
        else
          let day := digit str 2 * 10 + digit str 3
          if day > 31 ∨ day = 0 then ⟨0, PRINTLN1 lineno .DayOutOfRange day⟩
          else
            let month := digit str 5 * 10 + digit str 6
            if month > 12 ∨ month = 0 then ⟨0, PRINTLN1 lineno .MonthOutOfRange month⟩
            else
              let year :=
                digit str 8 * 1000 + digit str 9 * 100 + digit str 10 * 10 + digit str 11
              if year = 0 then ⟨0, PRINTLN lineno .YearIsZero⟩
              else if month = 2 then
                if ISLEAP year = true ∧ day > 29 then
                  ⟨0, PRINTLN2 lineno .LeapDayOutOfRange day month⟩
                else if (month = 4 ∨ month = 6 ∨ month = 9 ∨ month = 11) ∧ day > 30 then
                  ⟨0, PRINTLN2 lineno .DayOutOfRangeForMonth day month⟩
                else check_future day month year lineno clock
              else check_future day month year lineno clock

/-! ## Vocabulary of the specification -/

/-- The reason on the line printed through `PRINTLN`, when that line is all
that was written to `stderr`. -/
def Outcome.reason (o : Outcome) : Option Reason :=
  match o.err with
  | [Diag.println _ msg _] => some msg
  | _ => none

/-- The validator returned 0 and reported the reason `r`. -/
def FailsWith (o : Outcome) (r : Reason) : Prop :=
  o.ret = 0 ∧ o.reason = some r

instance (o : Outcome) (r : Reason) : Decidable (FailsWith o r) :=
  inferInstanceAs (Decidable (o.ret = 0 ∧ o.reason = some r))

/-- A character allowed in the amount field: a decimal digit, `.` or `,`. -/
def AmountChar (c : Char) : Prop :=
  isdigit c = true ∨ c = '.' ∨ c = ','

instance (c : Char) : Decidable (AmountChar c) :=
  inferInstanceAs (Decidable (isdigit c = true ∨ c = '.' ∨ c = ','))

/-- Index `p` holds the first `|` of `str` at or after index `start`. -/
def FirstBarFrom (str : List Char) (start p : Nat) : Prop :=
  start ≤ p ∧ p < strlen str ∧ charAt str p = '|' ∧
    ∀ i, start ≤ i → i < p → charAt str i ≠ '|'

/-- The two-digit day at offsets 2-3. -/
def dayOf (str : List Char) : Int :=
  10 * digit str 2 + digit str 3

/-- The two-digit month at offsets 5-6. -/
def monthOf (str : List Char) : Int :=
  10 * digit str 5 + digit str 6

/-- The four-digit year at offsets 8-11. -/
def yearOf (str : List Char) : Int :=
  1000 * digit str 8 + 100 * digit str 9 + 10 * digit str 10 + digit str 11

/-- A leap year in the words of the specification: divisible by 4, and not by
100 unless also by 400. -/
def LeapYear (y : Int) : Prop :=
  4 ∣ y ∧ (¬ 100 ∣ y ∨ 400 ∣ y)

/-- A date as a key of the lexicographic order on (year, month, day). -/
def dateKey (year month day : Int) : Lex (Int × Lex (Int × Int)) :=
  toLex (year, toLex (month, day))

/-- The current date that a `struct tm` stands for. -/
def today (tm : Tm) : Lex (Int × Lex (Int × Int)) :=
  dateKey (tm.tm_year + 1900) (tm.tm_mon + 1) tm.tm_mday

/-- The date is not later than the current date in the lexicographic order on
(year, month, day); it holds when the current date is not known. -/
def NotInFuture (year month day : Int) : Clock → Prop
  | .now tm => dateKey year month day ≤ today tm
  | _ => True

/-- Step `k` of the validation steps 1-14 of the specification, for a line
whose category separator is looked for at `p` and whose amount separator at
`q`. -/
def StepAt (k : Nat) (str : List Char) (clock : Clock) (p q : Nat) : Prop :=
  match k with
  | 1 => 18 ≤ strlen str
  | 2 => charAt str 0 = '+' ∨ charAt str 0 = '-'
  | 3 => charAt str 1 = '|' ∧ charAt str 12 = '|'
  | 4 => FirstBarFrom str 13 p
  | 5 => FirstBarFrom str (p + 1) q
  | 6 => ∀ i, 13 ≤ i → i < p → isdigit (charAt str i) = true
  | 7 => ∀ i, p + 1 ≤ i → i < q → AmountChar (charAt str i)
  | 8 => isdigit (charAt str 2) = true ∧ isdigit (charAt str 3) = true ∧
      isdigit (charAt str 5) = true ∧ isdigit (charAt str 6) = true ∧
      isdigit (charAt str 8) = true ∧ isdigit (charAt str 9) = true ∧
      isdigit (charAt str 10) = true ∧ isdigit (charAt str 11) = true
  | 9 => charAt str 4 = '.' ∧ charAt str 7 = '.'
  | 10 => 1 ≤ dayOf str ∧ dayOf str ≤ 31
  | 11 => 1 ≤ monthOf str ∧ monthOf str ≤ 12
  | 12 => 0 < yearOf str
  | 13 => ¬ (monthOf str = 2 ∧
      ((LeapYear (yearOf str) ∧ 29 < dayOf str) ∨
        ((monthOf str = 4 ∨ monthOf str = 6 ∨ monthOf str = 9 ∨ monthOf str = 11) ∧
          30 < dayOf str)))
  | 14 => NotInFuture (yearOf str) (monthOf str) (dayOf str) clock
  | _ => True

/-- The line passes steps 1 to `k` with its separators at `p` and `q`. -/
def PassesAt (k : Nat) (str : List Char) (clock : Clock) (p q : Nat) : Prop :=
  ∀ i, 1 ≤ i → i ≤ k → StepAt i str clock p q

/-- The line passes steps 1 to `k`. -/
def Passes (k : Nat) (str : List Char) (clock : Clock) : Prop :=
  ∃ p q, PassesAt k str clock p q

/-- The reason the specification gives to a failure of step `k`. -/
def stepReason : Nat → Reason
  | 1 => .TooShort
  | 2 => .InvalidSign
  | 3 => .InvalidSeparator
  | 4 => .MissingCategorySeparator
  | 5 => .MissingAmountSeparator
  | 6 => .InvalidCategory
  | 7 => .InvalidAmount
  | 8 => .InvalidDateDigits
  | 9 => .InvalidDateSeparator
  | 10 => .DayOutOfRange
  | 11 => .MonthOutOfRange
  | 12 => .YearIsZero
  | 13 => .LeapDayOutOfRange
  | _ => .DateInFuture

/-- Step `k` is the lowest-numbered step that the line violates: the line
passes steps 1 to `k - 1` and does not pass steps 1 to `k`. -/
def LowestViolated (k : Nat) (str : List Char) (clock : Clock) : Prop :=
  1 ≤ k ∧ k ≤ 14 ∧ Passes (k - 1) str clock ∧ ¬ Passes k str clock

/-- The step whose failure the specification reports with this reason. -/
def reasonStep : Reason → Nat
  | .TooShort => 1
  | .InvalidSign => 2
  | .InvalidSeparator => 3
  | .MissingCategorySeparator => 4
  | .MissingAmountSeparator => 5
  | .InvalidCategory => 6
  | .InvalidAmount => 7
  | .InvalidDateDigits => 8
  | .InvalidDateSeparator => 9
  | .DayOutOfRange => 10
  | .MonthOutOfRange => 11
  | .YearIsZero => 12
  | .LeapDayOutOfRange => 13
  | .DayOutOfRangeForMonth => 13
  | .DateInFuture => 14

/-- The conditions under which a line is well formed on the day `tm`: the
length, the sign, the four separators, the category and amount characters,
the shape of the date, its ranges, the leap-year rule and the current date. -/
def WellFormed (str : List Char) (tm : Tm) : Prop :=
  18 ≤ strlen str ∧
  (charAt str 0 = '+' ∨ charAt str 0 = '-') ∧
  (charAt str 1 = '|' ∧ charAt str 12 = '|') ∧
  (∃ p q, FirstBarFrom str 13 p ∧ FirstBarFrom str (p + 1) q ∧
    (∀ i, 13 ≤ i → i < p → isdigit (charAt str i) = true) ∧
    (∀ i, p < i → i < q → AmountChar (charAt str i))) ∧
  (isdigit (charAt str 2) = true ∧ isdigit (charAt str 3) = true ∧
    isdigit (charAt str 5) = true ∧ isdigit (charAt str 6) = true ∧
    isdigit (charAt str 8) = true ∧ isdigit (charAt str 9) = true ∧
    isdigit (charAt str 10) = true ∧ isdigit (charAt str 11) = true) ∧
  (charAt str 4 = '.' ∧ charAt str 7 = '.') ∧
  (1 ≤ dayOf str ∧ dayOf str ≤ 31) ∧
  (1 ≤ monthOf str ∧ monthOf str ≤ 12) ∧
  0 < yearOf str ∧
  ¬ (monthOf str = 2 ∧ LeapYear (yearOf str) ∧ 29 < dayOf str) ∧
  dateKey (yearOf str) (monthOf str) (dayOf str) ≤ today tm

instance (str : List Char) (start p : Nat) : Decidable (FirstBarFrom str start p) :=
  inferInstanceAs (Decidable (start ≤ p ∧ p < strlen str ∧ charAt str p = '|' ∧
    ∀ i, start ≤ i → i < p → charAt str i ≠ '|'))

instance (y : Int) : Decidable (LeapYear y) :=
  inferInstanceAs (Decidable (4 ∣ y ∧ (¬ 100 ∣ y ∨ 400 ∣ y)))

instance (year month day : Int) (clock : Clock) :
    Decidable (NotInFuture year month day clock) :=
  match clock with
  | .now tm => inferInstanceAs (Decidable (dateKey year month day ≤ today tm))
  | .time_failed => isTrue trivial
  | .localtime_failed => isTrue trivial

instance (k : Nat) (str : List Char) (clock : Clock) (p q : Nat) :
    Decidable (StepAt k str clock p q) :=
  match k with
  | 0 => isTrue trivial
  | 1 => inferInstanceAs (Decidable (18 ≤ strlen str))
  | 2 => inferInstanceAs (Decidable (charAt str 0 = '+' ∨ charAt str 0 = '-'))
  | 3 => inferInstanceAs (Decidable (charAt str 1 = '|' ∧ charAt str 12 = '|'))
  | 4 => inferInstanceAs (Decidable (FirstBarFrom str 13 p))
  | 5 => inferInstanceAs (Decidable (FirstBarFrom str (p + 1) q))
  | 6 => inferInstanceAs (Decidable (∀ i, 13 ≤ i → i < p → isdigit (charAt str i) = true))
  | 7 => inferInstanceAs (Decidable (∀ i, p + 1 ≤ i → i < q → AmountChar (charAt str i)))
  | 8 => inferInstanceAs (Decidable (isdigit (charAt str 2) = true ∧
      isdigit (charAt str 3) = true ∧ isdigit (charAt str 5) = true ∧
      isdigit (charAt str 6) = true ∧ isdigit (charAt str 8) = true ∧
      isdigit (charAt str 9) = true ∧ isdigit (charAt str 10) = true ∧
      isdigit (charAt str 11) = true))
  | 9 => inferInstanceAs (Decidable (charAt str 4 = '.' ∧ charAt str 7 = '.'))
  | 10 => inferInstanceAs (Decidable (1 ≤ dayOf str ∧ dayOf str ≤ 31))
  | 11 => inferInstanceAs (Decidable (1 ≤ monthOf str ∧ monthOf str ≤ 12))
  | 12 => inferInstanceAs (Decidable (0 < yearOf str))
  | 13 => inferInstanceAs (Decidable (¬ (monthOf str = 2 ∧
      ((LeapYear (yearOf str) ∧ 29 < dayOf str) ∨
        ((monthOf str = 4 ∨ monthOf str = 6 ∨ monthOf str = 9 ∨ monthOf str = 11) ∧
          30 < dayOf str)))))
  | 14 => inferInstanceAs (Decidable (NotInFuture (yearOf str) (monthOf str) (dayOf str) clock))
  | _ + 15 => isTrue trivial

instance (k : Nat) (str : List Char) (clock : Clock) (p q : Nat) :
    Decidable (PassesAt k str clock p q) :=
  inferInstanceAs (Decidable (∀ i, 1 ≤ i → i ≤ k → StepAt i str clock p q))

/-! ## The earlier variant, src/trunk/common.c -/

namespace Earlier

/-- The tail of the earlier `is_string_confirm_to_format` from the comment
`if date is in the future` to `return 0`. -/
def check_future (day month year : Int) (lineno : Nat) (clock : Clock) : Outcome :=
  match clock with
  | .time_failed => ⟨0, [Diag.perror_time]⟩
  | .localtime_failed => ⟨0, [Diag.localtime_error]⟩
  | .now local_time =>
    if year > local_time.tm_year + 1900 ∨
        (year = local_time.tm_year + 1900 ∧ month > local_time.tm_mon + 1) ∨
        (year = local_time.tm_year + 1900 ∧ month = local_time.tm_mon + 1 ∧
          day > local_time.tm_mday) then
      ⟨11, PRINTLN3 lineno .DateInFuture day month year⟩
    else ⟨0, []⟩

/-- The function `is_string_confirm_to_format` of `src/trunk/common.c`, the
earlier variant: no category field, return value 0 for success and the number
of the failed test otherwise. -/
def is_string_confirm_to_format (str : List Char) (lineno : Nat) (clock : Clock) : Outcome :=
  if strlen str < 15 then ⟨1, PRINTLN lineno .TooShort⟩
  else if charAt str 0 ≠ '-' ∧ charAt str 0 ≠ '+' then ⟨2, PRINTLN lineno .InvalidSign⟩
  else if charAt str 1 ≠ '|' ∨ charAt str 12 ≠ '|' then ⟨3, PRINTLN lineno .InvalidSeparator⟩
  else if ¬ (isdigit (charAt str 2) ∧ isdigit (charAt str 3) ∧
      isdigit (charAt str 5) ∧ isdigit (charAt str 6) ∧
      isdigit (charAt str 8) ∧ isdigit (charAt str 9) ∧
      isdigit (charAt str 10) ∧ isdigit (charAt str 11)) then
    ⟨4, PRINTLN lineno .InvalidDateDigits⟩
  else if charAt str 4 ≠ '.' ∨ charAt str 7 ≠ '.' then
    ⟨5, PRINTLN lineno .InvalidDateSeparator⟩
  else
    let day := digit str 2 * 10 + digit str 3
    if day > 31 ∨ day = 0 then ⟨6, PRINTLN1 lineno .DayOutOfRange day⟩
    else
      let month := digit str 5 * 10 + digit str 6
      if month > 12 ∨ month = 0 then ⟨7, PRINTLN1 lineno .MonthOutOfRange month⟩
      else
        let year :=
          digit str 8 * 1000 + digit str 9 * 100 + digit str 10 * 10 + digit str 11
        if year = 0 then ⟨8, PRINTLN lineno .YearIsZero⟩
        else if month = 2 then
          if ISLEAP year = true ∧ day > 29 then
            ⟨9, PRINTLN2 lineno .LeapDayOutOfRange day month⟩
          else if (month = 4 ∨ month = 6 ∨ month = 9 ∨ month = 11) ∧ day > 30 then
            ⟨10, PRINTLN2 lineno .DayOutOfRangeForMonth day month⟩
          else check_future day month year lineno clock
        else check_future day month year lineno clock

/-- The characters 2, 3, 5, 6, 8, 9, 10 and 11 are decimal digits. -/
def DateDigits (str : List Char) : Prop :=
  isdigit (charAt str 2) = true ∧ isdigit (charAt str 3) = true ∧
    isdigit (charAt str 5) = true ∧ isdigit (charAt str 6) = true ∧
    isdigit (charAt str 8) = true ∧ isdigit (charAt str 9) = true ∧
    isdigit (charAt str 10) = true ∧ isdigit (charAt str 11) = true

instance (str : List Char) : Decidable (DateDigits str) :=
  inferInstanceAs (Decidable (isdigit (charAt str 2) = true ∧ isdigit (charAt str 3) = true ∧
    isdigit (charAt str 5) = true ∧ isdigit (charAt str 6) = true ∧
    isdigit (charAt str 8) = true ∧ isdigit (charAt str 9) = true ∧
    isdigit (charAt str 10) = true ∧ isdigit (charAt str 11) = true))

/-- The return value that `src/trunk/common.h` documents (`@retval`) for the
first failing test, the tests taken in the order of the header: 1 too small
string, 2 wrong first field, 3 wrong separators, 4 date of non digital
symbols, 5 wrong separators of the date, 6 day out of range, 7 month out of
range, 8 year equal to 0, 9 day of month out of range for a leap year, 11
date in future; 0 when no test fails. -/
def documented_retval (str : List Char) (clock : Clock) : Int :=
  if strlen str < 15 then 1
  else if ¬ (charAt str 0 = '+' ∨ charAt str 0 = '-') then 2
  else if charAt str 1 ≠ '|' ∨ charAt str 12 ≠ '|' then 3
  else if ¬ DateDigits str then 4
  else if charAt str 4 ≠ '.' ∨ charAt str 7 ≠ '.' then 5
  else if dayOf str = 0 ∨ 31 < dayOf str then 6
  else if monthOf str = 0 ∨ 12 < monthOf str then 7
  else if yearOf str = 0 then 8
  else if monthOf str = 2 ∧ LeapYear (yearOf str) ∧ 29 < dayOf str then 9
  else if ¬ NotInFuture (yearOf str) (monthOf str) (dayOf str) clock then 11
  else 0

/-- None of the tests of the earlier variant fails on the day `tm`. -/
def NoTestFails (str : List Char) (tm : Tm) : Prop :=
  15 ≤ strlen str ∧ (charAt str 0 = '+' ∨ charAt str 0 = '-') ∧
  (charAt str 1 = '|' ∧ charAt str 12 = '|') ∧ DateDigits str ∧
  (charAt str 4 = '.' ∧ charAt str 7 = '.') ∧
  ¬ (dayOf str = 0 ∨ 31 < dayOf str) ∧ ¬ (monthOf str = 0 ∨ 12 < monthOf str) ∧
  ¬ yearOf str = 0 ∧ ¬ (monthOf str = 2 ∧ LeapYear (yearOf str) ∧ 29 < dayOf str) ∧
  ¬ today tm < dateKey (yearOf str) (monthOf str) (dayOf str)

end Earlier

/-! ## Canonical serialisation -/

/-- Modelled from the spec: the repository has no serialiser of records; this
is the character of the decimal digit `d`, used to print numbers. -/
def digitChar (d : Int) : Char :=
  Char.ofNat (48 + d.toNat)

/-- Modelled from the spec: a day or month zero-padded to 2 digits. -/
def pad2 (n : Int) : List Char :=
  [digitChar (n / 10 % 10), digitChar (n % 10)]

/-- Modelled from the spec: a year zero-padded to 4 digits. -/
def pad4 (n : Int) : List Char :=
  [digitChar (n / 1000 % 10), digitChar (n / 100 % 10), digitChar (n / 10 % 10),
    digitChar (n % 10)]

/-- Modelled from the spec: the sign and date of the canonical format,
`SIGN|DD.MM.YYYY|`. -/
def serialize_date (sign : Char) (day month year : Int) : List Char :=
  sign :: '|' :: (pad2 day ++ '.' :: (pad2 month ++ '.' :: (pad4 year ++ ['|'])))

/-- Modelled from the spec: the canonical format
`SIGN|DD.MM.YYYY|CATEGORY|AMOUNT|COMMENT` of a record whose amount is the value
`amount`, printed by `print`.  The category and the comment, which the code
reads over and does not store, are given as their text. -/
def serialize {F : Type} (print : F → List Char) (sign : Char) (day month year : Int)
    (category : List Char) (amount : F) (comment : List Char) : List Char :=
  serialize_date sign day month year ++ (category ++ '|' :: (print amount ++ '|' :: comment))

/-- Modelled from the spec: comma/point normalisation, every comma of the text
turned into a point. -/
def normalize (text : List Char) : List Char :=
  text.map fun c => if c = ',' then '.' else c

/-- Modelled from the spec: two texts are equivalent when they are the same
after comma/point normalisation. -/
def Equivalent (text1 text2 : List Char) : Prop :=
  normalize text1 = normalize text2

instance (text1 text2 : List Char) : Decidable (Equivalent text1 text2) :=
  inferInstanceAs (Decidable (normalize text1 = normalize text2))

/-- The characters of `str` from index `a` up to, not including, index `b`. -/
def field (str : List Char) (a b : Nat) : List Char :=
  (str.drop a).take (b - a)

/-! ## Calls in sequence -/

/-- The part of the process that a call of the validator reads or changes
besides its arguments: the standard error stream, and the object of type
`struct tm` with static storage duration that `localtime` fills and returns a
pointer to. -/
structure Process where
  stderr : List Diag
  static_tm : Tm
  deriving DecidableEq, Repr

namespace Stateful

/-- A call of `fprintf(stderr, ...)` or of `perror`: the lines are added to the
end of the stream. -/
def fprintf_stderr (pr : Process) (lines : List Diag) : Process :=
  ⟨pr.stderr ++ lines, pr.static_tm⟩

/-- The call `localtime(&unix_time)`.  When it succeeds it stores the
broken-down time in the static `struct tm`, over what the object held, and
returns a pointer to the object: `some` of the process after the call.  When
it fails it returns `NULL`: `none`. -/
def localtime (pr : Process) (clock : Clock) : Option Process :=
  match clock with
  | .now local_time => some ⟨pr.stderr, local_time⟩
  | _ => none

/-- The statement `local_time->tm_year += 1900;`, a write to the static
`struct tm`. -/
def add_1900 (pr : Process) : Process :=
  ⟨pr.stderr, ⟨pr.static_tm.tm_year + 1900, pr.static_tm.tm_mon, pr.static_tm.tm_mday⟩⟩

/-- The tail of `is_string_confirm_to_format` from the comment
`if date is in the future` to `return 1`, in a process: `local_time` points to
the static `struct tm`, which the comparisons read after the statement
`local_time->tm_year += 1900;` has changed it. -/
def check_future (pr : Process) (day month year : Int) (lineno : Nat) (clock : Clock) :
    Int × Process :=
  match clock with
  | .time_failed => (1, fprintf_stderr pr [Diag.perror_time])
  | _ =>
    match localtime pr clock with
    | none => (1, fprintf_stderr pr [Diag.localtime_error])
    | some pr1 =>
      let pr2 := add_1900 pr1
      if year > pr2.static_tm.tm_year ∨
          (year = pr2.static_tm.tm_year ∧ month > pr2.static_tm.tm_mon + 1) ∨
          (year = pr2.static_tm.tm_year ∧ month = pr2.static_tm.tm_mon + 1 ∧
            day > pr2.static_tm.tm_mday) then
        (0, fprintf_stderr pr2 (PRINTLN3 lineno .DateInFuture day month year))
      else (1, pr2)

/-- The function `is_string_confirm_to_format` of `src/trunk/src/common.c` as a
call in a process: the value returned and the process after the call. -/
def is_string_confirm_to_format (pr : Process) (str : List Char) (lineno : Nat)
    (clock : Clock) : Int × Process :=
  if strlen str < 18 then (0, fprintf_stderr pr (PRINTLN lineno .TooShort))
  else if charAt str 0 ≠ '-' ∧ charAt str 0 ≠ '+' then
    (0, fprintf_stderr pr (PRINTLN lineno .InvalidSign))
  else if charAt str 1 ≠ '|' ∨ charAt str 12 ≠ '|' then
    (0, fprintf_stderr pr (PRINTLN lineno .InvalidSeparator))
  else
    match strchr str 13 '|' with
    | none => (0, fprintf_stderr pr (PRINTLN lineno .MissingCategorySeparator))
    | some sep_cat =>
      match strchr str (sep_cat + 1) '|' with
      | none => (0, fprintf_stderr pr (PRINTLN lineno .MissingAmountSeparator))
      | some sep_amount =>
        if category_loop str 13 (sep_cat - 13) = false then
          (0, fprintf_stderr pr (PRINTLN lineno .InvalidCategory))
        else if amount_loop str (sep_cat + 1) (sep_amount - (sep_cat + 1)) = false then
          (0, fprintf_stderr pr (PRINTLN lineno .InvalidAmount))
        else if ¬ (isdigit (charAt str 2) ∧ isdigit (charAt str 3) ∧
            isdigit (charAt str 5) ∧ isdigit (charAt str 6) ∧
            isdigit (charAt str 8) ∧ isdigit (charAt str 9) ∧
            isdigit (charAt str 10) ∧ isdigit (charAt str 11)) then
          (0, fprintf_stderr pr (PRINTLN lineno .InvalidDateDigits))
        else if charAt str 4 ≠ '.' ∨ charAt str 7 ≠ '.' then
          (0, fprintf_stderr pr (PRINTLN lineno .InvalidDateSeparator))
        else
          let day := digit str 2 * 10 + digit str 3
          if day > 31 ∨ day = 0 then
            (0, fprintf_stderr pr (PRINTLN1 lineno .DayOutOfRange day))
          else
            let month := digit str 5 * 10 + digit str 6
            if month > 12 ∨ month = 0 then
              (0, fprintf_stderr pr (PRINTLN1 lineno .MonthOutOfRange month))
            else
              let year :=
                digit str 8 * 1000 + digit str 9 * 100 + digit str 10 * 10 + digit str 11
              if year = 0 then (0, fprintf_stderr pr (PRINTLN lineno .YearIsZero))
              else if month = 2 then
                if ISLEAP year = true ∧ day > 29 then
                  (0, fprintf_stderr pr (PRINTLN2 lineno .LeapDayOutOfRange day month))
                else if (month = 4 ∨ month = 6 ∨ month = 9 ∨ month = 11) ∧ day > 30 then
                  (0, fprintf_stderr pr (PRINTLN2 lineno .DayOutOfRangeForMonth day month))
                else check_future pr day month year lineno clock
              else check_future pr day month year lineno clock

/-- The process after the validator was called on each of the given lines,
one after the other, each with its line number and the clock of its call. -/
def run_calls (pr : Process) : List (List Char × Nat × Clock) → Process
  | [] => pr
  | (str, lineno, clock) :: rest =>
    run_calls (is_string_confirm_to_format pr str lineno clock).2 rest

end Stateful

/-! ## openfm.c: the line processor -/

/-- The constant `MAX_WRONG_LINES`. -/
def MAX_WRONG_LINES : Nat := 5

/-- The C type `float` as the processor uses it, kept abstract: `0.0`, the
addition of `+=`, the value that `%f` of `sscanf` assigns for the text it
matched, and the decimal-point character of the numeric locale. -/
structure FloatOps (F : Type) where
  zero : F
  add : F → F → F
  strtof : List Char → F
  radix : Char

/-- Amounts kept as text: an accumulator is the list of the amounts added to
it, in order.  Every other choice of `FloatOps` with the decimal point `.` is
an image of this one. -/
def symbolic : FloatOps (List (List Char)) :=
  ⟨[], fun acc x => acc ++ x, fun item => [item], '.'⟩

/-- The C function `isspace` in the C locale. -/
def isspace (c : Char) : Bool :=
  c = ' ' || (9 ≤ c.toNat && c.toNat ≤ 13)

/-- An ordinary character in the format of `sscanf`: the next character of
the input has to be this one.  The result is the input left, `none` when the
directive fails. -/
def scan_literal (c : Char) : List Char → Option (List Char)
  | [] => none
  | x :: rest => if x = c then some rest else none

/-- The directives `%*u` (no width) and `%*2u`, `%*4u` of `sscanf`: white
space is skipped, then an optional sign and at least one decimal digit are
matched, within the width.  The result is the input left, `none` when the
directive fails. -/
def scan_unsigned (width : Option Nat) (input : List Char) : Option (List Char) :=
  let input := input.dropWhile isspace
  let w := match width with
    | some w => w
    | none => input.length
  match input with
  | [] => none
  | c :: rest =>
    if c = '+' ∨ c = '-' then
      let digits := (rest.takeWhile isdigit).take (w - 1)
      if digits.isEmpty then none else some (rest.drop digits.length)
    else
      let digits := (input.takeWhile isdigit).take w
      if digits.isEmpty then none else some (input.drop digits.length)

/-- The directive `%f` of `sscanf` on text made of signs, decimal digits and
the decimal point (on a line that the validator accepted no other character
comes before the next `|`, so that exponents, infinities and hexadecimal
forms are left out): white space is skipped, then an optional sign and digits
with at most one decimal point are matched, at least one digit among them.
The result is the text matched and the input left, `none` when the directive
fails. -/
def scan_float (radix : Char) (input : List Char) : Option (List Char × List Char) :=
  let input := input.dropWhile isspace
  let signed : List Char × List Char := match input with
    | [] => ([], [])
    | c :: rest => if c = '+' ∨ c = '-' then ([c], rest) else ([], input)
  let int_part := signed.2.takeWhile isdigit
  let after := signed.2.drop int_part.length
  let frac : List Char := match after with
    | [] => []
    | c :: rest => if c = radix then c :: rest.takeWhile isdigit else []
  if int_part.length + (frac.length - 1) = 0 then none
  else some (signed.1 ++ int_part ++ frac, after.drop frac.length)

/-- What a call of `sscanf` with the two receiving arguments `&sign` and
`&curr` did: it met the end of the input before the first conversion, it
assigned the sign only, or it assigned both. -/
inductive Scanned (F : Type)
  | eof
  | sign_only (sign : Char)
  | both (sign : Char) (curr : F)
  deriving DecidableEq, Repr

/-- The value that `sscanf` returns: `EOF`, or the number of assignments. -/
def Scanned.ret {F : Type} : Scanned F → Int
  | .eof => -1
  | .sign_only _ => 1
  | .both _ _ => 2

/-- The directives `|%*2u.%*2u.%*4u|%*u|%f` of the format, one after the
other on the input that follows the sign: the text that `%f` matched and the
input left, `none` when one of the directives fails. -/
def scan_after_sign (radix : Char) (rest : List Char) : Option (List Char × List Char) := do
  let r ← scan_literal '|' rest
  let r ← scan_unsigned (some 2) r
  let r ← scan_literal '.' r
  let r ← scan_unsigned (some 2) r
  let r ← scan_literal '.' r
  let r ← scan_unsigned (some 4) r
  let r ← scan_literal '|' r
  let r ← scan_unsigned none r
  let r ← scan_literal '|' r
  scan_float radix r

/-- The call
`sscanf(curline, "%c|%*2u.%*2u.%*4u|%*u|%f|%*s", &sign, &curr)`.  What follows
`%f` in the format assigns nothing and does not change the value returned. -/
def sscanf_record {F : Type} (ops : FloatOps F) (curline : List Char) : Scanned F :=
  match curline with
  | [] => .eof
  | sign :: rest =>
    match scan_after_sign ops.radix rest with
    | none => .sign_only sign
    | some (item, _) => .both sign (ops.strtof item)

/-- The variables of `read_and_parse_datafile` that outlive an iteration of
its loop.  The counters `lineno` and `record_count` are `unsigned long` in C
and `fails` is an `int` that stays below 6; they are taken as natural numbers,
for inputs of fewer than `ULONG_MAX` lines.  What the loop and the validator
write to `stdout` and `stderr` on the way is left out of the state. -/
structure Totals (F : Type) where
  lineno : Nat
  record_count : Nat
  fails : Nat
  plus : F
  minus : F
  deriving DecidableEq, Repr

/-- The test `strlen(curline) == 1 && curline[0] == '\n'` for an empty
line. -/
def blank_line (curline : List Char) : Prop :=
  strlen curline = 1 ∧ charAt curline 0 = '\n'

instance (curline : List Char) : Decidable (blank_line curline) :=
  inferInstanceAs (Decidable (strlen curline = 1 ∧ charAt curline 0 = '\n'))

/-- The lines `pos = strchr(curline, '\n'); if (pos != NULL) *pos = '\0';`:
the string that `curline` holds afterwards. -/
def kill_trailing_newline (curline : List Char) : List Char :=
  match strchr curline 0 '\n' with
  | some pos => curline.take pos
  | none => curline

/-- One iteration of the loop `while (fgets(curline, LINE_MAX + 1, fp) != NULL)`
of `read_and_parse_datafile`, for the string `curline` that `fgets` stored and
the clock of this iteration; `none` is `exit(EXIT_FAILURE)`. -/
def loop_body {F : Type} (ops : FloatOps F) (st : Totals F) (curline : List Char)
    (clock : Clock) : Option (Totals F) :=
  let lineno := st.lineno + 1
  if blank_line curline then some { st with lineno := lineno }
  else
    let curline := kill_trailing_newline curline
    if st.fails = MAX_WRONG_LINES then none
    else if (is_string_confirm_to_format curline lineno clock).ret = 0 then
      some { st with lineno := lineno, fails := st.fails + 1 }
    else
      match sscanf_record ops curline with
      | .both sign curr =>
        if sign = '-' then
          some { st with lineno := lineno, record_count := st.record_count + 1,
                         minus := ops.add st.minus curr }
        else
          some { st with lineno := lineno, record_count := st.record_count + 1,
                         plus := ops.add st.plus curr }
      | _ => some { st with lineno := lineno, fails := st.fails + 1 }

/-- The loop of `read_and_parse_datafile` over the strings that `fgets`
returns, each with the clock of its iteration, until `fgets` returns `NULL`;
`none` is `exit(EXIT_FAILURE)`. -/
def run_loop {F : Type} (ops : FloatOps F) (st : Totals F) :
    List (List Char × Clock) → Option (Totals F)
  | [] => some st
  | (curline, clock) :: rest =>
    match loop_body ops st curline clock with
    | none => none
    | some st2 => run_loop ops st2 rest

/-- The function `read_and_parse_datafile` of `src/trunk/src/openfm.c` on a
data file that could be opened: the totals from which the summary (lines read,
records, profit, costs, balance) is printed after the loop, or `none` when the
program left through `exit(EXIT_FAILURE)` and printed no summary. -/
def read_and_parse_datafile {F : Type} (ops : FloatOps F)
    (input : List (List Char × Clock)) : Option (Totals F) :=
  run_loop ops ⟨0, 0, 0, ops.zero, ops.zero⟩ input

/-- The number of empty lines in the input. -/
def blank_count (input : List (List Char × Clock)) : Nat :=
  input.countP (fun x => decide (blank_line x.1))

/-- The state with its line counter moved on by `d`. -/
def Totals.skip {F : Type} (d : Nat) (st : Totals F) : Totals F :=
  { st with lineno := st.lineno + d }

/-! ## The record of a line, printed again -/

/-- A decimal number as it is written where the decimal point is `radix`:
decimal digits, then optionally the decimal point and decimal digits, with at
least one digit in all. -/
def Decimal (radix : Char) (text : List Char) : Prop :=
  ∃ int_part frac : List Char, text = int_part ++ frac ∧
    (∀ c ∈ int_part, isdigit c = true) ∧
    (frac = [] ∨ ∃ digits, frac = radix :: digits ∧ ∀ c ∈ digits, isdigit c = true) ∧
    0 < int_part.length + (frac.length - 1)

/-- Modelled from the spec: the printing of an amount that is kept as text
(`symbolic`): the text that the amount was read from. -/
def symbolic_print (amount : List (List Char)) : List Char :=
  amount.flatten

/-- Modelled from the spec: the line printed again from what the code takes
out of it.  The sign and the amount are the ones that `sscanf` assigns, day,
month and year the numbers that the validator computes, the category and the
comment the text between and after the separators that the validator finds;
`none` when `sscanf` does not assign both the sign and the amount. -/
def reserialize {F : Type} (ops : FloatOps F) (print : F → List Char) (str : List Char) :
    Option (List Char) :=
  match sscanf_record ops str with
  | .both sign curr =>
    match strchr str 13 '|' with
    | none => none
    | some sep_cat =>
      match strchr str (sep_cat + 1) '|' with
      | none => none
      | some sep_amount =>
        some (serialize print sign (digit str 2 * 10 + digit str 3)
          (digit str 5 * 10 + digit str 6)
          (digit str 8 * 1000 + digit str 9 * 100 + digit str 10 * 10 + digit str 11)
          (field str 13 sep_cat) curr (str.drop (sep_amount + 1)))
  | _ => none

/-! ## Indexing with a bound check -/

/-- The list holds no NUL: it is the text of a C string. -/
def CString (str : List Char) : Prop :=
  ∀ c ∈ str, c ≠ Char.ofNat 0

instance (str : List Char) : Decidable (CString str) :=
  inferInstanceAs (Decidable (∀ c ∈ str, c ≠ Char.ofNat 0))

namespace Checked

/-- Reads `str[i]` with a bound check: the characters and the terminator, at
index `strlen str`, can be read; an index beyond is out of bounds, `none`. -/
def read (str : List Char) (i : Nat) : Option Char :=
  if i ≤ strlen str then some (charAt str i) else none

/-- The loop of `strchr` from index `i`, every character read through `read`:
`some (some p)` for a pointer to index `p`, `some none` for `NULL`, and `none`
for a read out of bounds or an end of the fuel. -/
def strchr_scan (str : List Char) (c : Char) : Nat → Nat → Option (Option Nat)
  | 0, _ => none
  | fuel + 1, i =>
    match read str i with
    | none => none
    | some ch =>
      if ch = c then some (some i)
      else if ch = Char.ofNat 0 then some none
      else strchr_scan str c fuel (i + 1)

/-- The call `strchr(str + start, c)`, checked. -/
def strchr (fuel : Nat) (str : List Char) (start : Nat) (c : Char) : Option (Option Nat) :=
  strchr_scan str c fuel start

/-- The loop over the category, every character read through `read`. -/
def category_loop (str : List Char) : Nat → Nat → Option Bool
  | _, 0 => some true
  | i, n + 1 =>
    match read str i with
    | none => none
    | some ch => if !isdigit ch then some false else category_loop str (i + 1) n

/-- The loop over the amount, every character read through `read`. -/
def amount_loop (str : List Char) : Nat → Nat → Option Bool
  | _, 0 => some true
  | i, n + 1 =>
    match read str i with
    | none => none
    | some ch =>
      if (!isdigit ch) && ch != '.' && ch != ',' then some false
      else amount_loop str (i + 1) n

/-- The expression `c - '0'` for a character read. -/
def digit_of (c : Char) : Int :=
  (c.toNat : Int) - 48

/-- The tests on the day, the month, the year and the current date, on the
date characters read. -/
def check_date (c2 c3 c5 c6 c8 c9 c10 c11 : Char) (lineno : Nat) (clock : Clock) : Outcome :=
  let day := digit_of c2 * 10 + digit_of c3
  if day > 31 ∨ day = 0 then ⟨0, PRINTLN1 lineno .DayOutOfRange day⟩
  else
    let month := digit_of c5 * 10 + digit_of c6
    if month > 12 ∨ month = 0 then ⟨0, PRINTLN1 lineno .MonthOutOfRange month⟩
    else
      let year := digit_of c8 * 1000 + digit_of c9 * 100 + digit_of c10 * 10 + digit_of c11
      if year = 0 then ⟨0, PRINTLN lineno .YearIsZero⟩
      else if month = 2 then
        if ISLEAP year = true ∧ day > 29 then
          ⟨0, PRINTLN2 lineno .LeapDayOutOfRange day month⟩
        else if (month = 4 ∨ month = 6 ∨ month = 9 ∨ month = 11) ∧ day > 30 then
          ⟨0, PRINTLN2 lineno .DayOutOfRangeForMonth day month⟩
        else check_future day month year lineno clock
      else check_future day month year lineno clock

/-- The function `is_string_confirm_to_format` of `src/trunk/src/common.c` with
every read of the string checked against its bounds: `none` when a read is out
of bounds (or the fuel of a scan ends), else the outcome. -/
def is_string_confirm_to_format (fuel : Nat) (str : List Char) (lineno : Nat)
    (clock : Clock) : Option Outcome :=
  if strlen str < 18 then some ⟨0, PRINTLN lineno .TooShort⟩
  else
  match read str 0 with
  | none => none
  | some c0 =>
  if c0 ≠ '-' ∧ c0 ≠ '+' then some ⟨0, PRINTLN lineno .InvalidSign⟩
  else
  match read str 1, read str 12 with
  | some c1, some c12 =>
    if c1 ≠ '|' ∨ c12 ≠ '|' then some ⟨0, PRINTLN lineno .InvalidSeparator⟩
    else
    match strchr fuel str 13 '|' with
    | none => none
    | some none => some ⟨0, PRINTLN lineno .MissingCategorySeparator⟩
    | some (some sep_cat) =>
      match strchr fuel str (sep_cat + 1) '|' with
      | none => none
      | some none => some ⟨0, PRINTLN lineno .MissingAmountSeparator⟩
      | some (some sep_amount) =>
        match category_loop str 13 (sep_cat - 13) with
        | none => none
        | some false => some ⟨0, PRINTLN lineno .InvalidCategory⟩
        | some true =>
          match amount_loop str (sep_cat + 1) (sep_amount - (sep_cat + 1)) with
          | none => none
          | some false => some ⟨0, PRINTLN lineno .InvalidAmount⟩
          | some true =>
            match read str 2, read str 3, read str 5, read str 6, read str 8, read str 9,
              read str 10, read str 11 with
            | some c2, some c3, some c5, some c6, some c8, some c9, some c10, some c11 =>
              if ¬ (isdigit c2 ∧ isdigit c3 ∧ isdigit c5 ∧ isdigit c6 ∧
                  isdigit c8 ∧ isdigit c9 ∧ isdigit c10 ∧ isdigit c11) then
                some ⟨0, PRINTLN lineno .InvalidDateDigits⟩
              else
              match read str 4, read str 7 with
              | some c4, some c7 =>
                if c4 ≠ '.' ∨ c7 ≠ '.' then some ⟨0, PRINTLN lineno .InvalidDateSeparator⟩
                else some (check_date c2 c3 c5 c6 c8 c9 c10 c11 lineno clock)
              | _, _ => none
            | _, _, _, _, _, _, _, _ => none
  | _, _ => none

namespace Earlier

/-- The tests of the earlier variant on the day, the month, the year and the
current date, on the date characters read. -/
def check_date (c2 c3 c5 c6 c8 c9 c10 c11 : Char) (lineno : Nat) (clock : Clock) : Outcome :=
  let day := digit_of c2 * 10 + digit_of c3
  if day > 31 ∨ day = 0 then ⟨6, PRINTLN1 lineno .DayOutOfRange day⟩
  else
    let month := digit_of c5 * 10 + digit_of c6
    if month > 12 ∨ month = 0 then ⟨7, PRINTLN1 lineno .MonthOutOfRange month⟩
    else
      let year := digit_of c8 * 1000 + digit_of c9 * 100 + digit_of c10 * 10 + digit_of c11
      if year = 0 then ⟨8, PRINTLN lineno .YearIsZero⟩
      else if month = 2 then
        if ISLEAP year = true ∧ day > 29 then
          ⟨9, PRINTLN2 lineno .LeapDayOutOfRange day month⟩
        else if (month = 4 ∨ month = 6 ∨ month = 9 ∨ month = 11) ∧ day > 30 then
          ⟨10, PRINTLN2 lineno .DayOutOfRangeForMonth day month⟩
        else OpenFM.Earlier.check_future day month year lineno clock
      else OpenFM.Earlier.check_future day month year lineno clock

/-- The function `is_string_confirm_to_format` of `src/trunk/common.c` with
every read of the string checked against its bounds. -/
def is_string_confirm_to_format (str : List Char) (lineno : Nat) (clock : Clock) :
    Option Outcome :=
  if strlen str < 15 then some ⟨1, PRINTLN lineno .TooShort⟩
  else
  match read str 0 with
  | none => none
  | some c0 =>
  if c0 ≠ '-' ∧ c0 ≠ '+' then some ⟨2, PRINTLN lineno .InvalidSign⟩
  else
  match read str 1, read str 12 with
  | some c1, some c12 =>
    if c1 ≠ '|' ∨ c12 ≠ '|' then some ⟨3, PRINTLN lineno .InvalidSeparator⟩
    else
    match read str 2, read str 3, read str 5, read str 6, read str 8, read str 9,
      read str 10, read str 11 with
    | some c2, some c3, some c5, some c6, some c8, some c9, some c10, some c11 =>
      if ¬ (isdigit c2 ∧ isdigit c3 ∧ isdigit c5 ∧ isdigit c6 ∧
          isdigit c8 ∧ isdigit c9 ∧ isdigit c10 ∧ isdigit c11) then
        some ⟨4, PRINTLN lineno .InvalidDateDigits⟩
      else
      match read str 4, read str 7 with
      | some c4, some c7 =>
        if c4 ≠ '.' ∨ c7 ≠ '.' then some ⟨5, PRINTLN lineno .InvalidDateSeparator⟩
        else some (check_date c2 c3 c5 c6 c8 c9 c10 c11 lineno clock)
      | _, _ => none
    | _, _, _, _, _, _, _, _ => none
  | _, _ => none

end Earlier

end Checked

/-! ## libc lemmas -/

theorem strchr_scan_eq_some (c : Char) : ∀ (l : List Char) (i p : Nat),
    strchr_scan c l i = some p ↔
      ∃ k, p = i + k ∧ k < l.length ∧ l.getD k (Char.ofNat 0) = c ∧
        ∀ j, j < k → l.getD j (Char.ofNat 0) ≠ c := by
  intro l
  induction l with
  | nil => intro i p; simp [strchr_scan]
  | cons x rest ih =>
    intro i p
    by_cases hx : x = c
    · simp only [strchr_scan, hx, if_true, Option.some.injEq]
      constructor
      · intro h
        exact ⟨0, by omega, by simp, by simp, by intro j hj; omega⟩
      · rintro ⟨k, hk, -, -, hall⟩
        cases k with
        | zero => omega
        | succ k => exact absurd (by simp) (hall 0 (by omega))
    · simp only [strchr_scan, hx, if_false, ih]
      constructor
      · rintro ⟨k, hk, hlen, hget, hall⟩
        refine ⟨k + 1, by omega, by simpa using hlen, by simpa using hget, ?_⟩
        intro j hj
        cases j with
        | zero => simpa using hx
        | succ j => simpa using hall j (by omega)
      · rintro ⟨k, hk, hlen, hget, hall⟩
        cases k with
        | zero => exact absurd (by simpa using hget) hx
        | succ k =>
          refine ⟨k, by omega, by simpa using hlen, by simpa using hget, ?_⟩
          intro j hj
          simpa using hall (j + 1) (by omega)

theorem strchr_scan_eq_none (c : Char) : ∀ (l : List Char) (i : Nat),
    strchr_scan c l i = none ↔ ∀ j, j < l.length → l.getD j (Char.ofNat 0) ≠ c := by
  intro l
  induction l with
  | nil => intro i; simp [strchr_scan]
  | cons x rest ih =>
    intro i
    by_cases hx : x = c
    · simp only [strchr_scan, hx, if_true]
      constructor
      · intro h; cases h
      · intro h; exact absurd (by simp) (h 0 (by simp))
    · simp only [strchr_scan, hx, if_false, ih]
      constructor
      · intro h j hj
        cases j with
        | zero => simpa using hx
        | succ j => simpa using h j (by simpa using hj)
      · intro h j hj
        simpa using h (j + 1) (by simpa using hj)

theorem getD_drop_add (str : List Char) (start k : Nat) :
    (str.drop start).getD k (Char.ofNat 0) = charAt str (start + k) := by
  simp [charAt, List.getD_eq_getElem?_getD, List.getElem?_drop]

theorem strchr_eq_some_iff (str : List Char) (start p : Nat) :
    strchr str start '|' = some p ↔ FirstBarFrom str start p := by
  unfold strchr FirstBarFrom strlen
  rw [strchr_scan_eq_some]
  constructor
  · rintro ⟨k, rfl, hlen, hget, hall⟩
    rw [getD_drop_add] at hget
    refine ⟨by omega, by simp at hlen; omega, hget, ?_⟩
    intro i h1 h2
    have := hall (i - start) (by omega)
    rw [getD_drop_add] at this
    rwa [show start + (i - start) = i by omega] at this
  · rintro ⟨h1, h2, h3, h4⟩
    refine ⟨p - start, by omega, by simp; omega, ?_, ?_⟩
    · rw [getD_drop_add, show start + (p - start) = p by omega]; exact h3
    · intro j hj
      rw [getD_drop_add]
      exact h4 _ (by omega) (by omega)

theorem strchr_eq_none_iff (str : List Char) (start : Nat) :
    strchr str start '|' = none ↔
      ∀ i, start ≤ i → i < strlen str → charAt str i ≠ '|' := by
  unfold strchr strlen
  rw [strchr_scan_eq_none]
  constructor
  · intro h i h1 h2
    have := h (i - start) (by simp; omega)
    rw [getD_drop_add] at this
    rwa [show start + (i - start) = i by omega] at this
  · intro h j hj
    rw [getD_drop_add]
    exact h _ (by omega) (by simp at hj; omega)

theorem category_loop_eq_true (str : List Char) : ∀ (n i : Nat),
    category_loop str i n = true ↔
      ∀ j, i ≤ j → j < i + n → isdigit (charAt str j) = true := by
  intro n
  induction n with
  | zero => intro i; simp [category_loop]; intro j h1 h2; omega
  | succ n ih =>
    intro i
    by_cases hd : isdigit (charAt str i) = true
    · simp only [category_loop, hd, Bool.not_true, Bool.false_eq_true, if_false, ih]
      constructor
      · intro h j h1 h2
        rcases Nat.eq_or_lt_of_le h1 with rfl | h3
        · exact hd
        · exact h j h3 (by omega)
      · intro h j h1 h2
        exact h j (by omega) (by omega)
    · simp only [category_loop, hd, Bool.not_false, if_true, Bool.false_eq_true, false_iff]
      intro h
      exact hd (h i (by omega) (by omega))

theorem amount_loop_eq_true (str : List Char) : ∀ (n i : Nat),
    amount_loop str i n = true ↔
      ∀ j, i ≤ j → j < i + n → AmountChar (charAt str j) := by
  intro n
  induction n with
  | zero => intro i; simp [amount_loop]; intro j h1 h2; omega
  | succ n ih =>
    intro i
    by_cases hd : AmountChar (charAt str i)
    · have hc : ((!isdigit (charAt str i)) && charAt str i != '.' && charAt str i != ',') = false := by
        unfold AmountChar at hd
        rcases hd with h | h | h <;> simp [h]
      simp only [amount_loop, hc, Bool.false_eq_true, if_false, ih]
      constructor
      · intro h j h1 h2
        rcases Nat.eq_or_lt_of_le h1 with rfl | h3
        · exact hd
        · exact h j h3 (by omega)
      · intro h j h1 h2
        exact h j (by omega) (by omega)
    · have hc : ((!isdigit (charAt str i)) && charAt str i != '.' && charAt str i != ',') = true := by
        unfold AmountChar at hd
        simp only [not_or] at hd
        simp [hd.1, hd.2.1, hd.2.2]
      simp only [amount_loop, hc, if_true, Bool.false_eq_true, false_iff]
      intro h
      exact hd (h i (by omega) (by omega))

/-! ## The code's tests and the steps of the specification -/

theorem dayOf_eq (str : List Char) : digit str 2 * 10 + digit str 3 = dayOf str := by
  unfold dayOf; ring

theorem monthOf_eq (str : List Char) : digit str 5 * 10 + digit str 6 = monthOf str := by
  unfold monthOf; ring

theorem yearOf_eq (str : List Char) :
    digit str 8 * 1000 + digit str 9 * 100 + digit str 10 * 10 + digit str 11 = yearOf str := by
  unfold yearOf; ring

theorem ISLEAP_iff (y : Int) : ISLEAP y = true ↔ LeapYear y := by
  unfold ISLEAP LeapYear
  simp [Int.dvd_iff_tmod_eq_zero]

theorem dateKey_le_today (y m d : Int) (tm : Tm) :
    dateKey y m d ≤ today tm ↔
      ¬ (y > tm.tm_year + 1900 ∨ (y = tm.tm_year + 1900 ∧ m > tm.tm_mon + 1) ∨
        (y = tm.tm_year + 1900 ∧ m = tm.tm_mon + 1 ∧ d > tm.tm_mday)) := by
  unfold today dateKey
  rw [Prod.Lex.le_iff]
  simp only [ofLex_toLex]
  rw [Prod.Lex.le_iff]
  simp only []
  omega

theorem FirstBarFrom_unique (str : List Char) (start p p2 : Nat)
    (h : FirstBarFrom str start p) (h2 : FirstBarFrom str start p2) : p = p2 := by
  have e : some p = some p2 := by
    rw [← (strchr_eq_some_iff str start p).mpr h, (strchr_eq_some_iff str start p2).mpr h2]
  exact Option.some.inj e

theorem PassesAt_mono (j k : Nat) (str : List Char) (clock : Clock) (p q : Nat)
    (hjk : j ≤ k) (h : PassesAt k str clock p q) : PassesAt j str clock p q :=
  fun i h1 h2 => h i h1 (le_trans h2 hjk)

theorem PassesAt_succ (k : Nat) (str : List Char) (clock : Clock) (p q : Nat)
    (h : PassesAt k str clock p q) (hk : StepAt (k + 1) str clock p q) :
    PassesAt (k + 1) str clock p q := by
  intro i h1 h2
  rcases Nat.eq_or_lt_of_le h2 with rfl | h3
  · exact hk
  · exact h i h1 (by omega)

theorem category_loop_of_steps (str : List Char) (clock : Clock) (p q : Nat)
    (h4 : StepAt 4 str clock p q) :
    category_loop str 13 (p - 13) = false ↔ ¬ StepAt 6 str clock p q := by
  have hp : 13 + (p - 13) = p := by have := h4.1; omega
  rw [← Bool.not_eq_true, category_loop_eq_true, hp]
  rfl

theorem amount_loop_of_steps (str : List Char) (clock : Clock) (p q : Nat)
    (h5 : StepAt 5 str clock p q) :
    amount_loop str (p + 1) (q - (p + 1)) = false ↔ ¬ StepAt 7 str clock p q := by
  have hq : p + 1 + (q - (p + 1)) = q := by have := h5.1; omega
  rw [← Bool.not_eq_true, amount_loop_eq_true, hq]
  rfl

/-- The code's normal form once steps 1-7 hold: what is left is the tests on
the date. -/
theorem eval_of_passes7 (str : List Char) (lineno : Nat) (clock : Clock) (p q : Nat)
    (h : PassesAt 7 str clock p q) :
    is_string_confirm_to_format str lineno clock =
      if ¬ StepAt 8 str clock p q then ⟨0, PRINTLN lineno .InvalidDateDigits⟩
      else if ¬ StepAt 9 str clock p q then ⟨0, PRINTLN lineno .InvalidDateSeparator⟩
      else if dayOf str > 31 ∨ dayOf str = 0 then
        ⟨0, PRINTLN1 lineno .DayOutOfRange (dayOf str)⟩
      else if monthOf str > 12 ∨ monthOf str = 0 then
        ⟨0, PRINTLN1 lineno .MonthOutOfRange (monthOf str)⟩
      else if yearOf str = 0 then ⟨0, PRINTLN lineno .YearIsZero⟩
      else if monthOf str = 2 ∧ LeapYear (yearOf str) ∧ dayOf str > 29 then
        ⟨0, PRINTLN2 lineno .LeapDayOutOfRange (dayOf str) (monthOf str)⟩
      else check_future (dayOf str) (monthOf str) (yearOf str) lineno clock := by
  have h1 : 18 ≤ strlen str := h 1 (by omega) (by omega)
  have h2 : charAt str 0 = '+' ∨ charAt str 0 = '-' := h 2 (by omega) (by omega)
  have h3 : charAt str 1 = '|' ∧ charAt str 12 = '|' := h 3 (by omega) (by omega)
  have h4 : StepAt 4 str clock p q := h 4 (by omega) (by omega)
  have h5 : StepAt 5 str clock p q := h 5 (by omega) (by omega)
  have h6 : StepAt 6 str clock p q := h 6 (by omega) (by omega)
  have h7 : StepAt 7 str clock p q := h 7 (by omega) (by omega)
  have c4 : strchr str 13 '|' = some p := (strchr_eq_some_iff str 13 p).mpr h4
  have c5 : strchr str (p + 1) '|' = some q := (strchr_eq_some_iff str (p + 1) q).mpr h5
  have c6 : ¬ category_loop str 13 (p - 13) = false :=
    fun hc => (category_loop_of_steps str clock p q h4).mp hc h6
  have c7 : ¬ amount_loop str (p + 1) (q - (p + 1)) = false :=
    fun hc => (amount_loop_of_steps str clock p q h5).mp hc h7
  have c2 : ¬ (charAt str 0 ≠ '-' ∧ charAt str 0 ≠ '+') := by
    rintro ⟨a, b⟩; rcases h2 with h2 | h2
    · exact b h2
    · exact a h2
  have c3 : ¬ (charAt str 1 ≠ '|' ∨ charAt str 12 ≠ '|') := by
    rintro (a | a)
    · exact a h3.1
    · exact a h3.2
  unfold is_string_confirm_to_format
  rw [if_neg (by omega), if_neg c2, if_neg c3]
  simp only [c4, c5]
  rw [if_neg c6, if_neg c7]
  simp only [dayOf_eq, monthOf_eq, yearOf_eq, ISLEAP_iff]
  by_cases s8 : StepAt 8 str clock p q
  · have s8c := s8
    unfold StepAt at s8c
    simp only [s8c, and_self, not_true_eq_false, if_false, s8]
    by_cases s9 : StepAt 9 str clock p q
    · have s9c := s9
      unfold StepAt at s9c
      simp only [s9c.1, s9c.2, ne_eq, not_true_eq_false, or_self, if_false, s9]
      by_cases hd : dayOf str > 31 ∨ dayOf str = 0
      · simp only [hd, if_true]
      · simp only [hd, if_false]
        by_cases hm : monthOf str > 12 ∨ monthOf str = 0
        · simp only [hm, if_true]
        · simp only [hm, if_false]
          by_cases hy : yearOf str = 0
          · simp only [hy, if_true]
          · simp only [hy, if_false]
            by_cases hm2 : monthOf str = 2
            · have dead : ¬ ((monthOf str = 4 ∨ monthOf str = 6 ∨ monthOf str = 9 ∨
                  monthOf str = 11) ∧ dayOf str > 30) := by omega
              simp only [hm2, if_true, true_and] at dead ⊢
              by_cases hl : LeapYear (yearOf str) ∧ dayOf str > 29
              · simp only [hl, and_self, if_true]
              · rw [if_neg hl, if_neg dead, if_neg hl]
            · simp only [hm2, if_false, false_and]
    · have s9c : charAt str 4 ≠ '.' ∨ charAt str 7 ≠ '.' := by
        unfold StepAt at s9
        by_contra hc
        simp only [not_or, not_not] at hc
        exact s9 hc
      simp only [s9c, if_true, s9, not_false_eq_true]
  · have s8c : ¬ (isdigit (charAt str 2) = true ∧ isdigit (charAt str 3) = true ∧
        isdigit (charAt str 5) = true ∧ isdigit (charAt str 6) = true ∧
        isdigit (charAt str 8) = true ∧ isdigit (charAt str 9) = true ∧
        isdigit (charAt str 10) = true ∧ isdigit (charAt str 11) = true) := s8
    simp only [s8c, s8, not_false_eq_true, if_true]

theorem digit_bounds (str : List Char) (i : Nat) (h : isdigit (charAt str i) = true) :
    0 ≤ digit str i ∧ digit str i ≤ 9 := by
  unfold isdigit at h
  simp only [Char.isDigit, Bool.and_eq_true, decide_eq_true_eq] at h
  obtain ⟨h1, h2⟩ := h
  have a : (48 : UInt32).toNat ≤ (charAt str i).val.toNat := h1
  have b : (charAt str i).val.toNat ≤ (57 : UInt32).toNat := h2
  have a2 : 48 ≤ (charAt str i).toNat := a
  have b2 : (charAt str i).toNat ≤ 57 := b
  unfold digit
  omega

theorem date_bounds (str : List Char) (clock : Clock) (p q : Nat)
    (h : StepAt 8 str clock p q) :
    (0 ≤ dayOf str ∧ dayOf str ≤ 99) ∧ (0 ≤ monthOf str ∧ monthOf str ≤ 99) ∧
      (0 ≤ yearOf str ∧ yearOf str ≤ 9999) := by
  obtain ⟨h2, h3, h5, h6, h8, h9, h10, h11⟩ := h
  have b2 := digit_bounds str 2 h2
  have b3 := digit_bounds str 3 h3
  have b5 := digit_bounds str 5 h5
  have b6 := digit_bounds str 6 h6
  have b8 := digit_bounds str 8 h8
  have b9 := digit_bounds str 9 h9
  have b10 := digit_bounds str 10 h10
  have b11 := digit_bounds str 11 h11
  unfold dayOf monthOf yearOf
  omega

/-! ## Classification of the outcome -/

theorem PassesAt_same_separators (str : List Char) (clock : Clock) (p q p2 q2 : Nat)
    (h : PassesAt 5 str clock p q) (h2 : PassesAt 5 str clock p2 q2) : p2 = p ∧ q2 = q := by
  have a : FirstBarFrom str 13 p := h 4 (by omega) (by omega)
  have a2 : FirstBarFrom str 13 p2 := h2 4 (by omega) (by omega)
  have b : FirstBarFrom str (p + 1) q := h 5 (by omega) (by omega)
  have b2 : FirstBarFrom str (p2 + 1) q2 := h2 5 (by omega) (by omega)
  have e : p2 = p := FirstBarFrom_unique str 13 p2 p a2 a
  subst e
  exact ⟨rfl, FirstBarFrom_unique str (p2 + 1) q2 q b2 b⟩

theorem StepAt_separator_free (k : Nat) (str : List Char) (clock : Clock) (p q p2 q2 : Nat)
    (hk : k ≤ 3 ∨ 8 ≤ k) :
    StepAt k str clock p q ↔ StepAt k str clock p2 q2 := by
  rcases hk with hk | hk
  · interval_cases k <;> rfl
  · by_cases h15 : 15 ≤ k
    · obtain ⟨n, rfl⟩ : ∃ n, k = n + 15 := ⟨k - 15, by omega⟩
      exact Iff.rfl
    · interval_cases k <;> rfl

theorem not_Passes_of_not_StepAt (k : Nat) (str : List Char) (clock : Clock) (p q : Nat)
    (hk : 1 ≤ k) (hk4 : k ≠ 4) (hk5 : k ≠ 5)
    (h : PassesAt (k - 1) str clock p q) (hn : ¬ StepAt k str clock p q) :
    ¬ Passes k str clock := by
  rintro ⟨p2, q2, h2⟩
  have hs : StepAt k str clock p2 q2 := h2 k hk le_rfl
  by_cases h3 : k ≤ 3 ∨ 8 ≤ k
  · exact hn ((StepAt_separator_free k str clock p q p2 q2 h3).mpr hs)
  · have e := PassesAt_same_separators str clock p q p2 q2
      (PassesAt_mono 5 (k - 1) str clock p q (by omega) h)
      (PassesAt_mono 5 k str clock p2 q2 (by omega) h2)
    rw [e.1, e.2] at hs
    exact hn hs

theorem check_future_of_NotInFuture (day month year : Int) (lineno : Nat) (clock : Clock)
    (h : NotInFuture year month day clock) :
    (check_future day month year lineno clock).ret = 1 ∧
      (check_future day month year lineno clock).reason = none := by
  cases clock with
  | time_failed => exact ⟨rfl, rfl⟩
  | localtime_failed => exact ⟨rfl, rfl⟩
  | now tm =>
    have h2 := (dateKey_le_today year month day tm).mp h
    unfold check_future
    simp only []
    rw [if_neg h2]
    exact ⟨rfl, rfl⟩

theorem check_future_of_not_NotInFuture (day month year : Int) (lineno : Nat) (clock : Clock)
    (h : ¬ NotInFuture year month day clock) :
    check_future day month year lineno clock =
      ⟨0, PRINTLN3 lineno .DateInFuture day month year⟩ := by
  cases clock with
  | time_failed => exact absurd trivial h
  | localtime_failed => exact absurd trivial h
  | now tm =>
    have h2 : ¬¬ _ := fun hc => h ((dateKey_le_today year month day tm).mpr hc)
    unfold check_future
    simp only []
    rw [if_pos (not_not.mp h2)]

/-- Every call either accepts a line that passes all fourteen steps, or
fails with the reason of the lowest-numbered step the line violates. -/
theorem classify_outcome (str : List Char) (lineno : Nat) (clock : Clock) :
    (Passes 14 str clock ∧ (is_string_confirm_to_format str lineno clock).ret = 1 ∧
        (is_string_confirm_to_format str lineno clock).reason = none) ∨
      ∃ k, LowestViolated k str clock ∧
        FailsWith (is_string_confirm_to_format str lineno clock) (stepReason k) := by
  have P0 : PassesAt 0 str clock 0 0 := fun i h1 h2 => absurd h2 (by omega)
  -- step 1
  by_cases s1 : StepAt 1 str clock 0 0
  swap
  · refine Or.inr ⟨1, ⟨le_rfl, by omega, ⟨0, 0, P0⟩,
      not_Passes_of_not_StepAt 1 str clock 0 0 le_rfl (by omega) (by omega) P0 s1⟩, ?_⟩
    have c : strlen str < 18 := Nat.lt_of_not_le s1
    unfold is_string_confirm_to_format
    rw [if_pos c]
    exact ⟨rfl, rfl⟩
  have P1 := PassesAt_succ 0 str clock 0 0 P0 s1
  have c1 : ¬ strlen str < 18 := Nat.not_lt.mpr s1
  -- step 2
  by_cases s2 : StepAt 2 str clock 0 0
  swap
  · refine Or.inr ⟨2, ⟨by omega, by omega, ⟨0, 0, P1⟩,
      not_Passes_of_not_StepAt 2 str clock 0 0 (by omega) (by omega) (by omega) P1 s2⟩, ?_⟩
    have c : charAt str 0 ≠ '-' ∧ charAt str 0 ≠ '+' :=
      ⟨fun e => s2 (Or.inr e), fun e => s2 (Or.inl e)⟩
    unfold is_string_confirm_to_format
    rw [if_neg c1, if_pos c]
    exact ⟨rfl, rfl⟩
  have P2 := PassesAt_succ 1 str clock 0 0 P1 s2
  have c2 : ¬ (charAt str 0 ≠ '-' ∧ charAt str 0 ≠ '+') := by
    rintro ⟨a, b⟩
    rcases s2 with e | e
    · exact b e
    · exact a e
  -- step 3
  by_cases s3 : StepAt 3 str clock 0 0
  swap
  · refine Or.inr ⟨3, ⟨by omega, by omega, ⟨0, 0, P2⟩,
      not_Passes_of_not_StepAt 3 str clock 0 0 (by omega) (by omega) (by omega) P2 s3⟩, ?_⟩
    have c : charAt str 1 ≠ '|' ∨ charAt str 12 ≠ '|' := by
      by_contra hc
      simp only [not_or, not_not] at hc
      exact s3 hc
    unfold is_string_confirm_to_format
    rw [if_neg c1, if_neg c2, if_pos c]
    exact ⟨rfl, rfl⟩
  have P3 := PassesAt_succ 2 str clock 0 0 P2 s3
  have c3 : ¬ (charAt str 1 ≠ '|' ∨ charAt str 12 ≠ '|') := by
    rintro (a | a)
    · exact a s3.1
    · exact a s3.2
  -- step 4
  cases c4 : strchr str 13 '|' with
  | none =>
    refine Or.inr ⟨4, ⟨by omega, by omega, ⟨0, 0, P3⟩, ?_⟩, ?_⟩
    · rintro ⟨p2, q2, h2⟩
      have a : FirstBarFrom str 13 p2 := h2 4 (by omega) (by omega)
      rw [← strchr_eq_some_iff, c4] at a
      cases a
    · unfold is_string_confirm_to_format
      rw [if_neg c1, if_neg c2, if_neg c3]
      simp only [c4]
      exact ⟨rfl, rfl⟩
  | some p =>
    have s4 : StepAt 4 str clock p 0 := (strchr_eq_some_iff str 13 p).mp c4
    have P3p : PassesAt 3 str clock p 0 := fun i h1 h2 =>
      (StepAt_separator_free i str clock 0 0 p 0 (Or.inl h2)).mp (P3 i h1 h2)
    have P4 := PassesAt_succ 3 str clock p 0 P3p s4
    -- step 5
    cases c5 : strchr str (p + 1) '|' with
    | none =>
      refine Or.inr ⟨5, ⟨by omega, by omega, ⟨p, 0, P4⟩, ?_⟩, ?_⟩
      · rintro ⟨p2, q2, h2⟩
        have a : FirstBarFrom str 13 p2 := h2 4 (by omega) (by omega)
        have e : p2 = p := FirstBarFrom_unique str 13 p2 p a s4
        have b : FirstBarFrom str (p2 + 1) q2 := h2 5 (by omega) (by omega)
        rw [e, ← strchr_eq_some_iff, c5] at b
        cases b
      · unfold is_string_confirm_to_format
        rw [if_neg c1, if_neg c2, if_neg c3]
        simp only [c4, c5]
        exact ⟨rfl, rfl⟩
    | some q =>
      have s5 : StepAt 5 str clock p q := (strchr_eq_some_iff str (p + 1) q).mp c5
      have P4q : PassesAt 4 str clock p q := by
        intro i h1 h2
        rcases Nat.eq_or_lt_of_le h2 with rfl | h3
        · exact s4
        · exact (StepAt_separator_free i str clock 0 0 p q (Or.inl (by omega))).mp
            (P3 i h1 (by omega))
      have P5 := PassesAt_succ 4 str clock p q P4q s5
      -- step 6
      by_cases s6 : StepAt 6 str clock p q
      swap
      · refine Or.inr ⟨6, ⟨by omega, by omega, ⟨p, q, P5⟩,
          not_Passes_of_not_StepAt 6 str clock p q (by omega) (by omega) (by omega) P5 s6⟩, ?_⟩
        have c := (category_loop_of_steps str clock p q s4).mpr s6
        unfold is_string_confirm_to_format
        rw [if_neg c1, if_neg c2, if_neg c3]
        simp only [c4, c5]
        rw [if_pos c]
        exact ⟨rfl, rfl⟩
      have P6 := PassesAt_succ 5 str clock p q P5 s6
      have c6 : ¬ category_loop str 13 (p - 13) = false :=
        fun hc => (category_loop_of_steps str clock p q s4).mp hc s6
      -- step 7
      by_cases s7 : StepAt 7 str clock p q
      swap
      · refine Or.inr ⟨7, ⟨by omega, by omega, ⟨p, q, P6⟩,
          not_Passes_of_not_StepAt 7 str clock p q (by omega) (by omega) (by omega) P6 s7⟩, ?_⟩
        have c := (amount_loop_of_steps str clock p q s5).mpr s7
        unfold is_string_confirm_to_format
        rw [if_neg c1, if_neg c2, if_neg c3]
        simp only [c4, c5]
        rw [if_neg c6, if_pos c]
        exact ⟨rfl, rfl⟩
      have P7 := PassesAt_succ 6 str clock p q P6 s7
      rw [eval_of_passes7 str lineno clock p q P7]
      -- step 8
      by_cases s8 : StepAt 8 str clock p q
      swap
      · refine Or.inr ⟨8, ⟨by omega, by omega, ⟨p, q, P7⟩,
          not_Passes_of_not_StepAt 8 str clock p q (by omega) (by omega) (by omega) P7 s8⟩, ?_⟩
        rw [if_pos s8]
        exact ⟨rfl, rfl⟩
      have P8 := PassesAt_succ 7 str clock p q P7 s8
      have hb := date_bounds str clock p q s8
      rw [if_neg (not_not.mpr s8)]
      -- step 9
      by_cases s9 : StepAt 9 str clock p q
      swap
      · refine Or.inr ⟨9, ⟨by omega, by omega, ⟨p, q, P8⟩,
          not_Passes_of_not_StepAt 9 str clock p q (by omega) (by omega) (by omega) P8 s9⟩, ?_⟩
        rw [if_pos s9]
        exact ⟨rfl, rfl⟩
      have P9 := PassesAt_succ 8 str clock p q P8 s9
      rw [if_neg (not_not.mpr s9)]
      -- step 10
      by_cases s10 : StepAt 10 str clock p q
      swap
      · refine Or.inr ⟨10, ⟨by omega, by omega, ⟨p, q, P9⟩,
          not_Passes_of_not_StepAt 10 str clock p q (by omega) (by omega) (by omega) P9 s10⟩, ?_⟩
        have c : dayOf str > 31 ∨ dayOf str = 0 := by
          have hs : ¬ (1 ≤ dayOf str ∧ dayOf str ≤ 31) := s10
          omega
        rw [if_pos c]
        exact ⟨rfl, rfl⟩
      have P10 := PassesAt_succ 9 str clock p q P9 s10
      have c10 : ¬ (dayOf str > 31 ∨ dayOf str = 0) := by
        have hs : 1 ≤ dayOf str ∧ dayOf str ≤ 31 := s10
        omega
      rw [if_neg c10]
      -- step 11
      by_cases s11 : StepAt 11 str clock p q
      swap
      · refine Or.inr ⟨11, ⟨by omega, by omega, ⟨p, q, P10⟩,
          not_Passes_of_not_StepAt 11 str clock p q (by omega) (by omega) (by omega) P10 s11⟩, ?_⟩
        have c : monthOf str > 12 ∨ monthOf str = 0 := by
          have hs : ¬ (1 ≤ monthOf str ∧ monthOf str ≤ 12) := s11
          omega
        rw [if_pos c]
        exact ⟨rfl, rfl⟩
      have P11 := PassesAt_succ 10 str clock p q P10 s11
      have c11 : ¬ (monthOf str > 12 ∨ monthOf str = 0) := by
        have hs : 1 ≤ monthOf str ∧ monthOf str ≤ 12 := s11
        omega
      rw [if_neg c11]
      -- step 12
      by_cases s12 : StepAt 12 str clock p q
      swap
      · refine Or.inr ⟨12, ⟨by omega, by omega, ⟨p, q, P11⟩,
          not_Passes_of_not_StepAt 12 str clock p q (by omega) (by omega) (by omega) P11 s12⟩, ?_⟩
        have c : yearOf str = 0 := by
          have hs : ¬ (0 < yearOf str) := s12
          omega
        rw [if_pos c]
        exact ⟨rfl, rfl⟩
      have P12 := PassesAt_succ 11 str clock p q P11 s12
      have c12 : ¬ (yearOf str = 0) := by
        have hs : 0 < yearOf str := s12
        omega
      rw [if_neg c12]
      -- step 13
      by_cases s13 : StepAt 13 str clock p q
      swap
      · refine Or.inr ⟨13, ⟨by omega, by omega, ⟨p, q, P12⟩,
          not_Passes_of_not_StepAt 13 str clock p q (by omega) (by omega) (by omega) P12 s13⟩, ?_⟩
        have c : monthOf str = 2 ∧ LeapYear (yearOf str) ∧ dayOf str > 29 := by
          have hs : ¬¬ (monthOf str = 2 ∧
              ((LeapYear (yearOf str) ∧ 29 < dayOf str) ∨
                ((monthOf str = 4 ∨ monthOf str = 6 ∨ monthOf str = 9 ∨ monthOf str = 11) ∧
                  30 < dayOf str))) := s13
          obtain ⟨hm, hl | hx⟩ := not_not.mp hs
          · exact ⟨hm, hl.1, hl.2⟩
          · omega
        rw [if_pos c]
        exact ⟨rfl, rfl⟩
      have P13 := PassesAt_succ 12 str clock p q P12 s13
      have c13 : ¬ (monthOf str = 2 ∧ LeapYear (yearOf str) ∧ dayOf str > 29) := by
        intro hc
        exact s13 ⟨hc.1, Or.inl ⟨hc.2.1, hc.2.2⟩⟩
      rw [if_neg c13]
      -- step 14
      by_cases s14 : StepAt 14 str clock p q
      swap
      · refine Or.inr ⟨14, ⟨by omega, by omega, ⟨p, q, P13⟩,
          not_Passes_of_not_StepAt 14 str clock p q (by omega) (by omega) (by omega) P13 s14⟩, ?_⟩
        rw [check_future_of_not_NotInFuture (dayOf str) (monthOf str) (yearOf str) lineno clock s14]
        exact ⟨rfl, rfl⟩
      have P14 := PassesAt_succ 13 str clock p q P13 s14
      exact Or.inl ⟨⟨p, q, P14⟩,
        check_future_of_NotInFuture (dayOf str) (monthOf str) (yearOf str) lineno clock s14⟩

/-! ## Consequences of the classification -/

theorem Passes_mono (j k : Nat) (str : List Char) (clock : Clock) (hjk : j ≤ k)
    (h : Passes k str clock) : Passes j str clock := by
  obtain ⟨p, q, hpq⟩ := h
  exact ⟨p, q, PassesAt_mono j k str clock p q hjk hpq⟩

theorem LowestViolated_unique (k k2 : Nat) (str : List Char) (clock : Clock)
    (h : LowestViolated k str clock) (h2 : LowestViolated k2 str clock) : k = k2 := by
  obtain ⟨a1, a2, a3, a4⟩ := h
  obtain ⟨b1, b2, b3, b4⟩ := h2
  by_contra hne
  rcases Nat.lt_or_gt_of_ne hne with hlt | hgt
  · exact a4 (Passes_mono k (k2 - 1) str clock (by omega) b3)
  · exact b4 (Passes_mono k2 (k - 1) str clock (by omega) a3)

theorem reasonStep_stepReason (k : Nat) (h1 : 1 ≤ k) (h2 : k ≤ 14) :
    reasonStep (stepReason k) = k := by
  interval_cases k <;> rfl

theorem FailsWith_iff_LowestViolated (k : Nat) (str : List Char) (lineno : Nat)
    (clock : Clock) (h1 : 1 ≤ k) (h2 : k ≤ 14) :
    FailsWith (is_string_confirm_to_format str lineno clock) (stepReason k) ↔
      LowestViolated k str clock := by
  constructor
  · intro hf
    rcases classify_outcome str lineno clock with ⟨-, hret, -⟩ | ⟨k2, hl, hf2⟩
    · rw [hf.1] at hret
      exact absurd hret (by decide)
    · have e : stepReason k = stepReason k2 := by
        have := hf.2
        rw [hf2.2] at this
        exact (Option.some.inj this).symm
      have e2 : k = k2 := by
        rw [← reasonStep_stepReason k h1 h2, e, reasonStep_stepReason k2 hl.1 hl.2.1]
      rw [e2]
      exact hl
  · intro hl
    rcases classify_outcome str lineno clock with ⟨hp, -, -⟩ | ⟨k2, hl2, hf2⟩
    · exact absurd (Passes_mono k 14 str clock h2 hp) hl.2.2.2
    · rw [LowestViolated_unique k k2 str clock hl hl2]
      exact hf2

theorem ret_eq_one_iff_Passes (str : List Char) (lineno : Nat) (clock : Clock) :
    (is_string_confirm_to_format str lineno clock).ret = 1 ↔ Passes 14 str clock := by
  constructor
  · intro hret
    rcases classify_outcome str lineno clock with ⟨hp, -, -⟩ | ⟨k2, -, hf2⟩
    · exact hp
    · rw [hf2.1] at hret
      exact absurd hret (by decide)
  · intro hp
    rcases classify_outcome str lineno clock with ⟨-, hret, -⟩ | ⟨k2, hl2, -⟩
    · exact hret
    · exact absurd (Passes_mono k2 14 str clock hl2.2.1 hp) hl2.2.2.2

theorem ret_eq_zero_or_one (str : List Char) (lineno : Nat) (clock : Clock) :
    (is_string_confirm_to_format str lineno clock).ret = 0 ∨
      (is_string_confirm_to_format str lineno clock).ret = 1 := by
  rcases classify_outcome str lineno clock with ⟨-, hret, -⟩ | ⟨k2, -, hf2⟩
  · exact Or.inr hret
  · exact Or.inl hf2.1

theorem Passes_succ_iff (k : Nat) (str : List Char) (clock : Clock) (p q : Nat)
    (hk4 : k + 1 ≠ 4) (hk5 : k + 1 ≠ 5) (h : PassesAt k str clock p q) :
    Passes (k + 1) str clock ↔ StepAt (k + 1) str clock p q := by
  constructor
  · intro hp
    by_contra hn
    exact not_Passes_of_not_StepAt (k + 1) str clock p q (by omega) hk4 hk5 h hn hp
  · intro hs
    exact ⟨p, q, PassesAt_succ k str clock p q h hs⟩

theorem Passes_14_iff_WellFormed (str : List Char) (tm : Tm) :
    Passes 14 str (.now tm) ↔ WellFormed str tm := by
  constructor
  · rintro ⟨p, q, h⟩
    have s7 : ∀ i, p + 1 ≤ i → i < q → AmountChar (charAt str i) := h 7 (by omega) (by omega)
    have s13 : ¬ (monthOf str = 2 ∧
        ((LeapYear (yearOf str) ∧ 29 < dayOf str) ∨
          ((monthOf str = 4 ∨ monthOf str = 6 ∨ monthOf str = 9 ∨ monthOf str = 11) ∧
            30 < dayOf str))) := h 13 (by omega) (by omega)
    exact ⟨h 1 (by omega) (by omega), h 2 (by omega) (by omega), h 3 (by omega) (by omega),
      ⟨p, q, h 4 (by omega) (by omega), h 5 (by omega) (by omega), h 6 (by omega) (by omega),
        fun i hi hi2 => s7 i hi hi2⟩,
      h 8 (by omega) (by omega), h 9 (by omega) (by omega), h 10 (by omega) (by omega),
      h 11 (by omega) (by omega), h 12 (by omega) (by omega),
      fun hc => s13 ⟨hc.1, Or.inl hc.2⟩, h 14 (by omega) (by omega)⟩
  · rintro ⟨h1, h2, h3, ⟨p, q, h4, h5, h6, h7⟩, h8, h9, h10, h11, h12, h13, h14⟩
    refine ⟨p, q, ?_⟩
    intro i hi hi2
    interval_cases i
    · exact h1
    · exact h2
    · exact h3
    · exact h4
    · exact h5
    · exact h6
    · exact fun i hi hi2 => h7 i hi hi2
    · exact h8
    · exact h9
    · exact h10
    · exact h11
    · exact h12
    · intro hc
      obtain ⟨hm, hl | hx⟩ := hc
      · exact h13 ⟨hm, hl⟩
      · omega
    · exact h14

theorem FailsWith_step_iff (k : Nat) (str : List Char) (lineno : Nat) (clock : Clock)
    (p q : Nat) (h1 : 1 ≤ k) (h2 : k ≤ 14) (hk4 : k ≠ 4) (hk5 : k ≠ 5)
    (h : PassesAt (k - 1) str clock p q) :
    FailsWith (is_string_confirm_to_format str lineno clock) (stepReason k) ↔
      ¬ StepAt k str clock p q := by
  rw [FailsWith_iff_LowestViolated k str lineno clock h1 h2]
  obtain ⟨n, rfl⟩ : ∃ n, k = n + 1 := ⟨k - 1, by omega⟩
  have key := Passes_succ_iff n str clock p q hk4 hk5 h
  constructor
  · intro hl hs
    exact hl.2.2.2 (key.mpr hs)
  · intro hn
    exact ⟨h1, h2, ⟨p, q, h⟩, fun hp => hn (key.mp hp)⟩

theorem accepted_of_Passes_13 (str : List Char) (lineno : Nat) (clock : Clock)
    (h : Passes 13 str clock)
    (hf : NotInFuture (yearOf str) (monthOf str) (dayOf str) clock) :
    (is_string_confirm_to_format str lineno clock).ret = 1 := by
  obtain ⟨p, q, hpq⟩ := h
  exact (ret_eq_one_iff_Passes str lineno clock).mpr
    ⟨p, q, PassesAt_succ 13 str clock p q hpq hf⟩

/-! ## The earlier variant -/

theorem Earlier.check_future_ret (day month year : Int) (lineno : Nat) (clock : Clock) :
    (Earlier.check_future day month year lineno clock).ret =
      if ¬ NotInFuture year month day clock then 11 else 0 := by
  cases clock with
  | time_failed => simp [Earlier.check_future, NotInFuture]
  | localtime_failed => simp [Earlier.check_future, NotInFuture]
  | now tm =>
    have e := dateKey_le_today year month day tm
    unfold Earlier.check_future
    simp only []
    by_cases hc : year > tm.tm_year + 1900 ∨
        (year = tm.tm_year + 1900 ∧ month > tm.tm_mon + 1) ∨
        (year = tm.tm_year + 1900 ∧ month = tm.tm_mon + 1 ∧ day > tm.tm_mday)
    · have hn : ¬ NotInFuture year month day (.now tm) := fun h => e.mp h hc
      rw [if_pos hc, if_pos hn]
    · have hn : ¬¬ NotInFuture year month day (.now tm) := not_not.mpr (e.mpr hc)
      rw [if_neg hc, if_neg hn]

/-- The earlier variant returns the documented value of its first failing
test, whatever the clock answers. -/
theorem Earlier.ret_eq_documented_retval (str : List Char) (lineno : Nat) (clock : Clock) :
    (Earlier.is_string_confirm_to_format str lineno clock).ret =
      Earlier.documented_retval str clock := by
  unfold Earlier.is_string_confirm_to_format Earlier.documented_retval
  simp only [dayOf_eq, monthOf_eq, yearOf_eq, ISLEAP_iff]
  by_cases t1 : strlen str < 15
  · simp only [t1, if_true]
  simp only [t1, if_false]
  by_cases t2 : charAt str 0 = '+' ∨ charAt str 0 = '-'
  swap
  · have c : charAt str 0 ≠ '-' ∧ charAt str 0 ≠ '+' :=
      ⟨fun e => t2 (Or.inr e), fun e => t2 (Or.inl e)⟩
    rw [if_pos c, if_pos t2]
  have c2 : ¬ (charAt str 0 ≠ '-' ∧ charAt str 0 ≠ '+') := by
    rintro ⟨a, b⟩
    rcases t2 with e | e
    · exact b e
    · exact a e
  rw [if_neg c2, if_neg (not_not.mpr t2)]
  by_cases t3 : charAt str 1 ≠ '|' ∨ charAt str 12 ≠ '|'
  · rw [if_pos t3, if_pos t3]
  rw [if_neg t3, if_neg t3]
  by_cases t4 : Earlier.DateDigits str
  swap
  · have c : ¬ (isdigit (charAt str 2) = true ∧ isdigit (charAt str 3) = true ∧
        isdigit (charAt str 5) = true ∧ isdigit (charAt str 6) = true ∧
        isdigit (charAt str 8) = true ∧ isdigit (charAt str 9) = true ∧
        isdigit (charAt str 10) = true ∧ isdigit (charAt str 11) = true) := t4
    rw [if_pos c, if_pos t4]
  have c4 : ¬¬ (isdigit (charAt str 2) = true ∧ isdigit (charAt str 3) = true ∧
      isdigit (charAt str 5) = true ∧ isdigit (charAt str 6) = true ∧
      isdigit (charAt str 8) = true ∧ isdigit (charAt str 9) = true ∧
      isdigit (charAt str 10) = true ∧ isdigit (charAt str 11) = true) := not_not.mpr t4
  rw [if_neg c4, if_neg (not_not.mpr t4)]
  by_cases t5 : charAt str 4 ≠ '.' ∨ charAt str 7 ≠ '.'
  · rw [if_pos t5, if_pos t5]
  rw [if_neg t5, if_neg t5]
  by_cases t6 : dayOf str = 0 ∨ 31 < dayOf str
  · have c : dayOf str > 31 ∨ dayOf str = 0 := by omega
    rw [if_pos c, if_pos t6]
  have c6 : ¬ (dayOf str > 31 ∨ dayOf str = 0) := by omega
  rw [if_neg c6, if_neg t6]
  by_cases t7 : monthOf str = 0 ∨ 12 < monthOf str
  · have c : monthOf str > 12 ∨ monthOf str = 0 := by omega
    rw [if_pos c, if_pos t7]
  have c7 : ¬ (monthOf str > 12 ∨ monthOf str = 0) := by omega
  rw [if_neg c7, if_neg t7]
  by_cases t8 : yearOf str = 0
  · rw [if_pos t8, if_pos t8]
  rw [if_neg t8, if_neg t8]
  by_cases hm : monthOf str = 2
  · rw [if_pos hm]
    by_cases t9 : LeapYear (yearOf str) ∧ dayOf str > 29
    · have c : monthOf str = 2 ∧ LeapYear (yearOf str) ∧ 29 < dayOf str :=
        ⟨hm, t9.1, t9.2⟩
      rw [if_pos t9, if_pos c]
    · have c : ¬ (monthOf str = 2 ∧ LeapYear (yearOf str) ∧ 29 < dayOf str) :=
        fun h => t9 ⟨h.2.1, h.2.2⟩
      have dead : ¬ ((monthOf str = 4 ∨ monthOf str = 6 ∨ monthOf str = 9 ∨
          monthOf str = 11) ∧ dayOf str > 30) := by omega
      rw [if_neg t9, if_neg dead, if_neg c]
      exact Earlier.check_future_ret (dayOf str) (monthOf str) (yearOf str) lineno clock
  · have c : ¬ (monthOf str = 2 ∧ LeapYear (yearOf str) ∧ 29 < dayOf str) :=
      fun h => hm h.1
    rw [if_neg hm, if_neg c]
    exact Earlier.check_future_ret (dayOf str) (monthOf str) (yearOf str) lineno clock

theorem Earlier.documented_retval_eq_zero_iff (str : List Char) (tm : Tm) :
    Earlier.documented_retval str (.now tm) = 0 ↔ Earlier.NoTestFails str tm := by
  unfold Earlier.documented_retval Earlier.NoTestFails
  have e : ¬ NotInFuture (yearOf str) (monthOf str) (dayOf str) (.now tm) ↔
      today tm < dateKey (yearOf str) (monthOf str) (dayOf str) := not_le
  constructor
  · intro h
    by_cases t1 : strlen str < 15
    · rw [if_pos t1] at h
      exact absurd h (by decide)
    rw [if_neg t1] at h
    by_cases t2 : ¬ (charAt str 0 = '+' ∨ charAt str 0 = '-')
    · rw [if_pos t2] at h
      exact absurd h (by decide)
    rw [if_neg t2] at h
    by_cases t3 : charAt str 1 ≠ '|' ∨ charAt str 12 ≠ '|'
    · rw [if_pos t3] at h
      exact absurd h (by decide)
    rw [if_neg t3] at h
    by_cases t4 : ¬ Earlier.DateDigits str
    · rw [if_pos t4] at h
      exact absurd h (by decide)
    rw [if_neg t4] at h
    by_cases t5 : charAt str 4 ≠ '.' ∨ charAt str 7 ≠ '.'
    · rw [if_pos t5] at h
      exact absurd h (by decide)
    rw [if_neg t5] at h
    by_cases t6 : dayOf str = 0 ∨ 31 < dayOf str
    · rw [if_pos t6] at h
      exact absurd h (by decide)
    rw [if_neg t6] at h
    by_cases t7 : monthOf str = 0 ∨ 12 < monthOf str
    · rw [if_pos t7] at h
      exact absurd h (by decide)
    rw [if_neg t7] at h
    by_cases t8 : yearOf str = 0
    · rw [if_pos t8] at h
      exact absurd h (by decide)
    rw [if_neg t8] at h
    by_cases t9 : monthOf str = 2 ∧ LeapYear (yearOf str) ∧ 29 < dayOf str
    · rw [if_pos t9] at h
      exact absurd h (by decide)
    rw [if_neg t9] at h
    by_cases t11 : ¬ NotInFuture (yearOf str) (monthOf str) (dayOf str) (.now tm)
    · rw [if_pos t11] at h
      exact absurd h (by decide)
    refine ⟨Nat.le_of_not_lt t1, not_not.mp t2, ?_, not_not.mp t4, ?_, t6, t7, t8, t9,
      fun hlt => t11 (e.mpr hlt)⟩
    · by_contra hc
      apply t3
      by_cases a : charAt str 1 = '|'
      · exact Or.inr (fun b => hc ⟨a, b⟩)
      · exact Or.inl a
    · by_contra hc
      apply t5
      by_cases a : charAt str 4 = '.'
      · exact Or.inr (fun b => hc ⟨a, b⟩)
      · exact Or.inl a
  · rintro ⟨t1, t2, t3, t4, t5, t6, t7, t8, t9, t11⟩
    have c3 : ¬ (charAt str 1 ≠ '|' ∨ charAt str 12 ≠ '|') := by
      rintro (a | a)
      · exact a t3.1
      · exact a t3.2
    have c5 : ¬ (charAt str 4 ≠ '.' ∨ charAt str 7 ≠ '.') := by
      rintro (a | a)
      · exact a t5.1
      · exact a t5.2
    have c1 : ¬ strlen str < 15 := Nat.not_lt.mpr t1
    rw [if_neg c1, if_neg (not_not.mpr t2), if_neg c3, if_neg (not_not.mpr t4),
      if_neg c5, if_neg t6, if_neg t7, if_neg t8, if_neg t9,
      if_neg (fun hn => t11 (e.mp hn))]

theorem Earlier.accepts_of_Passes_14 (str : List Char) (lineno : Nat) (clock : Clock)
    (h : Passes 14 str clock) :
    (Earlier.is_string_confirm_to_format str lineno clock).ret = 0 := by
  obtain ⟨p, q, hpq⟩ := h
  have s1 : 18 ≤ strlen str := hpq 1 (by omega) (by omega)
  have s2 : charAt str 0 = '+' ∨ charAt str 0 = '-' := hpq 2 (by omega) (by omega)
  have s3 : charAt str 1 = '|' ∧ charAt str 12 = '|' := hpq 3 (by omega) (by omega)
  have s8 : Earlier.DateDigits str := hpq 8 (by omega) (by omega)
  have s9 : charAt str 4 = '.' ∧ charAt str 7 = '.' := hpq 9 (by omega) (by omega)
  have s10 : 1 ≤ dayOf str ∧ dayOf str ≤ 31 := hpq 10 (by omega) (by omega)
  have s11 : 1 ≤ monthOf str ∧ monthOf str ≤ 12 := hpq 11 (by omega) (by omega)
  have s12 : 0 < yearOf str := hpq 12 (by omega) (by omega)
  have s13 : ¬ (monthOf str = 2 ∧
      ((LeapYear (yearOf str) ∧ 29 < dayOf str) ∨
        ((monthOf str = 4 ∨ monthOf str = 6 ∨ monthOf str = 9 ∨ monthOf str = 11) ∧
          30 < dayOf str))) := hpq 13 (by omega) (by omega)
  have s14 : NotInFuture (yearOf str) (monthOf str) (dayOf str) clock :=
    hpq 14 (by omega) (by omega)
  have c1 : ¬ strlen str < 15 := by omega
  have c3 : ¬ (charAt str 1 ≠ '|' ∨ charAt str 12 ≠ '|') := by
    rintro (a | a)
    · exact a s3.1
    · exact a s3.2
  have c5 : ¬ (charAt str 4 ≠ '.' ∨ charAt str 7 ≠ '.') := by
    rintro (a | a)
    · exact a s9.1
    · exact a s9.2
  have c6 : ¬ (dayOf str = 0 ∨ 31 < dayOf str) := by omega
  have c7 : ¬ (monthOf str = 0 ∨ 12 < monthOf str) := by omega
  have c8 : ¬ yearOf str = 0 := by omega
  have c9 : ¬ (monthOf str = 2 ∧ LeapYear (yearOf str) ∧ 29 < dayOf str) :=
    fun hc => s13 ⟨hc.1, Or.inl hc.2⟩
  rw [Earlier.ret_eq_documented_retval]
  unfold Earlier.documented_retval
  rw [if_neg c1, if_neg (not_not.mpr s2), if_neg c3, if_neg (not_not.mpr s8), if_neg c5,
    if_neg c6, if_neg c7, if_neg c8, if_neg c9, if_neg (not_not.mpr s14)]

/-! ## Serialisation lemmas -/

theorem take_eq_map_range (l : List Char) : ∀ n, n ≤ l.length →
    l.take n = (List.range n).map (charAt l) := by
  intro n
  induction n with
  | zero => intro _; simp
  | succ n ih =>
    intro h
    rw [List.take_succ, ih (by omega), List.range_succ, List.map_append]
    have hn : n < l.length := by omega
    simp [charAt, List.getD_eq_getElem?_getD, List.getElem?_eq_getElem hn]

theorem charAt_eq_getElem (str : List Char) (i : Nat) (h : i < str.length) :
    charAt str i = str.get ⟨i, h⟩ := by
  simp [charAt, List.getD_eq_getElem?_getD, List.getElem?_eq_getElem h]

theorem drop_eq_field_append (str : List Char) (a b : Nat) (h : a ≤ b) :
    str.drop a = field str a b ++ str.drop b := by
  unfold field
  conv_lhs => rw [← List.take_append_drop (b - a) (str.drop a)]
  rw [List.drop_drop]
  congr 2
  omega

theorem drop_eq_bar_cons (str : List Char) (start p : Nat) (h : FirstBarFrom str start p) :
    str.drop p = '|' :: str.drop (p + 1) := by
  have hlt : p < str.length := h.2.1
  rw [List.drop_eq_getElem_cons hlt]
  have e := charAt_eq_getElem str p hlt
  rw [h.2.2.1] at e
  rw [show str[p] = str.get ⟨p, hlt⟩ from rfl, ← e]

theorem digitChar_digit (str : List Char) (i : Nat) (h : isdigit (charAt str i) = true) :
    digitChar (digit str i) = charAt str i := by
  unfold isdigit at h
  simp only [Char.isDigit, Bool.and_eq_true, decide_eq_true_eq] at h
  have a : (48 : UInt32).toNat ≤ (charAt str i).val.toNat := h.1
  have a2 : 48 ≤ (charAt str i).toNat := a
  unfold digitChar digit
  have e : 48 + (((charAt str i).toNat : Int) - 48).toNat = (charAt str i).toNat := by omega
  rw [e]
  simp

theorem pad2_of_digits (a b : Int) (ha : 0 ≤ a ∧ a ≤ 9) (hb : 0 ≤ b ∧ b ≤ 9) :
    pad2 (10 * a + b) = [digitChar a, digitChar b] := by
  unfold pad2
  have e1 : (10 * a + b) / 10 % 10 = a := by omega
  have e2 : (10 * a + b) % 10 = b := by omega
  rw [e1, e2]

theorem pad4_of_digits (a b c d : Int) (ha : 0 ≤ a ∧ a ≤ 9) (hb : 0 ≤ b ∧ b ≤ 9)
    (hc : 0 ≤ c ∧ c ≤ 9) (hd : 0 ≤ d ∧ d ≤ 9) :
    pad4 (1000 * a + 100 * b + 10 * c + d) =
      [digitChar a, digitChar b, digitChar c, digitChar d] := by
  unfold pad4
  have e1 : (1000 * a + 100 * b + 10 * c + d) / 1000 % 10 = a := by omega
  have e2 : (1000 * a + 100 * b + 10 * c + d) / 100 % 10 = b := by omega
  have e3 : (1000 * a + 100 * b + 10 * c + d) / 10 % 10 = c := by omega
  have e4 : (1000 * a + 100 * b + 10 * c + d) % 10 = d := by omega
  rw [e1, e2, e3, e4]

/-- The sign and date printed from the parsed values are the first thirteen
characters of a line that passes steps 1-3, 8 and 9. -/
theorem serialize_date_eq_take (str : List Char) (h1 : 18 ≤ strlen str)
    (h3 : charAt str 1 = '|' ∧ charAt str 12 = '|')
    (h8 : isdigit (charAt str 2) = true ∧ isdigit (charAt str 3) = true ∧
      isdigit (charAt str 5) = true ∧ isdigit (charAt str 6) = true ∧
      isdigit (charAt str 8) = true ∧ isdigit (charAt str 9) = true ∧
      isdigit (charAt str 10) = true ∧ isdigit (charAt str 11) = true)
    (h9 : charAt str 4 = '.' ∧ charAt str 7 = '.') :
    serialize_date (charAt str 0) (dayOf str) (monthOf str) (yearOf str) = str.take 13 := by
  obtain ⟨d2, d3, d5, d6, d8, d9, d10, d11⟩ := h8
  have hd : pad2 (dayOf str) = [charAt str 2, charAt str 3] := by
    unfold dayOf
    rw [pad2_of_digits _ _ (digit_bounds str 2 d2) (digit_bounds str 3 d3),
      digitChar_digit str 2 d2, digitChar_digit str 3 d3]
  have hm : pad2 (monthOf str) = [charAt str 5, charAt str 6] := by
    unfold monthOf
    rw [pad2_of_digits _ _ (digit_bounds str 5 d5) (digit_bounds str 6 d6),
      digitChar_digit str 5 d5, digitChar_digit str 6 d6]
  have hy : pad4 (yearOf str) =
      [charAt str 8, charAt str 9, charAt str 10, charAt str 11] := by
    unfold yearOf
    rw [pad4_of_digits _ _ _ _ (digit_bounds str 8 d8) (digit_bounds str 9 d9)
        (digit_bounds str 10 d10) (digit_bounds str 11 d11),
      digitChar_digit str 8 d8, digitChar_digit str 9 d9, digitChar_digit str 10 d10,
      digitChar_digit str 11 d11]
  have ht : str.take 13 = (List.range 13).map (charAt str) :=
    take_eq_map_range str 13 (by unfold strlen at h1; omega)
  have hr : (List.range 13).map (charAt str) =
      [charAt str 0, charAt str 1, charAt str 2, charAt str 3, charAt str 4, charAt str 5,
        charAt str 6, charAt str 7, charAt str 8, charAt str 9, charAt str 10, charAt str 11,
        charAt str 12] := rfl
  rw [ht, hr, h3.1, h3.2, h9.1, h9.2]
  unfold serialize_date
  rw [hd, hm, hy]
  rfl

theorem ret_and_reason_same_lineno (str : List Char) (n1 n2 : Nat) (clock : Clock) :
    (is_string_confirm_to_format str n1 clock).ret =
        (is_string_confirm_to_format str n2 clock).ret ∧
      (is_string_confirm_to_format str n1 clock).reason =
        (is_string_confirm_to_format str n2 clock).reason := by
  rcases classify_outcome str n1 clock with ⟨hp, hr, hn⟩ | ⟨k, hl, hf⟩
  · rcases classify_outcome str n2 clock with ⟨-, hr2, hn2⟩ | ⟨k2, hl2, -⟩
    · exact ⟨hr.trans hr2.symm, hn.trans hn2.symm⟩
    · exact absurd (Passes_mono k2 14 str clock hl2.2.1 hp) hl2.2.2.2
  · rcases classify_outcome str n2 clock with ⟨hp2, -, -⟩ | ⟨k2, hl2, hf2⟩
    · exact absurd (Passes_mono k 14 str clock hl.2.1 hp2) hl.2.2.2
    · have e := LowestViolated_unique k k2 str clock hl hl2
      subst e
      exact ⟨hf.1.trans hf2.1.symm, hf.2.trans hf2.2.symm⟩

/-! ## Further consequences -/

theorem stepReason_ne_DayOutOfRangeForMonth (k : Nat) :
    stepReason k ≠ .DayOutOfRangeForMonth := by
  unfold stepReason
  split <;> simp

theorem reason_ne_DayOutOfRangeForMonth (str : List Char) (lineno : Nat) (clock : Clock) :
    (is_string_confirm_to_format str lineno clock).reason ≠ some .DayOutOfRangeForMonth := by
  rcases classify_outcome str lineno clock with ⟨-, -, hn⟩ | ⟨k, -, hf⟩
  · rw [hn]
    simp
  · rw [hf.2]
    intro e
    exact stepReason_ne_DayOutOfRangeForMonth k (Option.some.inj e)

theorem ite_ne_of (c : Prop) [Decidable c] (a b x : Int) (ha : a ≠ x) (hb : b ≠ x) :
    (if c then a else b) ≠ x := by
  split_ifs <;> assumption

theorem Earlier.documented_retval_ne_ten (str : List Char) (clock : Clock) :
    Earlier.documented_retval str clock ≠ 10 := by
  unfold Earlier.documented_retval
  repeat' apply ite_ne_of
  all_goals decide

theorem ite_reason_ne (c : Prop) [Decidable c] (a b : Outcome)
    (ha : c → a.reason ≠ some .DayOutOfRangeForMonth)
    (hb : ¬ c → b.reason ≠ some .DayOutOfRangeForMonth) :
    (if c then a else b).reason ≠ some .DayOutOfRangeForMonth := by
  split_ifs with h
  · exact ha h
  · exact hb h

theorem Earlier.check_future_reason (day month year : Int) (lineno : Nat) (clock : Clock) :
    (Earlier.check_future day month year lineno clock).reason ≠
      some .DayOutOfRangeForMonth := by
  cases clock with
  | time_failed => simp [Earlier.check_future, Outcome.reason]
  | localtime_failed => simp [Earlier.check_future, Outcome.reason]
  | now tm =>
    unfold Earlier.check_future
    simp only []
    apply ite_reason_ne
    · intro _
      simp [Outcome.reason, PRINTLN3]
    · intro _
      simp [Outcome.reason]

theorem Earlier.earlier_reason_ne_DayOutOfRangeForMonth (str : List Char) (lineno : Nat)
    (clock : Clock) :
    (Earlier.is_string_confirm_to_format str lineno clock).reason ≠
      some .DayOutOfRangeForMonth := by
  unfold Earlier.is_string_confirm_to_format
  simp only []
  apply ite_reason_ne <;> intro t1
  · simp [Outcome.reason, PRINTLN]
  apply ite_reason_ne <;> intro t2
  · simp [Outcome.reason, PRINTLN]
  apply ite_reason_ne <;> intro t3
  · simp [Outcome.reason, PRINTLN]
  apply ite_reason_ne <;> intro t4
  · simp [Outcome.reason, PRINTLN]
  apply ite_reason_ne <;> intro t5
  · simp [Outcome.reason, PRINTLN]
  apply ite_reason_ne <;> intro t6
  · simp [Outcome.reason, PRINTLN1]
  apply ite_reason_ne <;> intro t7
  · simp [Outcome.reason, PRINTLN1]
  apply ite_reason_ne <;> intro t8
  · simp [Outcome.reason, PRINTLN]
  apply ite_reason_ne <;> intro hm
  · apply ite_reason_ne <;> intro t9
    · simp [Outcome.reason, PRINTLN2]
    apply ite_reason_ne <;> intro t10
    · omega
    · exact Earlier.check_future_reason _ _ _ lineno clock
  · exact Earlier.check_future_reason _ _ _ lineno clock

theorem StepAt_clock_free (i : Nat) (str : List Char) (c1 c2 : Clock) (p q : Nat)
    (hi : i ≠ 14) : StepAt i str c1 p q ↔ StepAt i str c2 p q := by
  by_cases h15 : 15 ≤ i
  · obtain ⟨n, rfl⟩ : ∃ n, i = n + 15 := ⟨i - 15, by omega⟩
    exact Iff.rfl
  · interval_cases i
    all_goals first
      | exact Iff.rfl
      | exact absurd rfl hi

theorem PassesAt_13_clock_free (str : List Char) (c1 c2 : Clock) (p q : Nat)
    (h : PassesAt 13 str c1 p q) : PassesAt 13 str c2 p q :=
  fun i h1 h2 => (StepAt_clock_free i str c1 c2 p q (by omega)).mp (h i h1 h2)

theorem outcome_of_same_Passes (s1 s2 : List Char) (n1 n2 : Nat) (c1 c2 : Clock)
    (h : ∀ k, Passes k s1 c1 ↔ Passes k s2 c2) :
    (is_string_confirm_to_format s1 n1 c1).ret = (is_string_confirm_to_format s2 n2 c2).ret ∧
      (is_string_confirm_to_format s1 n1 c1).reason =
        (is_string_confirm_to_format s2 n2 c2).reason := by
  have hl : ∀ k, LowestViolated k s1 c1 → LowestViolated k s2 c2 := fun k hk =>
    ⟨hk.1, hk.2.1, (h (k - 1)).mp hk.2.2.1, fun hc => hk.2.2.2 ((h k).mpr hc)⟩
  rcases classify_outcome s1 n1 c1 with ⟨hp, hr, hn⟩ | ⟨k, hk, hf⟩
  · rcases classify_outcome s2 n2 c2 with ⟨-, hr2, hn2⟩ | ⟨k2, hl2, -⟩
    · exact ⟨hr.trans hr2.symm, hn.trans hn2.symm⟩
    · exact absurd (Passes_mono k2 14 s2 c2 hl2.2.1 ((h 14).mp hp)) hl2.2.2.2
  · rcases classify_outcome s2 n2 c2 with ⟨hp2, -, -⟩ | ⟨k2, hl2, hf2⟩
    · exact absurd (Passes_mono k 14 s1 c1 hk.2.1 ((h 14).mpr hp2)) hk.2.2.2
    · have e := LowestViolated_unique k k2 s2 c2 (hl k hk) hl2
      subst e
      exact ⟨hf.1.trans hf2.1.symm, hf.2.trans hf2.2.symm⟩

theorem Passes_iff_PassesAt (k : Nat) (str : List Char) (clock : Clock) (p q : Nat)
    (hp : FirstBarFrom str 13 p) (hq : FirstBarFrom str (p + 1) q) :
    Passes k str clock ↔ PassesAt k str clock p q := by
  constructor
  · rintro ⟨p2, q2, h⟩ i h1 h2
    have hs := h i h1 h2
    by_cases h3 : i ≤ 3 ∨ 8 ≤ i
    · exact (StepAt_separator_free i str clock p2 q2 p q h3).mp hs
    · have a2 : FirstBarFrom str 13 p2 := h 4 (by omega) (by omega)
      have e : p2 = p := FirstBarFrom_unique str 13 p2 p a2 hp
      subst e
      by_cases h5 : i = 4
      · subst h5
        exact hp
      · have b2 : FirstBarFrom str (p2 + 1) q2 := h 5 (by omega) (by omega)
        have e2 : q2 = q := FirstBarFrom_unique str (p2 + 1) q2 q b2 hq
        subst e2
        exact hs
  · intro h
    exact ⟨p, q, h⟩

theorem lt_strlen_of_charAt_bar (str : List Char) (i : Nat) (h : charAt str i = '|') :
    i < strlen str := by
  by_contra hc
  have e : charAt str i = Char.ofNat 0 := by
    unfold charAt
    rw [List.getD_eq_getElem?_getD, List.getElem?_eq_none (by unfold strlen at hc; omega)]
    rfl
  rw [e] at h
  exact absurd h (by decide)

theorem FirstBarFrom_of_agree (s1 s2 : List Char) (start p : Nat)
    (hagree : ∀ i, i ≤ p → charAt s1 i = charAt s2 i) (h : FirstBarFrom s1 start p) :
    FirstBarFrom s2 start p := by
  obtain ⟨a, -, c, d⟩ := h
  have c2 : charAt s2 p = '|' := by rw [← hagree p le_rfl]; exact c
  refine ⟨a, lt_strlen_of_charAt_bar s2 p c2, c2, ?_⟩
  intro i h1 h2
  rw [← hagree i (by omega)]
  exact d i h1 h2

theorem StepAt_of_agree (k : Nat) (s1 s2 : List Char) (clock : Clock) (p q : Nat)
    (_ : 18 ≤ strlen s1) (h2 : 18 ≤ strlen s2)
    (hp : FirstBarFrom s1 13 p) (hq : FirstBarFrom s1 (p + 1) q)
    (hagree : ∀ i, i ≤ q → charAt s1 i = charAt s2 i) :
    StepAt k s1 clock p q → StepAt k s2 clock p q := by
  have hpq : 13 ≤ p ∧ p + 1 ≤ q := ⟨hp.1, hq.1⟩
  have hd : ∀ i, i ≤ 12 → digit s1 i = digit s2 i := by
    intro i hi
    unfold digit
    rw [hagree i (by omega)]
  have eday : dayOf s1 = dayOf s2 := by
    unfold dayOf
    rw [hd 2 (by omega), hd 3 (by omega)]
  have emonth : monthOf s1 = monthOf s2 := by
    unfold monthOf
    rw [hd 5 (by omega), hd 6 (by omega)]
  have eyear : yearOf s1 = yearOf s2 := by
    unfold yearOf
    rw [hd 8 (by omega), hd 9 (by omega), hd 10 (by omega), hd 11 (by omega)]
  by_cases h15 : 15 ≤ k
  · obtain ⟨n, rfl⟩ : ∃ n, k = n + 15 := ⟨k - 15, by omega⟩
    exact fun _ => trivial
  interval_cases k
  · exact fun _ => trivial
  · exact fun _ => h2
  · intro h
    have h' : charAt s1 0 = '+' ∨ charAt s1 0 = '-' := h
    rw [hagree 0 (by omega)] at h'
    exact h'
  · intro h
    have h' : charAt s1 1 = '|' ∧ charAt s1 12 = '|' := h
    rw [hagree 1 (by omega), hagree 12 (by omega)] at h'
    exact h'
  · exact fun _ => FirstBarFrom_of_agree s1 s2 13 p (fun i hi => hagree i (by omega)) hp
  · exact fun _ => FirstBarFrom_of_agree s1 s2 (p + 1) q hagree hq
  · intro h i hi hi2
    have h' : ∀ i, 13 ≤ i → i < p → isdigit (charAt s1 i) = true := h
    rw [← hagree i (by omega)]
    exact h' i hi hi2
  · intro h i hi hi2
    have h' : ∀ i, p + 1 ≤ i → i < q → AmountChar (charAt s1 i) := h
    rw [← hagree i (by omega)]
    exact h' i hi hi2
  · intro h
    have h' : isdigit (charAt s1 2) = true ∧ isdigit (charAt s1 3) = true ∧
      isdigit (charAt s1 5) = true ∧ isdigit (charAt s1 6) = true ∧
      isdigit (charAt s1 8) = true ∧ isdigit (charAt s1 9) = true ∧
      isdigit (charAt s1 10) = true ∧ isdigit (charAt s1 11) = true := h
    rw [hagree 2 (by omega), hagree 3 (by omega), hagree 5 (by omega), hagree 6 (by omega),
      hagree 8 (by omega), hagree 9 (by omega), hagree 10 (by omega),
      hagree 11 (by omega)] at h'
    exact h'
  · intro h
    have h' : charAt s1 4 = '.' ∧ charAt s1 7 = '.' := h
    rw [hagree 4 (by omega), hagree 7 (by omega)] at h'
    exact h'
  · intro h
    have h' : 1 ≤ dayOf s1 ∧ dayOf s1 ≤ 31 := h
    rw [eday] at h'
    exact h'
  · intro h
    have h' : 1 ≤ monthOf s1 ∧ monthOf s1 ≤ 12 := h
    rw [emonth] at h'
    exact h'
  · intro h
    have h' : 0 < yearOf s1 := h
    rw [eyear] at h'
    exact h'
  · intro h
    have h' : ¬ (monthOf s1 = 2 ∧
      ((LeapYear (yearOf s1) ∧ 29 < dayOf s1) ∨
        ((monthOf s1 = 4 ∨ monthOf s1 = 6 ∨ monthOf s1 = 9 ∨ monthOf s1 = 11) ∧
          30 < dayOf s1))) := h
    rw [eday, emonth, eyear] at h'
    exact h'
  · intro h
    have h' : NotInFuture (yearOf s1) (monthOf s1) (dayOf s1) clock := h
    rw [eday, emonth, eyear] at h'
    exact h'

theorem Passes_iff_of_agree (k : Nat) (s1 s2 : List Char) (clock : Clock) (p q : Nat)
    (h1 : 18 ≤ strlen s1) (h2 : 18 ≤ strlen s2)
    (hp : FirstBarFrom s1 13 p) (hq : FirstBarFrom s1 (p + 1) q)
    (hagree : ∀ i, i ≤ q → charAt s1 i = charAt s2 i) :
    Passes k s1 clock ↔ Passes k s2 clock := by
  have hp2 := FirstBarFrom_of_agree s1 s2 13 p (fun i hi => hagree i (by have := hq.1; omega)) hp
  have hq2 := FirstBarFrom_of_agree s1 s2 (p + 1) q hagree hq
  rw [Passes_iff_PassesAt k s1 clock p q hp hq, Passes_iff_PassesAt k s2 clock p q hp2 hq2]
  constructor
  · intro h i hi hi2
    exact StepAt_of_agree i s1 s2 clock p q h1 h2 hp hq hagree (h i hi hi2)
  · intro h i hi hi2
    exact StepAt_of_agree i s2 s1 clock p q h2 h1 hp2 hq2 (fun j hj => (hagree j hj).symm)
      (h i hi hi2)

/-! ## The field separators -/

theorem mem_field (str : List Char) (a b : Nat) (c : Char) (h : c ∈ field str a b) :
    ∃ i, a ≤ i ∧ i < b ∧ charAt str i = c := by
  unfold field at h
  obtain ⟨k, hk, e⟩ := List.mem_iff_getElem.mp h
  have hk2 := hk
  simp only [List.length_take, List.length_drop] at hk2
  refine ⟨a + k, by omega, by omega, ?_⟩
  unfold charAt
  rw [List.getD_eq_getElem?_getD, List.getElem?_eq_getElem (by omega)]
  simp only [List.getElem_take, List.getElem_drop] at e
  simpa using e

theorem take_eq_append_field (str : List Char) (a b : Nat) (h : a ≤ b) :
    str.take b = str.take a ++ field str a b := by
  unfold field
  conv_lhs => rw [show b = a + (b - a) by omega]
  rw [List.take_add]

theorem field_single (str : List Char) (p : Nat) (h : p < strlen str) :
    field str p (p + 1) = [charAt str p] := by
  unfold strlen at h
  unfold field charAt
  have e1 : p + 1 - p = 1 := by omega
  have e2 : str.getD p (Char.ofNat 0) = str[p] := by
    simp [List.getD_eq_getElem?_getD, List.getElem?_eq_getElem h]
  rw [e1, e2, List.drop_eq_getElem_cons h]
  rfl

theorem isdigit_ne_bar (c : Char) (h : isdigit c = true) : c ≠ '|' := by
  intro e
  rw [e] at h
  exact absurd h (by decide)

theorem AmountChar_ne_bar (c : Char) (h : AmountChar c) : c ≠ '|' := by
  intro e
  rw [e] at h
  exact absurd h (by decide)

/-- In a line that passes steps 1-9 the only `|` up to the amount separator
are those at offsets 1 and 12 and the two separators found by the scans. -/
theorem not_bar_of_PassesAt (str : List Char) (clock : Clock) (p q : Nat)
    (h : PassesAt 9 str clock p q) (i : Nat) (hi : i ≤ q)
    (hne : i ≠ 1 ∧ i ≠ 12 ∧ i ≠ p ∧ i ≠ q) : charAt str i ≠ '|' := by
  have s2 : charAt str 0 = '+' ∨ charAt str 0 = '-' := h 2 (by omega) (by omega)
  have s4 : FirstBarFrom str 13 p := h 4 (by omega) (by omega)
  have s5 : FirstBarFrom str (p + 1) q := h 5 (by omega) (by omega)
  have s8 : isdigit (charAt str 2) = true ∧ isdigit (charAt str 3) = true ∧
      isdigit (charAt str 5) = true ∧ isdigit (charAt str 6) = true ∧
      isdigit (charAt str 8) = true ∧ isdigit (charAt str 9) = true ∧
      isdigit (charAt str 10) = true ∧ isdigit (charAt str 11) = true :=
    h 8 (by omega) (by omega)
  have s9 : charAt str 4 = '.' ∧ charAt str 7 = '.' := h 9 (by omega) (by omega)
  obtain ⟨d2, d3, d5, d6, d8, d9, d10, d11⟩ := s8
  by_cases h13 : 13 ≤ i
  · by_cases hp : i < p
    · exact s4.2.2.2 i h13 hp
    · exact s5.2.2.2 i (by omega) (by omega)
  · interval_cases i
    · rcases s2 with e | e <;> rw [e] <;> decide
    · exact absurd rfl hne.1
    · exact isdigit_ne_bar _ d2
    · exact isdigit_ne_bar _ d3
    · rw [s9.1]; decide
    · exact isdigit_ne_bar _ d5
    · exact isdigit_ne_bar _ d6
    · rw [s9.2]; decide
    · exact isdigit_ne_bar _ d8
    · exact isdigit_ne_bar _ d9
    · exact isdigit_ne_bar _ d10
    · exact isdigit_ne_bar _ d11
    · exact absurd rfl hne.2.1

theorem count_bar_field_eq_zero (str : List Char) (a b : Nat)
    (h : ∀ i, a ≤ i → i < b → charAt str i ≠ '|') : (field str a b).count '|' = 0 := by
  apply List.count_eq_zero_of_not_mem
  intro hm
  obtain ⟨i, h1, h2, e⟩ := mem_field str a b '|' hm
  exact h i h1 h2 e

theorem count_bar_take_13 (str : List Char) (clock : Clock) (p q : Nat)
    (h : PassesAt 9 str clock p q) : (str.take 13).count '|' = 2 := by
  have s1 : 18 ≤ strlen str := h 1 (by omega) (by omega)
  have s3 : charAt str 1 = '|' ∧ charAt str 12 = '|' := h 3 (by omega) (by omega)
  have s4 : FirstBarFrom str 13 p := h 4 (by omega) (by omega)
  have s5 : FirstBarFrom str (p + 1) q := h 5 (by omega) (by omega)
  have hpq : 13 ≤ p ∧ p + 1 ≤ q := ⟨s4.1, s5.1⟩
  have nb : ∀ i, i ≤ 11 → i ≠ 1 → (charAt str i == '|') = false := by
    intro i hi hne
    have := not_bar_of_PassesAt str clock p q h i (by omega) ⟨hne, by omega, by omega, by omega⟩
    simpa using this
  have ht : str.take 13 = (List.range 13).map (charAt str) :=
    take_eq_map_range str 13 (by unfold strlen at s1; omega)
  have hr : (List.range 13).map (charAt str) =
      [charAt str 0, charAt str 1, charAt str 2, charAt str 3, charAt str 4, charAt str 5,
        charAt str 6, charAt str 7, charAt str 8, charAt str 9, charAt str 10, charAt str 11,
        charAt str 12] := rfl
  rw [ht, hr, s3.1, s3.2]
  simp only [List.count_cons, List.count_nil, nb 0 (by omega) (by omega),
    nb 2 (by omega) (by omega), nb 3 (by omega) (by omega), nb 4 (by omega) (by omega),
    nb 5 (by omega) (by omega), nb 6 (by omega) (by omega), nb 7 (by omega) (by omega),
    nb 8 (by omega) (by omega), nb 9 (by omega) (by omega), nb 10 (by omega) (by omega),
    nb 11 (by omega) (by omega)]
  rfl

theorem count_bar_take_amount_separator (str : List Char) (clock : Clock) (p q : Nat)
    (h : PassesAt 9 str clock p q) : (str.take (q + 1)).count '|' = 4 := by
  have s4 : FirstBarFrom str 13 p := h 4 (by omega) (by omega)
  have s5 : FirstBarFrom str (p + 1) q := h 5 (by omega) (by omega)
  rw [take_eq_append_field str q (q + 1) (by omega),
    take_eq_append_field str (p + 1) q s5.1,
    take_eq_append_field str p (p + 1) (by omega),
    take_eq_append_field str 13 p s4.1,
    field_single str p s4.2.1, field_single str q s5.2.1, s4.2.2.1, s5.2.2.1]
  simp only [List.count_append, count_bar_take_13 str clock p q h,
    count_bar_field_eq_zero str 13 p s4.2.2.2,
    count_bar_field_eq_zero str (p + 1) q s5.2.2.2]
  rfl

/-! ## The line processor -/

theorem loop_body_blank {F : Type} (ops : FloatOps F) (st : Totals F) (curline : List Char)
    (clock : Clock) (hb : blank_line curline) :
    loop_body ops st curline clock = some (st.skip 1) := by
  unfold loop_body
  simp only []
  rw [if_pos hb]
  rfl

theorem loop_body_abort {F : Type} (ops : FloatOps F) (st : Totals F) (curline : List Char)
    (clock : Clock) (hb : ¬ blank_line curline) (hf : st.fails = MAX_WRONG_LINES) :
    loop_body ops st curline clock = none := by
  unfold loop_body
  simp only []
  rw [if_neg hb, if_pos hf]

theorem loop_body_rejected {F : Type} (ops : FloatOps F) (st : Totals F)
    (curline : List Char) (clock : Clock) (hb : ¬ blank_line curline)
    (hf : st.fails ≠ MAX_WRONG_LINES)
    (hv : (is_string_confirm_to_format (kill_trailing_newline curline) (st.lineno + 1)
      clock).ret = 0) :
    loop_body ops st curline clock =
      some { st with lineno := st.lineno + 1, fails := st.fails + 1 } := by
  unfold loop_body
  simp only []
  rw [if_neg hb, if_neg hf, if_pos hv]

theorem loop_body_accepted {F : Type} (ops : FloatOps F) (st : Totals F)
    (curline : List Char) (clock : Clock) (hb : ¬ blank_line curline)
    (hf : st.fails ≠ MAX_WRONG_LINES)
    (hv : (is_string_confirm_to_format (kill_trailing_newline curline) (st.lineno + 1)
      clock).ret ≠ 0) :
    loop_body ops st curline clock =
      match sscanf_record ops (kill_trailing_newline curline) with
      | .both sign curr =>
        if sign = '-' then
          some { st with lineno := st.lineno + 1, record_count := st.record_count + 1,
                         minus := ops.add st.minus curr }
        else
          some { st with lineno := st.lineno + 1, record_count := st.record_count + 1,
                         plus := ops.add st.plus curr }
      | _ => some { st with lineno := st.lineno + 1, fails := st.fails + 1 } := by
  unfold loop_body
  simp only []
  rw [if_neg hb, if_neg hf, if_neg hv]

theorem loop_body_eq_none_iff {F : Type} (ops : FloatOps F) (st : Totals F)
    (curline : List Char) (clock : Clock) :
    loop_body ops st curline clock = none ↔
      ¬ blank_line curline ∧ st.fails = MAX_WRONG_LINES := by
  constructor
  · intro h
    by_cases hb : blank_line curline
    · rw [loop_body_blank ops st curline clock hb] at h
      cases h
    by_cases hf : st.fails = MAX_WRONG_LINES
    · exact ⟨hb, hf⟩
    by_cases hv : (is_string_confirm_to_format (kill_trailing_newline curline)
        (st.lineno + 1) clock).ret = 0
    · rw [loop_body_rejected ops st curline clock hb hf hv] at h
      cases h
    · rw [loop_body_accepted ops st curline clock hb hf hv] at h
      split at h
      · split at h <;> cases h
      · cases h
  · rintro ⟨hb, hf⟩
    exact loop_body_abort ops st curline clock hb hf

/-- A line that is not empty and does not end the program moves the line
counter on by one and exactly one of the counters `fails` and
`record_count`. -/
theorem loop_body_step {F : Type} (ops : FloatOps F) (st st2 : Totals F)
    (curline : List Char) (clock : Clock) (hb : ¬ blank_line curline)
    (h : loop_body ops st curline clock = some st2) :
    st.fails ≠ MAX_WRONG_LINES ∧ st2.lineno = st.lineno + 1 ∧
      ((st2.fails = st.fails + 1 ∧ st2.record_count = st.record_count ∧
          st2.plus = st.plus ∧ st2.minus = st.minus) ∨
        (st2.fails = st.fails ∧ st2.record_count = st.record_count + 1)) := by
  by_cases hf : st.fails = MAX_WRONG_LINES
  · rw [loop_body_abort ops st curline clock hb hf] at h
    cases h
  refine ⟨hf, ?_⟩
  by_cases hv : (is_string_confirm_to_format (kill_trailing_newline curline)
      (st.lineno + 1) clock).ret = 0
  · rw [loop_body_rejected ops st curline clock hb hf hv] at h
    cases h
    exact ⟨rfl, Or.inl ⟨rfl, rfl, rfl, rfl⟩⟩
  · rw [loop_body_accepted ops st curline clock hb hf hv] at h
    split at h
    · split at h <;> cases h <;> exact ⟨rfl, Or.inr ⟨rfl, rfl⟩⟩
    · cases h
      exact ⟨rfl, Or.inl ⟨rfl, rfl, rfl, rfl⟩⟩

theorem run_loop_append {F : Type} (ops : FloatOps F) :
    ∀ (a b : List (List Char × Clock)) (st : Totals F),
      run_loop ops st (a ++ b) = (run_loop ops st a).bind (fun s => run_loop ops s b) := by
  intro a
  induction a with
  | nil => intro b st; rfl
  | cons x rest ih =>
    intro b st
    obtain ⟨curline, clock⟩ := x
    simp only [List.cons_append, run_loop]
    cases loop_body ops st curline clock with
    | none => rfl
    | some st2 => exact ih b st2

theorem loop_body_skip {F : Type} (ops : FloatOps F) (d : Nat) (st : Totals F)
    (curline : List Char) (clock : Clock) :
    loop_body ops (st.skip d) curline clock =
      (loop_body ops st curline clock).map (Totals.skip d) := by
  by_cases hb : blank_line curline
  · rw [loop_body_blank ops st curline clock hb, loop_body_blank ops _ curline clock hb]
    simp only [Option.map_some', Totals.skip]
    congr 2
    omega
  by_cases hf : st.fails = MAX_WRONG_LINES
  · rw [loop_body_abort ops st curline clock hb hf,
      loop_body_abort ops (st.skip d) curline clock hb hf]
    rfl
  have hf2 : (st.skip d).fails ≠ MAX_WRONG_LINES := hf
  have e := (ret_and_reason_same_lineno (kill_trailing_newline curline) (st.lineno + 1)
    ((st.skip d).lineno + 1) clock).1
  by_cases hv : (is_string_confirm_to_format (kill_trailing_newline curline)
      (st.lineno + 1) clock).ret = 0
  · rw [loop_body_rejected ops st curline clock hb hf hv,
      loop_body_rejected ops (st.skip d) curline clock hb hf2 (by rw [← e]; exact hv)]
    simp only [Option.map_some', Totals.skip]
    congr 2
    omega
  · rw [loop_body_accepted ops st curline clock hb hf hv,
      loop_body_accepted ops (st.skip d) curline clock hb hf2 (by rw [← e]; exact hv)]
    split
    · split
      · simp only [Option.map_some', Totals.skip]
        congr 2
        omega
      · simp only [Option.map_some', Totals.skip]
        congr 2
        omega
    · simp only [Option.map_some', Totals.skip]
      congr 2
      omega

theorem run_loop_skip {F : Type} (ops : FloatOps F) (d : Nat) :
    ∀ (input : List (List Char × Clock)) (st : Totals F),
      run_loop ops (st.skip d) input = (run_loop ops st input).map (Totals.skip d) := by
  intro input
  induction input with
  | nil => intro st; rfl
  | cons x rest ih =>
    intro st
    obtain ⟨curline, clock⟩ := x
    simp only [run_loop]
    rw [loop_body_skip]
    cases loop_body ops st curline clock with
    | none => rfl
    | some st2 => exact ih st2

/-- The counters after a run of the loop that did not end the program. -/
theorem run_loop_counters {F : Type} (ops : FloatOps F) :
    ∀ (input : List (List Char × Clock)) (st st2 : Totals F),
      run_loop ops st input = some st2 → st.fails ≤ MAX_WRONG_LINES →
      st2.lineno = st.lineno + input.length ∧
      st2.fails + st2.record_count + blank_count input =
        st.fails + st.record_count + input.length ∧
      st.fails ≤ st2.fails ∧ st.record_count ≤ st2.record_count ∧
      st2.fails ≤ MAX_WRONG_LINES := by
  intro input
  induction input with
  | nil =>
    intro st st2 h hle
    cases h
    exact ⟨rfl, rfl, le_rfl, le_rfl, hle⟩
  | cons x rest ih =>
    intro st st2 h hle
    obtain ⟨curline, clock⟩ := x
    simp only [run_loop] at h
    cases hl : loop_body ops st curline clock with
    | none => rw [hl] at h; cases h
    | some st1 =>
      rw [hl] at h
      by_cases hb : blank_line curline
      · rw [loop_body_blank ops st curline clock hb] at hl
        cases hl
        obtain ⟨a, b, c, d, e⟩ := ih (st.skip 1) st2 h hle
        have hc : blank_count ((curline, clock) :: rest) = blank_count rest + 1 := by
          unfold blank_count
          rw [List.countP_cons_of_pos]
          simpa using hb
        simp only [Totals.skip] at a b c d
        rw [hc]
        simp only [List.length_cons]
        exact ⟨by omega, by omega, c, d, e⟩
      · obtain ⟨hf, hn, hstep⟩ := loop_body_step ops st st1 curline clock hb hl
        have hc : blank_count ((curline, clock) :: rest) = blank_count rest := by
          unfold blank_count
          rw [List.countP_cons_of_neg]
          simpa using hb
        have hle1 : st1.fails ≤ MAX_WRONG_LINES := by
          rcases hstep with ⟨e, -⟩ | ⟨e, -⟩ <;> omega
        obtain ⟨a, b, c, d, e⟩ := ih st1 st2 h hle1
        rw [hc]
        simp only [List.length_cons]
        rcases hstep with ⟨e1, e2, -⟩ | ⟨e1, e2⟩
        · exact ⟨by omega, by omega, by omega, by omega, e⟩
        · exact ⟨by omega, by omega, by omega, by omega, e⟩

theorem sscanf_record_sign {F : Type} (ops : FloatOps F) (curline : List Char)
    (sign : Char) (curr : F) (h : sscanf_record ops curline = .both sign curr) :
    sign = charAt curline 0 := by
  unfold sscanf_record at h
  split at h
  · cases h
  · split at h
    · cases h
    · cases h
      rfl

theorem sscanf_record_ret {F : Type} (ops : FloatOps F) (curline : List Char) :
    (sscanf_record ops curline).ret = 2 ↔
      ∃ sign curr, sscanf_record ops curline = .both sign curr := by
  constructor
  · intro h
    cases hs : sscanf_record ops curline with
    | eof => rw [hs] at h; simp [Scanned.ret] at h
    | sign_only s => rw [hs] at h; simp [Scanned.ret] at h
    | both s c => exact ⟨s, c, rfl⟩
  · rintro ⟨s, c, e⟩
    rw [e]
    rfl

theorem run_loop_blanks {F : Type} (ops : FloatOps F) :
    ∀ (blanks : List (List Char × Clock)) (st : Totals F),
      (∀ x ∈ blanks, blank_line x.1) → run_loop ops st blanks = some (st.skip blanks.length) := by
  intro blanks
  induction blanks with
  | nil => intro st _; rfl
  | cons x rest ih =>
    intro st h
    obtain ⟨curline, clock⟩ := x
    simp only [run_loop,
      loop_body_blank ops st curline clock (h (curline, clock) (List.mem_cons_self _ _))]
    rw [ih (st.skip 1) (fun y hy => h y (List.mem_cons_of_mem _ hy))]
    simp only [Totals.skip, List.length_cons]
    congr 2
    omega

/-! ## Index safety -/

theorem Checked.read_of_le (str : List Char) (i : Nat) (h : i ≤ strlen str) :
    Checked.read str i = some (charAt str i) := by
  unfold Checked.read
  rw [if_pos h]

theorem charAt_strlen (str : List Char) : charAt str (strlen str) = Char.ofNat 0 := by
  unfold charAt strlen
  rw [List.getD_eq_getElem?_getD, List.getElem?_eq_none (le_refl _)]
  rfl

theorem Checked.strchr_scan_eq (str : List Char) (c : Char) (hc : CString str)
    (hne : c ≠ Char.ofNat 0) : ∀ (fuel i : Nat), i ≤ strlen str → strlen str + 1 ≤ fuel + i →
    Checked.strchr_scan str c fuel i = some (OpenFM.strchr_scan c (str.drop i) i) := by
  intro fuel
  induction fuel with
  | zero => intro i h1 h2; omega
  | succ fuel ih =>
    intro i h1 h2
    unfold Checked.strchr_scan
    simp only [Checked.read_of_le str i h1]
    rcases Nat.eq_or_lt_of_le h1 with e | hlt
    · have hd : str.drop i = [] := by
        rw [e]
        exact List.drop_length str
      rw [hd, e, charAt_strlen]
      rw [if_neg (fun h => hne h.symm), if_pos rfl]
      rfl
    · have hlt2 : i < str.length := hlt
      have hd : str.drop i = str.get ⟨i, hlt2⟩ :: str.drop (i + 1) :=
        List.drop_eq_getElem_cons hlt2
      rw [hd, charAt_eq_getElem str i hlt2]
      by_cases hx : str.get ⟨i, hlt2⟩ = c
      · rw [if_pos hx]
        simp only [OpenFM.strchr_scan, hx, if_true]
      · have hn : str.get ⟨i, hlt2⟩ ≠ Char.ofNat 0 := hc _ (List.get_mem str i hlt2)
        rw [if_neg hx, if_neg hn, ih (i + 1) hlt (by omega)]
        simp only [OpenFM.strchr_scan, hx, if_false]

theorem Checked.strchr_eq (fuel : Nat) (str : List Char) (start : Nat) (hc : CString str)
    (hs : start ≤ strlen str) (hfuel : strlen str + 1 ≤ fuel) :
    Checked.strchr fuel str start '|' = some (OpenFM.strchr str start '|') := by
  unfold Checked.strchr OpenFM.strchr
  exact Checked.strchr_scan_eq str '|' hc (by decide) fuel start hs (by omega)

theorem Checked.category_loop_eq (str : List Char) : ∀ (n i : Nat), i + n ≤ strlen str + 1 →
    Checked.category_loop str i n = some (OpenFM.category_loop str i n) := by
  intro n
  induction n with
  | zero => intro i _; rfl
  | succ n ih =>
    intro i h
    unfold Checked.category_loop OpenFM.category_loop
    simp only [Checked.read_of_le str i (by omega)]
    by_cases hd : (!isdigit (charAt str i)) = true
    · rw [if_pos hd, if_pos hd]
    · rw [if_neg hd, if_neg hd]
      exact ih (i + 1) (by omega)

theorem Checked.amount_loop_eq (str : List Char) : ∀ (n i : Nat), i + n ≤ strlen str + 1 →
    Checked.amount_loop str i n = some (OpenFM.amount_loop str i n) := by
  intro n
  induction n with
  | zero => intro i _; rfl
  | succ n ih =>
    intro i h
    unfold Checked.amount_loop OpenFM.amount_loop
    simp only [Checked.read_of_le str i (by omega)]
    by_cases hd : ((!isdigit (charAt str i)) && charAt str i != '.' && charAt str i != ',') = true
    · rw [if_pos hd, if_pos hd]
    · rw [if_neg hd, if_neg hd]
      exact ih (i + 1) (by omega)

theorem Checked.check_date_eq (str : List Char) (lineno : Nat) (clock : Clock) :
    Checked.check_date (charAt str 2) (charAt str 3) (charAt str 5) (charAt str 6)
      (charAt str 8) (charAt str 9) (charAt str 10) (charAt str 11) lineno clock =
    (let day := digit str 2 * 10 + digit str 3
     if day > 31 ∨ day = 0 then ⟨0, PRINTLN1 lineno .DayOutOfRange day⟩
     else
      let month := digit str 5 * 10 + digit str 6
      if month > 12 ∨ month = 0 then ⟨0, PRINTLN1 lineno .MonthOutOfRange month⟩
      else
        let year :=
          digit str 8 * 1000 + digit str 9 * 100 + digit str 10 * 10 + digit str 11
        if year = 0 then ⟨0, PRINTLN lineno .YearIsZero⟩
        else if month = 2 then
          if ISLEAP year = true ∧ day > 29 then
            ⟨0, PRINTLN2 lineno .LeapDayOutOfRange day month⟩
          else if (month = 4 ∨ month = 6 ∨ month = 9 ∨ month = 11) ∧ day > 30 then
            ⟨0, PRINTLN2 lineno .DayOutOfRangeForMonth day month⟩
          else check_future day month year lineno clock
        else check_future day month year lineno clock) := rfl

/-- With enough fuel for its scans, the checked later variant takes no
out-of-bounds branch on a C string and gives the outcome of the embedding. -/
theorem Checked.eq_some (fuel : Nat) (str : List Char) (lineno : Nat) (clock : Clock)
    (hc : CString str) (hfuel : strlen str + 1 ≤ fuel) :
    Checked.is_string_confirm_to_format fuel str lineno clock =
      some (OpenFM.is_string_confirm_to_format str lineno clock) := by
  unfold Checked.is_string_confirm_to_format OpenFM.is_string_confirm_to_format
  by_cases t1 : strlen str < 18
  · rw [if_pos t1, if_pos t1]
  rw [if_neg t1, if_neg t1]
  have rd : ∀ i, i ≤ 12 → Checked.read str i = some (charAt str i) :=
    fun i hi => Checked.read_of_le str i (by omega)
  simp only [rd 0 (by omega), rd 1 (by omega), rd 12 (by omega)]
  by_cases t2 : charAt str 0 ≠ '-' ∧ charAt str 0 ≠ '+'
  · rw [if_pos t2, if_pos t2]
  rw [if_neg t2, if_neg t2]
  by_cases t3 : charAt str 1 ≠ '|' ∨ charAt str 12 ≠ '|'
  · rw [if_pos t3, if_pos t3]
  rw [if_neg t3, if_neg t3]
  simp only [Checked.strchr_eq fuel str 13 hc (by omega) hfuel]
  cases h4 : OpenFM.strchr str 13 '|' with
  | none => rfl
  | some p =>
    have hp := (strchr_eq_some_iff str 13 p).mp h4
    simp only [Checked.strchr_eq fuel str (p + 1) hc (by have := hp.2.1; omega) hfuel]
    cases h5 : OpenFM.strchr str (p + 1) '|' with
    | none => rfl
    | some q =>
      have hq := (strchr_eq_some_iff str (p + 1) q).mp h5
      have hpb := hp.1
      have hqb := hq.1
      have hql := hq.2.1
      simp only [Checked.category_loop_eq str (p - 13) 13 (by omega),
        Checked.amount_loop_eq str (q - (p + 1)) (p + 1) (by omega)]
      cases h6 : OpenFM.category_loop str 13 (p - 13) with
      | false => simp only [if_true]
      | true =>
        simp only [Bool.true_eq_false, if_false]
        cases h7 : OpenFM.amount_loop str (p + 1) (q - (p + 1)) with
        | false => simp only [if_true]
        | true =>
          simp only [Bool.true_eq_false, if_false, rd 2 (by omega), rd 3 (by omega),
            rd 4 (by omega), rd 5 (by omega), rd 6 (by omega), rd 7 (by omega),
            rd 8 (by omega), rd 9 (by omega), rd 10 (by omega), rd 11 (by omega)]
          by_cases t8 : ¬ (isdigit (charAt str 2) = true ∧ isdigit (charAt str 3) = true ∧
              isdigit (charAt str 5) = true ∧ isdigit (charAt str 6) = true ∧
              isdigit (charAt str 8) = true ∧ isdigit (charAt str 9) = true ∧
              isdigit (charAt str 10) = true ∧ isdigit (charAt str 11) = true)
          · rw [if_pos t8, if_pos t8]
          rw [if_neg t8, if_neg t8]
          by_cases t9 : charAt str 4 ≠ '.' ∨ charAt str 7 ≠ '.'
          · rw [if_pos t9, if_pos t9]
          rw [if_neg t9, if_neg t9, Checked.check_date_eq]

theorem Checked.Earlier.earlier_check_date_eq (str : List Char) (lineno : Nat) (clock : Clock) :
    Checked.Earlier.check_date (charAt str 2) (charAt str 3) (charAt str 5) (charAt str 6)
      (charAt str 8) (charAt str 9) (charAt str 10) (charAt str 11) lineno clock =
    (let day := digit str 2 * 10 + digit str 3
     if day > 31 ∨ day = 0 then ⟨6, PRINTLN1 lineno .DayOutOfRange day⟩
     else
      let month := digit str 5 * 10 + digit str 6
      if month > 12 ∨ month = 0 then ⟨7, PRINTLN1 lineno .MonthOutOfRange month⟩
      else
        let year :=
          digit str 8 * 1000 + digit str 9 * 100 + digit str 10 * 10 + digit str 11
        if year = 0 then ⟨8, PRINTLN lineno .YearIsZero⟩
        else if month = 2 then
          if ISLEAP year = true ∧ day > 29 then
            ⟨9, PRINTLN2 lineno .LeapDayOutOfRange day month⟩
          else if (month = 4 ∨ month = 6 ∨ month = 9 ∨ month = 11) ∧ day > 30 then
            ⟨10, PRINTLN2 lineno .DayOutOfRangeForMonth day month⟩
          else OpenFM.Earlier.check_future day month year lineno clock
        else OpenFM.Earlier.check_future day month year lineno clock) := rfl

/-- The checked earlier variant takes no out-of-bounds branch and gives the
outcome of the embedding. -/
theorem Checked.Earlier.earlier_eq_some (str : List Char) (lineno : Nat) (clock : Clock) :
    Checked.Earlier.is_string_confirm_to_format str lineno clock =
      some (OpenFM.Earlier.is_string_confirm_to_format str lineno clock) := by
  unfold Checked.Earlier.is_string_confirm_to_format
    OpenFM.Earlier.is_string_confirm_to_format
  by_cases t1 : strlen str < 15
  · rw [if_pos t1, if_pos t1]
  rw [if_neg t1, if_neg t1]
  have rd : ∀ i, i ≤ 12 → Checked.read str i = some (charAt str i) :=
    fun i hi => Checked.read_of_le str i (by omega)
  simp only [rd 0 (by omega), rd 1 (by omega), rd 12 (by omega)]
  by_cases t2 : charAt str 0 ≠ '-' ∧ charAt str 0 ≠ '+'
  · rw [if_pos t2, if_pos t2]
  rw [if_neg t2, if_neg t2]
  by_cases t3 : charAt str 1 ≠ '|' ∨ charAt str 12 ≠ '|'
  · rw [if_pos t3, if_pos t3]
  rw [if_neg t3, if_neg t3]
  simp only [rd 2 (by omega), rd 3 (by omega),
    rd 4 (by omega), rd 5 (by omega), rd 6 (by omega), rd 7 (by omega),
    rd 8 (by omega), rd 9 (by omega), rd 10 (by omega), rd 11 (by omega)]
  by_cases t8 : ¬ (isdigit (charAt str 2) = true ∧ isdigit (charAt str 3) = true ∧
      isdigit (charAt str 5) = true ∧ isdigit (charAt str 6) = true ∧
      isdigit (charAt str 8) = true ∧ isdigit (charAt str 9) = true ∧
      isdigit (charAt str 10) = true ∧ isdigit (charAt str 11) = true)
  · rw [if_pos t8, if_pos t8]
  rw [if_neg t8, if_neg t8]
  by_cases t9 : charAt str 4 ≠ '.' ∨ charAt str 7 ≠ '.'
  · rw [if_pos t9, if_pos t9]
  rw [if_neg t9, if_neg t9, Checked.Earlier.earlier_check_date_eq]

/-! ## Calls in a process -/

/-- The tail of the validator in a process returns the value of the embedding
`check_future` and adds its lines to the standard error stream: the static
`struct tm` is filled by `localtime` before it is read. -/
theorem Stateful.check_future_eq (pr : Process) (day month year : Int) (lineno : Nat)
    (clock : Clock) :
    (Stateful.check_future pr day month year lineno clock).1 =
        (OpenFM.check_future day month year lineno clock).ret ∧
      (Stateful.check_future pr day month year lineno clock).2.stderr =
        pr.stderr ++ (OpenFM.check_future day month year lineno clock).err := by
  cases clock with
  | time_failed => exact ⟨rfl, rfl⟩
  | localtime_failed => exact ⟨rfl, rfl⟩
  | now tm =>
    simp only [Stateful.check_future, Stateful.localtime, Stateful.add_1900,
      OpenFM.check_future]
    by_cases c : year > tm.tm_year + 1900 ∨
        (year = tm.tm_year + 1900 ∧ month > tm.tm_mon + 1) ∨
        (year = tm.tm_year + 1900 ∧ month = tm.tm_mon + 1 ∧ day > tm.tm_mday)
    · rw [if_pos c, if_pos c]
      exact ⟨rfl, rfl⟩
    · rw [if_neg c, if_neg c]
      exact ⟨rfl, by simp⟩

theorem Stateful.ite_agrees (c : Prop) [Decidable c] (pr : Process) (a b : Int × Process)
    (x y : Outcome)
    (ha : c → a.1 = x.ret ∧ a.2.stderr = pr.stderr ++ x.err)
    (hb : ¬ c → b.1 = y.ret ∧ b.2.stderr = pr.stderr ++ y.err) :
    (if c then a else b).1 = (if c then x else y).ret ∧
      (if c then a else b).2.stderr = pr.stderr ++ (if c then x else y).err := by
  by_cases h : c
  · rw [if_pos h, if_pos h]
    exact ha h
  · rw [if_neg h, if_neg h]
    exact hb h

/-- A call of the validator in a process returns the value of the embedding
`is_string_confirm_to_format` and adds its lines to the standard error stream,
whatever the process holds before the call. -/
theorem Stateful.call_eq (pr : Process) (str : List Char) (lineno : Nat) (clock : Clock) :
    (Stateful.is_string_confirm_to_format pr str lineno clock).1 =
        (OpenFM.is_string_confirm_to_format str lineno clock).ret ∧
      (Stateful.is_string_confirm_to_format pr str lineno clock).2.stderr =
        pr.stderr ++ (OpenFM.is_string_confirm_to_format str lineno clock).err := by
  unfold Stateful.is_string_confirm_to_format OpenFM.is_string_confirm_to_format
  refine Stateful.ite_agrees _ pr _ _ _ _ (fun _ => ⟨rfl, rfl⟩) (fun _ => ?_)
  refine Stateful.ite_agrees _ pr _ _ _ _ (fun _ => ⟨rfl, rfl⟩) (fun _ => ?_)
  refine Stateful.ite_agrees _ pr _ _ _ _ (fun _ => ⟨rfl, rfl⟩) (fun _ => ?_)
  cases OpenFM.strchr str 13 '|' with
  | none => exact ⟨rfl, rfl⟩
  | some p =>
    simp only []
    cases OpenFM.strchr str (p + 1) '|' with
    | none => exact ⟨rfl, rfl⟩
    | some q =>
      simp only []
      refine Stateful.ite_agrees _ pr _ _ _ _ (fun _ => ⟨rfl, rfl⟩) (fun _ => ?_)
      refine Stateful.ite_agrees _ pr _ _ _ _ (fun _ => ⟨rfl, rfl⟩) (fun _ => ?_)
      refine Stateful.ite_agrees _ pr _ _ _ _ (fun _ => ⟨rfl, rfl⟩) (fun _ => ?_)
      refine Stateful.ite_agrees _ pr _ _ _ _ (fun _ => ⟨rfl, rfl⟩) (fun _ => ?_)
      refine Stateful.ite_agrees _ pr _ _ _ _ (fun _ => ⟨rfl, rfl⟩) (fun _ => ?_)
      refine Stateful.ite_agrees _ pr _ _ _ _ (fun _ => ⟨rfl, rfl⟩) (fun _ => ?_)
      refine Stateful.ite_agrees _ pr _ _ _ _ (fun _ => ⟨rfl, rfl⟩) (fun _ => ?_)
      refine Stateful.ite_agrees _ pr _ _ _ _ (fun _ => ?_)
        (fun _ => Stateful.check_future_eq pr _ _ _ lineno clock)
      refine Stateful.ite_agrees _ pr _ _ _ _ (fun _ => ⟨rfl, rfl⟩) (fun _ => ?_)
      exact Stateful.ite_agrees _ pr _ _ _ _ (fun _ => ⟨rfl, rfl⟩)
        (fun _ => Stateful.check_future_eq pr _ _ _ lineno clock)

/-! ## The amount that is read -/

theorem isdigit_bounds (c : Char) (h : isdigit c = true) : 48 ≤ c.toNat ∧ c.toNat ≤ 57 := by
  unfold isdigit at h
  simp only [Char.isDigit, Bool.and_eq_true, decide_eq_true_eq] at h
  have a : (48 : UInt32).toNat ≤ c.val.toNat := h.1
  have b : c.val.toNat ≤ (57 : UInt32).toNat := h.2
  exact ⟨a, b⟩

theorem isspace_of_isdigit (c : Char) (h : isdigit c = true) : isspace c = false := by
  have hb := isdigit_bounds c h
  unfold isspace
  have h1 : c ≠ ' ' := by
    intro e
    rw [e] at hb
    revert hb
    decide
  simp only [h1, decide_False, Bool.false_or, Bool.and_eq_false_imp, decide_eq_true_eq,
    decide_eq_false_iff_not]
  intro _
  omega

theorem not_sign_of_isdigit (c : Char) (h : isdigit c = true) : ¬ (c = '+' ∨ c = '-') := by
  have hb := isdigit_bounds c h
  rintro (e | e) <;> (rw [e] at hb; revert hb; decide)

theorem takeWhile_isdigit_append (digits rest : List Char)
    (hd : ∀ c ∈ digits, isdigit c = true)
    (hr : ∀ c rest2, rest = c :: rest2 → isdigit c = false) :
    (digits ++ rest).takeWhile isdigit = digits := by
  induction digits with
  | nil =>
    cases rest with
    | nil => rfl
    | cons c rest2 =>
      simp only [List.nil_append]
      rw [List.takeWhile_cons, hr c rest2 rfl]
      rfl
  | cons d ds ih =>
    simp only [List.cons_append]
    rw [List.takeWhile_cons, hd d (List.mem_cons_self _ _)]
    simp only [if_true]
    rw [ih (fun c hc => hd c (List.mem_cons_of_mem _ hc))]

/-- The directive `%*u` on decimal digits, as many as the width admits,
followed by something that is not a digit: the digits are matched. -/
theorem scan_unsigned_of_digits (width : Option Nat) (digits rest : List Char)
    (hne : digits ≠ []) (hd : ∀ c ∈ digits, isdigit c = true)
    (hr : ∀ c rest2, rest = c :: rest2 → isdigit c = false)
    (hw : ∀ w, width = some w → digits.length ≤ w) :
    scan_unsigned width (digits ++ rest) = some rest := by
  cases digits with
  | nil => exact absurd rfl hne
  | cons d ds =>
    have hdd : isdigit d = true := hd d (List.mem_cons_self _ _)
    have hsp : (d :: ds ++ rest).dropWhile isspace = d :: ds ++ rest := by
      simp only [List.cons_append]
      rw [List.dropWhile_cons, isspace_of_isdigit d hdd]
      rfl
    unfold scan_unsigned
    simp only [hsp]
    simp only [List.cons_append, if_neg (not_sign_of_isdigit d hdd)]
    have ht : (d :: (ds ++ rest)).takeWhile isdigit = d :: ds := by
      have := takeWhile_isdigit_append (d :: ds) rest hd hr
      simpa using this
    rw [ht]
    have hlen : ∀ n, (d :: ds).length ≤ n → List.take n (d :: ds) = d :: ds :=
      fun n hn => List.take_of_length_le hn
    cases width with
    | none =>
      simp only []
      rw [hlen _ (by simp)]
      simp
    | some w =>
      simp only []
      rw [hlen _ (hw w rfl)]
      simp

theorem scan_unsigned_bar (width : Option Nat) (rest : List Char) :
    scan_unsigned width ('|' :: rest) = none := by
  unfold scan_unsigned
  have hsp : ('|' :: rest).dropWhile isspace = '|' :: rest := by
    rw [List.dropWhile_cons]
    rfl
  simp only [hsp]
  have hs : ¬ (('|' : Char) = '+' ∨ ('|' : Char) = '-') := by decide
  simp only [if_neg hs]
  have ht : ('|' :: rest).takeWhile isdigit = [] := by
    rw [List.takeWhile_cons]
    rfl
  rw [ht]
  simp

theorem scan_unsigned_two (a b : Char) (rest : List Char) (ha : isdigit a = true)
    (hb : isdigit b = true) (hr : ∀ c rest2, rest = c :: rest2 → isdigit c = false) :
    scan_unsigned (some 2) (a :: b :: rest) = some rest :=
  scan_unsigned_of_digits (some 2) [a, b] rest (by simp)
    (by
      intro c hc
      simp only [List.mem_cons, List.mem_singleton, List.not_mem_nil, or_false] at hc
      rcases hc with e | e <;> (rw [e]; assumption))
    hr
    (by
      intro w hw
      cases hw
      exact le_refl _)

theorem scan_unsigned_four (a b c d : Char) (rest : List Char) (ha : isdigit a = true)
    (hb : isdigit b = true) (hc : isdigit c = true) (hd : isdigit d = true)
    (hr : ∀ c rest2, rest = c :: rest2 → isdigit c = false) :
    scan_unsigned (some 4) (a :: b :: c :: d :: rest) = some rest :=
  scan_unsigned_of_digits (some 4) [a, b, c, d] rest (by simp)
    (by
      intro x hx
      simp only [List.mem_cons, List.mem_singleton, List.not_mem_nil, or_false] at hx
      rcases hx with e | e | e | e <;> (rw [e]; assumption))
    hr
    (by
      intro w hw
      cases hw
      exact le_refl _)

theorem not_isdigit_head (x : Char) (r : List Char) (hx : isdigit x = false) :
    ∀ c rest2, x :: r = c :: rest2 → isdigit c = false := by
  intro c rest2 e
  cases e
  exact hx

/-- The characters after the sign of a line that passes steps 1, 3, 8 and
9. -/
theorem drop_one_eq (str : List Char) (h1 : 18 ≤ strlen str)
    (h3 : charAt str 1 = '|' ∧ charAt str 12 = '|')
    (h9 : charAt str 4 = '.' ∧ charAt str 7 = '.') :
    str = charAt str 0 :: '|' :: charAt str 2 :: charAt str 3 :: '.' :: charAt str 5 ::
      charAt str 6 :: '.' :: charAt str 8 :: charAt str 9 :: charAt str 10 ::
      charAt str 11 :: '|' :: str.drop 13 := by
  have ht : str.take 13 = (List.range 13).map (charAt str) :=
    take_eq_map_range str 13 (by unfold strlen at h1; omega)
  have hr : (List.range 13).map (charAt str) =
      [charAt str 0, charAt str 1, charAt str 2, charAt str 3, charAt str 4, charAt str 5,
        charAt str 6, charAt str 7, charAt str 8, charAt str 9, charAt str 10, charAt str 11,
        charAt str 12] := rfl
  rw [hr, h3.1, h3.2, h9.1, h9.2] at ht
  conv_lhs => rw [← List.take_append_drop 13 str, ht]
  rfl

/-- On a line that passes steps 1-6 the directives of the format between the
sign and `%f` match the date and the category when the category is not empty,
and `%f` reads what follows the category separator; with an empty category
`%*u` fails. -/
theorem scan_after_sign_eq (radix : Char) (str : List Char) (p : Nat)
    (h1 : 18 ≤ strlen str) (h3 : charAt str 1 = '|' ∧ charAt str 12 = '|')
    (h8 : isdigit (charAt str 2) = true ∧ isdigit (charAt str 3) = true ∧
      isdigit (charAt str 5) = true ∧ isdigit (charAt str 6) = true ∧
      isdigit (charAt str 8) = true ∧ isdigit (charAt str 9) = true ∧
      isdigit (charAt str 10) = true ∧ isdigit (charAt str 11) = true)
    (h9 : charAt str 4 = '.' ∧ charAt str 7 = '.')
    (hp : FirstBarFrom str 13 p)
    (h6 : ∀ i, 13 ≤ i → i < p → isdigit (charAt str i) = true) :
    scan_after_sign radix (str.drop 1) =
      if p = 13 then none else scan_float radix (str.drop (p + 1)) := by
  obtain ⟨d2, d3, d5, d6, d8, d9, d10, d11⟩ := h8
  have hs : str.drop 1 = '|' :: charAt str 2 :: charAt str 3 :: '.' :: charAt str 5 ::
      charAt str 6 :: '.' :: charAt str 8 :: charAt str 9 :: charAt str 10 ::
      charAt str 11 :: '|' :: str.drop 13 := by
    conv_lhs => rw [drop_one_eq str h1 h3 h9]
    rfl
  have hcat : str.drop 13 = field str 13 p ++ '|' :: str.drop (p + 1) := by
    rw [← drop_eq_bar_cons str 13 p hp]
    exact drop_eq_field_append str 13 p hp.1
  have hdot : isdigit '.' = false := by decide
  have hbar : isdigit '|' = false := by decide
  have e1 := scan_unsigned_two (charAt str 2) (charAt str 3)
    ('.' :: charAt str 5 :: charAt str 6 :: '.' :: charAt str 8 :: charAt str 9 ::
      charAt str 10 :: charAt str 11 :: '|' :: str.drop 13) d2 d3 (not_isdigit_head _ _ hdot)
  have e2 := scan_unsigned_two (charAt str 5) (charAt str 6)
    ('.' :: charAt str 8 :: charAt str 9 ::
      charAt str 10 :: charAt str 11 :: '|' :: str.drop 13) d5 d6 (not_isdigit_head _ _ hdot)
  have e3 := scan_unsigned_four (charAt str 8) (charAt str 9) (charAt str 10) (charAt str 11)
    ('|' :: str.drop 13) d8 d9 d10 d11 (not_isdigit_head _ _ hbar)
  rw [hs]
  unfold scan_after_sign
  simp only [scan_literal, if_true, Option.bind_eq_bind, Option.some_bind, e1, e2, e3]
  by_cases hp13 : p = 13
  · rw [if_pos hp13]
    have hf : field str 13 p = [] := by
      rw [hp13]
      simp [field]
    rw [hcat, hf, List.nil_append, scan_unsigned_bar]
    rfl
  · rw [if_neg hp13]
    have hlt : 13 < p := by
      have := hp.1
      omega
    have hne : field str 13 p ≠ [] := by
      intro e
      have hl : (field str 13 p).length = p - 13 := by
        have := hp.2.1
        unfold strlen at this
        simp only [field, List.length_take, List.length_drop]
        omega
      rw [e] at hl
      simp only [List.length_nil] at hl
      omega
    have hd : ∀ c ∈ field str 13 p, isdigit c = true := by
      intro c hc
      obtain ⟨i, hi1, hi2, e⟩ := mem_field str 13 p c hc
      rw [← e]
      exact h6 i hi1 hi2
    have e4 := scan_unsigned_of_digits none (field str 13 p) ('|' :: str.drop (p + 1)) hne hd
      (not_isdigit_head _ _ hbar) (by intro w hw; cases hw)
    rw [hcat, e4]
    simp only [Option.some_bind, scan_literal, if_true]

theorem isspace_of_AmountChar (c : Char) (h : AmountChar c) : isspace c = false := by
  rcases h with h | h | h
  · exact isspace_of_isdigit c h
  · rw [h]
    decide
  · rw [h]
    decide

theorem not_sign_of_AmountChar (c : Char) (h : AmountChar c) : ¬ (c = '+' ∨ c = '-') := by
  rcases h with h | h | h
  · exact not_sign_of_isdigit c h
  · rw [h]
    decide
  · rw [h]
    decide

theorem scan_float_int (radix : Char) (int_part rest : List Char) (hr : radix ≠ '|')
    (hne : int_part ≠ []) (hip : ∀ c ∈ int_part, isdigit c = true) :
    scan_float radix (int_part ++ '|' :: rest) = some (int_part, '|' :: rest) := by
  cases int_part with
  | nil => exact absurd rfl hne
  | cons d ds =>
    have hdd : isdigit d = true := hip d (List.mem_cons_self _ _)
    have hsp : (d :: ds ++ '|' :: rest).dropWhile isspace = d :: (ds ++ '|' :: rest) := by
      simp only [List.cons_append]
      rw [List.dropWhile_cons, isspace_of_isdigit d hdd]
      rfl
    have ht : (d :: (ds ++ '|' :: rest)).takeWhile isdigit = d :: ds := by
      have := takeWhile_isdigit_append (d :: ds) ('|' :: rest) hip
        (not_isdigit_head _ _ (by decide))
      simpa using this
    have hdrop : List.drop (d :: ds).length (d :: (ds ++ '|' :: rest)) = '|' :: rest := by
      simp
    unfold scan_float
    simp only [hsp, if_neg (not_sign_of_isdigit d hdd), ht, hdrop, if_neg (Ne.symm hr)]
    simp

theorem scan_float_frac (radix : Char) (int_part digits rest : List Char)
    (hnd : isdigit radix = false) (hsp : isspace radix = false)
    (hsg : ¬ (radix = '+' ∨ radix = '-'))
    (hip : ∀ c ∈ int_part, isdigit c = true) (hds : ∀ c ∈ digits, isdigit c = true)
    (hpos : 0 < int_part.length + digits.length) :
    scan_float radix (int_part ++ radix :: digits ++ '|' :: rest) =
      some (int_part ++ radix :: digits, '|' :: rest) := by
  have hin : int_part ++ radix :: digits ++ '|' :: rest =
      int_part ++ radix :: (digits ++ '|' :: rest) := by simp
  have ht : (int_part ++ radix :: (digits ++ '|' :: rest)).takeWhile isdigit = int_part :=
    takeWhile_isdigit_append int_part _ hip (not_isdigit_head _ _ hnd)
  have hdrop : List.drop int_part.length (int_part ++ radix :: (digits ++ '|' :: rest)) =
      radix :: (digits ++ '|' :: rest) := List.drop_left _ _
  have ht2 : (digits ++ '|' :: rest).takeWhile isdigit = digits :=
    takeWhile_isdigit_append digits _ hds (not_isdigit_head _ _ (by decide))
  have hdrop2 : List.drop (radix :: digits).length (radix :: (digits ++ '|' :: rest)) =
      '|' :: rest := by
    simp
  have hc : ¬ (int_part.length + ((radix :: digits).length - 1) = 0) := by
    simp only [List.length_cons]
    omega
  rw [hin]
  cases int_part with
  | nil =>
    have hdw : (radix :: (digits ++ '|' :: rest)).dropWhile isspace =
        radix :: (digits ++ '|' :: rest) := by
      rw [List.dropWhile_cons, hsp]
      rfl
    simp only [List.nil_append] at ht hdrop hc ⊢
    unfold scan_float
    simp only [hdw, if_neg hsg, ht, hdrop, if_true, ht2, hdrop2, if_neg hc]
    simp
  | cons d ds =>
    have hdd : isdigit d = true := hip d (List.mem_cons_self _ _)
    have hdw : (d :: (ds ++ radix :: (digits ++ '|' :: rest))).dropWhile isspace =
        d :: (ds ++ radix :: (digits ++ '|' :: rest)) := by
      rw [List.dropWhile_cons, isspace_of_isdigit d hdd]
      rfl
    simp only [List.cons_append] at ht hdrop ⊢
    unfold scan_float
    simp only [hdw, if_neg (not_sign_of_isdigit d hdd), ht, hdrop, if_true, ht2, hdrop2,
      if_neg hc]
    simp

/-- The directive `%f` reads a decimal number that stands before a `|`
whole. -/
theorem scan_float_of_decimal (radix : Char) (text rest : List Char) (hr : radix ≠ '|')
    (hd : Decimal radix text) (ha : ∀ c ∈ text, AmountChar c) :
    scan_float radix (text ++ '|' :: rest) = some (text, '|' :: rest) := by
  obtain ⟨int_part, frac, e, hip, hfrac, hpos⟩ := hd
  rcases hfrac with hf | ⟨digits, hf, hds⟩
  · subst hf
    simp only [List.append_nil] at e
    subst e
    refine scan_float_int radix text rest hr ?_ hip
    intro hn
    rw [hn] at hpos
    simp at hpos
  · subst hf
    subst e
    by_cases hnd : isdigit radix = true
    · refine scan_float_int radix _ rest hr (by simp) ?_
      intro c hc
      simp only [List.mem_append, List.mem_cons] at hc
      rcases hc with h | h | h
      · exact hip c h
      · rw [h]
        exact hnd
      · exact hds c h
    · have hrad : AmountChar radix := ha radix (by simp)
      have hpos2 : 0 < int_part.length + digits.length := by
        simp only [List.length_cons] at hpos
        omega
      exact scan_float_frac radix int_part digits rest (by simpa using hnd)
        (isspace_of_AmountChar radix hrad) (not_sign_of_AmountChar radix hrad) hip hds hpos2

/-- What `sscanf` assigns on a line that passes steps 1-9: the sign is
character 0; with an empty category nothing more is assigned; else `%f` reads
what follows the category separator. -/
theorem sscanf_record_of_passes {F : Type} (ops : FloatOps F) (str : List Char)
    (clock : Clock) (p q : Nat) (h : PassesAt 9 str clock p q) :
    sscanf_record ops str =
      if p = 13 then .sign_only (charAt str 0)
      else match scan_float ops.radix (str.drop (p + 1)) with
        | none => .sign_only (charAt str 0)
        | some (item, _) => .both (charAt str 0) (ops.strtof item) := by
  have h1 : 18 ≤ strlen str := h 1 (by omega) (by omega)
  have h3 : charAt str 1 = '|' ∧ charAt str 12 = '|' := h 3 (by omega) (by omega)
  have h4 : FirstBarFrom str 13 p := h 4 (by omega) (by omega)
  have h6 : ∀ i, 13 ≤ i → i < p → isdigit (charAt str i) = true := h 6 (by omega) (by omega)
  have h8 := h 8 (by omega) (by omega)
  have h9 : charAt str 4 = '.' ∧ charAt str 7 = '.' := h 9 (by omega) (by omega)
  have hscan := scan_after_sign_eq ops.radix str p h1 h3 h8 h9 h4 h6
  have e : str = charAt str 0 :: str.drop 1 := by
    conv_lhs => rw [drop_one_eq str h1 h3 h9]
    conv_rhs => rw [drop_one_eq str h1 h3 h9]
    rfl
  conv_lhs => rw [e]
  by_cases hp : p = 13
  · rw [if_pos hp] at hscan
    rw [if_pos hp]
    simp only [sscanf_record, hscan]
  · rw [if_neg hp] at hscan
    rw [if_neg hp]
    cases hsf : scan_float ops.radix (str.drop (p + 1)) with
    | none =>
      rw [hsf] at hscan
      simp only [sscanf_record, hscan]
    | some r =>
      obtain ⟨item, left⟩ := r
      rw [hsf] at hscan
      simp only [sscanf_record, hscan]

/-- A line that passes steps 1-5 is its first thirteen characters, the
category, `|`, the amount, `|` and the comment. -/
theorem str_eq_fields (str : List Char) (p q : Nat) (hp : FirstBarFrom str 13 p)
    (hq : FirstBarFrom str (p + 1) q) :
    str = str.take 13 ++ (field str 13 p ++ '|' :: (field str (p + 1) q ++
      '|' :: str.drop (q + 1))) := by
  rw [← drop_eq_bar_cons str (p + 1) q hq, ← drop_eq_field_append str (p + 1) q hq.1,
    ← drop_eq_bar_cons str 13 p hp, ← drop_eq_field_append str 13 p hp.1,
    List.take_append_drop]

theorem sscanf_record_of_decimal {F : Type} (ops : FloatOps F) (str : List Char)
    (clock : Clock) (p q : Nat) (h : PassesAt 9 str clock p q) (hcat : 13 < p)
    (hr : ops.radix ≠ '|') (hd : Decimal ops.radix (field str (p + 1) q)) :
    sscanf_record ops str = .both (charAt str 0) (ops.strtof (field str (p + 1) q)) := by
  have h5 : FirstBarFrom str (p + 1) q := h 5 (by omega) (by omega)
  have h7 : ∀ i, p + 1 ≤ i → i < q → AmountChar (charAt str i) := h 7 (by omega) (by omega)
  have ha : ∀ c ∈ field str (p + 1) q, AmountChar c := by
    intro c hc
    obtain ⟨i, hi1, hi2, e⟩ := mem_field str (p + 1) q c hc
    rw [← e]
    exact h7 i hi1 hi2
  have hdrop : str.drop (p + 1) = field str (p + 1) q ++ '|' :: str.drop (q + 1) := by
    rw [← drop_eq_bar_cons str (p + 1) q h5]
    exact drop_eq_field_append str (p + 1) q h5.1
  rw [sscanf_record_of_passes ops str clock p q h, if_neg (by omega), hdrop,
    scan_float_of_decimal ops.radix _ _ hr hd ha]

/-- The line printed again from what the code takes out of a line that passes
steps 1-9: the line itself, with the amount that `sscanf` assigned, printed,
in the place of the amount field. -/
theorem reserialize_of_both {F : Type} (ops : FloatOps F) (print : F → List Char)
    (str : List Char) (clock : Clock) (p q : Nat) (h : PassesAt 9 str clock p q)
    (sign : Char) (curr : F) (hs : sscanf_record ops str = .both sign curr) :
    reserialize ops print str =
      some (str.take 13 ++ (field str 13 p ++ '|' :: (print curr ++ '|' :: str.drop (q + 1)))) := by
  have h4 : StepAt 4 str clock p q := h 4 (by omega) (by omega)
  have h5 : StepAt 5 str clock p q := h 5 (by omega) (by omega)
  have c4 : strchr str 13 '|' = some p := (strchr_eq_some_iff str 13 p).mpr h4
  have c5 : strchr str (p + 1) '|' = some q := (strchr_eq_some_iff str (p + 1) q).mpr h5
  have hsign := sscanf_record_sign ops str sign curr hs
  have hdate := serialize_date_eq_take str (h 1 (by omega) (by omega))
    (h 3 (by omega) (by omega)) (h 8 (by omega) (by omega)) (h 9 (by omega) (by omega))
  unfold reserialize
  rw [hs]
  simp only [c4, c5, dayOf_eq, monthOf_eq, yearOf_eq, serialize]
  rw [hsign, hdate]

theorem normalize_append (a b : List Char) : normalize (a ++ b) = normalize a ++ normalize b := by
  unfold normalize
  exact List.map_append _ _ _

theorem normalize_cons (c : Char) (b : List Char) :
    normalize (c :: b) = (if c = ',' then '.' else c) :: normalize b := rfl

/-! ## The claims -/

/-- C1: with the current date known, `is_string_confirm_to_format` returns 1
exactly when the line is well formed (length at least 18, sign, separators at
1 and 12, a first `|` at some `p ≥ 13` and a first `|` at some `q > p`, digits
in `[13,p)`, digits, `.` or `,` in `(p,q)`, the date digits and dots, day in
1..31, month in 1..12, year above 0, no day above 29 in February of a leap
year, date not later than today); it returns 0 in every other case, and no
value other than 0 or 1. -/
theorem C1_returns_one_iff_well_formed (str : List Char) (lineno : Nat) (tm : Tm) :
    ((is_string_confirm_to_format str lineno (.now tm)).ret = 1 ↔ WellFormed str tm) ∧
    ((is_string_confirm_to_format str lineno (.now tm)).ret = 0 ↔ ¬ WellFormed str tm) ∧
    ((is_string_confirm_to_format str lineno (.now tm)).ret = 0 ∨
      (is_string_confirm_to_format str lineno (.now tm)).ret = 1) := by
  have one := (ret_eq_one_iff_Passes str lineno (.now tm)).trans
    (Passes_14_iff_WellFormed str tm)
  have zo := ret_eq_zero_or_one str lineno (.now tm)
  refine ⟨one, ?_, zo⟩
  constructor
  · intro h0 hw
    have h1 := one.mpr hw
    rw [h0] at h1
    exact absurd h1 (by decide)
  · intro hn
    rcases zo with h0 | h1
    · exact h0
    · exact absurd (one.mp h1) hn

/-- C2: fail-fast ordering.  Whenever the validator fails, the reason it
reports is that of the lowest-numbered step of the list 1..14 that the line
violates.  In particular a line that passes steps 1-6 and has both an illegal
amount character and a non-digit date character reports `InvalidAmount`, and a
line that passes steps 1-4 and has a non-digit category and no amount
separator reports `MissingAmountSeparator`. -/
theorem C2_fail_fast_ordering (str : List Char) (lineno : Nat) (clock : Clock) :
    ((is_string_confirm_to_format str lineno clock).ret = 0 →
      ∃ k, LowestViolated k str clock ∧
        FailsWith (is_string_confirm_to_format str lineno clock) (stepReason k)) ∧
    (∀ p q i, PassesAt 6 str clock p q → p < i → i < q → ¬ AmountChar (charAt str i) →
      ¬ StepAt 8 str clock p q →
      FailsWith (is_string_confirm_to_format str lineno clock) .InvalidAmount) ∧
    (∀ p q, PassesAt 4 str clock p q → ¬ StepAt 6 str clock p q →
      (∀ q2, ¬ FirstBarFrom str (p + 1) q2) →
      FailsWith (is_string_confirm_to_format str lineno clock) .MissingAmountSeparator) := by
  refine ⟨?_, ?_, ?_⟩
  · intro h0
    rcases classify_outcome str lineno clock with ⟨-, hret, -⟩ | hk
    · rw [h0] at hret
      exact absurd hret (by decide)
    · exact hk
  · intro p q i h6 hi hi2 hbad _
    exact (FailsWith_step_iff 7 str lineno clock p q (by omega) (by omega) (by omega)
      (by omega) h6).mpr (fun h7 => hbad (h7 i (by omega) hi2))
  · intro p q h4 _ hno
    refine (FailsWith_iff_LowestViolated 5 str lineno clock (by omega) (by omega)).mpr
      ⟨by omega, by omega, ⟨p, q, h4⟩, ?_⟩
    rintro ⟨p2, q2, h5⟩
    have a : FirstBarFrom str 13 p := h4 4 (by omega) (by omega)
    have a2 : FirstBarFrom str 13 p2 := h5 4 (by omega) (by omega)
    have b2 : FirstBarFrom str (p2 + 1) q2 := h5 5 (by omega) (by omega)
    rw [FirstBarFrom_unique str 13 p2 p a2 a] at b2
    exact hno q2 b2

/-- C2 at `+|0a.01.2020|1|10x|x` (illegal amount character and non-digit date
character) and at `+|01.01.2020|1x|100` (non-digit category, no amount
separator). -/
theorem C2_fail_fast_ordering_witness :
    (∃ k, LowestViolated k "+|0a.01.2020|1|10x|x".toList (.now ⟨125, 0, 1⟩) ∧
      FailsWith (is_string_confirm_to_format "+|0a.01.2020|1|10x|x".toList 3
        (.now ⟨125, 0, 1⟩)) (stepReason k)) ∧
    FailsWith (is_string_confirm_to_format "+|0a.01.2020|1|10x|x".toList 3
      (.now ⟨125, 0, 1⟩)) .InvalidAmount ∧
    FailsWith (is_string_confirm_to_format "+|01.01.2020|1x|100".toList 4
      (.now ⟨125, 0, 1⟩)) .MissingAmountSeparator :=
  ⟨(C2_fail_fast_ordering "+|0a.01.2020|1|10x|x".toList 3 (.now ⟨125, 0, 1⟩)).1 (by decide),
    (C2_fail_fast_ordering "+|0a.01.2020|1|10x|x".toList 3 (.now ⟨125, 0, 1⟩)).2.1
      14 18 17 (by decide) (by decide) (by decide) (by decide) (by decide),
    (C2_fail_fast_ordering "+|01.01.2020|1x|100".toList 4 (.now ⟨125, 0, 1⟩)).2.2
      15 0 (by decide) (by decide)
      (fun q2 h => (strchr_eq_none_iff "+|01.01.2020|1x|100".toList 16).mp (by decide)
        q2 h.1 h.2.1 h.2.2.1)⟩

/-- C3: every string of length below 18, the empty string included, fails
with `TooShort`; the outcome is one fixed value that depends on no character
of the string (nor on the clock), so any two such strings give the same
outcome. -/
theorem C3_too_short (str : List Char) (lineno : Nat) (clock : Clock)
    (h : strlen str < 18) :
    FailsWith (is_string_confirm_to_format str lineno clock) .TooShort ∧
    is_string_confirm_to_format str lineno clock = ⟨0, [Diag.println lineno .TooShort []]⟩ ∧
    ∀ str2 clock2, strlen str2 < 18 →
      is_string_confirm_to_format str2 lineno clock2 =
        is_string_confirm_to_format str lineno clock := by
  have key : ∀ s c, strlen s < 18 →
      is_string_confirm_to_format s lineno c = ⟨0, [Diag.println lineno .TooShort []]⟩ := by
    intro s c hs
    unfold is_string_confirm_to_format
    rw [if_pos hs]
    rfl
  refine ⟨?_, key str clock h, ?_⟩
  · rw [key str clock h]
    exact ⟨rfl, rfl⟩
  · intro str2 clock2 h2
    rw [key str clock h, key str2 clock2 h2]

/-- C3 at the empty string and at a string of 17 characters. -/
theorem C3_too_short_witness :
    FailsWith (is_string_confirm_to_format [] 1 .time_failed) .TooShort ∧
    FailsWith (is_string_confirm_to_format "+|01.01.2020|1|1|".toList 1 (.now ⟨125, 0, 1⟩))
      .TooShort :=
  ⟨(C3_too_short [] 1 .time_failed (by decide)).1,
    (C3_too_short "+|01.01.2020|1|1|".toList 1 (.now ⟨125, 0, 1⟩) (by decide)).1⟩

/-- C4: every line of length at least 18 whose character 0 is neither `+` nor
`-` fails with `InvalidSign`, whatever its other characters and the clock. -/
theorem C4_invalid_sign (str : List Char) (lineno : Nat) (clock : Clock)
    (hlen : 18 ≤ strlen str) (hplus : charAt str 0 ≠ '+') (hminus : charAt str 0 ≠ '-') :
    FailsWith (is_string_confirm_to_format str lineno clock) .InvalidSign := by
  have P1 : PassesAt 1 str clock 0 0 := by
    intro i h1 h2
    obtain rfl : i = 1 := by omega
    exact hlen
  exact (FailsWith_step_iff 2 str lineno clock 0 0 (by omega) (by omega) (by omega)
    (by omega) P1).mpr (fun hs => hs.elim hplus hminus)

/-- C4 at `*|01.01.2020|1|10|x`. -/
theorem C4_invalid_sign_witness :
    FailsWith (is_string_confirm_to_format "*|01.01.2020|1|10|x".toList 1 (.now ⟨125, 0, 1⟩))
      .InvalidSign :=
  C4_invalid_sign "*|01.01.2020|1|10|x".toList 1 (.now ⟨125, 0, 1⟩)
    (by decide) (by decide) (by decide)

/-- C5: every line that passes steps 1-6, with its separators at `p` and `q`,
and has a character strictly between `p` and `q` that is not a decimal digit,
`.` or `,` fails with `InvalidAmount`, whatever the date field and the clock. -/
theorem C5_invalid_amount (str : List Char) (lineno : Nat) (clock : Clock) (p q i : Nat)
    (h : PassesAt 6 str clock p q) (hi : p < i) (hi2 : i < q)
    (hbad : ¬ AmountChar (charAt str i)) :
    FailsWith (is_string_confirm_to_format str lineno clock) .InvalidAmount :=
  (FailsWith_step_iff 7 str lineno clock p q (by omega) (by omega) (by omega)
    (by omega) h).mpr (fun h7 => hbad (h7 i (by omega) hi2))

/-- C5 at `+|01.01.2020|1|10x|x`, separators at 14 and 18, the `x` at 17. -/
theorem C5_invalid_amount_witness :
    FailsWith (is_string_confirm_to_format "+|01.01.2020|1|10x|x".toList 1 (.now ⟨125, 0, 1⟩))
      .InvalidAmount :=
  C5_invalid_amount "+|01.01.2020|1|10x|x".toList 1 (.now ⟨125, 0, 1⟩) 14 18 17
    (by decide) (by decide) (by decide) (by decide)

/-- C6: a line that passes steps 1-9 fails with `DayOutOfRange` exactly when
its two-digit day is 0 or greater than 31: day 31 is not rejected for its day,
days 32 and 00 are rejected with `DayOutOfRange` whatever the month and the
year are. -/
theorem C6_day_out_of_range (str : List Char) (lineno : Nat) (clock : Clock)
    (h : Passes 9 str clock) :
    (FailsWith (is_string_confirm_to_format str lineno clock) .DayOutOfRange ↔
      (dayOf str = 0 ∨ 31 < dayOf str)) ∧
    (dayOf str = 31 →
      ¬ FailsWith (is_string_confirm_to_format str lineno clock) .DayOutOfRange) ∧
    (dayOf str = 32 ∨ dayOf str = 0 →
      FailsWith (is_string_confirm_to_format str lineno clock) .DayOutOfRange) := by
  obtain ⟨p, q, hpq⟩ := h
  have hb := date_bounds str clock p q (hpq 8 (by omega) (by omega))
  have key := FailsWith_step_iff 10 str lineno clock p q (by omega) (by omega) (by omega)
    (by omega) hpq
  have e : ¬ StepAt 10 str clock p q ↔ (dayOf str = 0 ∨ 31 < dayOf str) := by
    show ¬ (1 ≤ dayOf str ∧ dayOf str ≤ 31) ↔ _
    omega
  have main := key.trans e
  refine ⟨main, ?_, ?_⟩
  · intro h31 hf
    have := main.mp hf
    omega
  · intro h32
    exact main.mpr (by omega)

/-- C6 at day 32, at day 00 (with month 77 and year 0000) and at day 31 of
month 01 of 2024. -/
theorem C6_day_out_of_range_witness :
    FailsWith (is_string_confirm_to_format "+|32.01.2024|1|10|x".toList 1 (.now ⟨125, 0, 1⟩))
      .DayOutOfRange ∧
    FailsWith (is_string_confirm_to_format "+|00.77.0000|1|10|x".toList 1 .time_failed)
      .DayOutOfRange ∧
    ¬ FailsWith (is_string_confirm_to_format "+|31.01.2024|1|10|x".toList 1 (.now ⟨125, 0, 1⟩))
      .DayOutOfRange :=
  ⟨(C6_day_out_of_range "+|32.01.2024|1|10|x".toList 1 (.now ⟨125, 0, 1⟩)
      ⟨14, 17, by decide⟩).2.2 (by decide),
    (C6_day_out_of_range "+|00.77.0000|1|10|x".toList 1 .time_failed
      ⟨14, 17, by decide⟩).2.2 (by decide),
    (C6_day_out_of_range "+|31.01.2024|1|10|x".toList 1 (.now ⟨125, 0, 1⟩)
      ⟨14, 17, by decide⟩).2.1 (by decide)⟩

/-- C7: a line that passes steps 1-10 fails with `MonthOutOfRange` exactly
when its two-digit month (characters 5-6) is 0 or greater than 12, whatever
the year and the clock are. -/
theorem C7_month_out_of_range (str : List Char) (lineno : Nat) (clock : Clock)
    (h : Passes 10 str clock) :
    FailsWith (is_string_confirm_to_format str lineno clock) .MonthOutOfRange ↔
      (monthOf str = 0 ∨ 12 < monthOf str) := by
  obtain ⟨p, q, hpq⟩ := h
  have hb := date_bounds str clock p q (hpq 8 (by omega) (by omega))
  have key := FailsWith_step_iff 11 str lineno clock p q (by omega) (by omega) (by omega)
    (by omega) hpq
  have e : ¬ StepAt 11 str clock p q ↔ (monthOf str = 0 ∨ 12 < monthOf str) := by
    show ¬ (1 ≤ monthOf str ∧ monthOf str ≤ 12) ↔ _
    omega
  exact key.trans e

/-- C7 at `-|15.13.2020|2|50|rent`. -/
theorem C7_month_out_of_range_witness :
    FailsWith (is_string_confirm_to_format "-|15.13.2020|2|50|rent".toList 1
      (.now ⟨125, 0, 1⟩)) .MonthOutOfRange :=
  (C7_month_out_of_range "-|15.13.2020|2|50|rent".toList 1 (.now ⟨125, 0, 1⟩)
    ⟨14, 17, by decide⟩).mpr (by decide)

/-- C8: a line that passes steps 1-12 with month 02 and a leap year fails
with `LeapDayOutOfRange` exactly when its day is greater than 29; with day 29
or less it is accepted when the date is not in the future. -/
theorem C8_leap_february (str : List Char) (lineno : Nat) (clock : Clock)
    (h : Passes 12 str clock) (hm : monthOf str = 2) (hl : LeapYear (yearOf str)) :
    (FailsWith (is_string_confirm_to_format str lineno clock) .LeapDayOutOfRange ↔
      29 < dayOf str) ∧
    (dayOf str ≤ 29 → NotInFuture (yearOf str) (monthOf str) (dayOf str) clock →
      (is_string_confirm_to_format str lineno clock).ret = 1) := by
  obtain ⟨p, q, hpq⟩ := h
  have key := FailsWith_step_iff 13 str lineno clock p q (by omega) (by omega) (by omega)
    (by omega) hpq
  have e : StepAt 13 str clock p q ↔ ¬ 29 < dayOf str := by
    show ¬ (monthOf str = 2 ∧
        ((LeapYear (yearOf str) ∧ 29 < dayOf str) ∨
          ((monthOf str = 4 ∨ monthOf str = 6 ∨ monthOf str = 9 ∨ monthOf str = 11) ∧
            30 < dayOf str))) ↔ _
    constructor
    · intro hs hd
      exact hs ⟨hm, Or.inl ⟨hl, hd⟩⟩
    · rintro hd ⟨-, ⟨-, hc⟩ | ⟨hc, -⟩⟩
      · exact hd hc
      · omega
  refine ⟨key.trans (by rw [e, not_not]), ?_⟩
  intro hd hf
  exact accepted_of_Passes_13 str lineno clock
    ⟨p, q, PassesAt_succ 12 str clock p q hpq (e.mpr (by omega))⟩ hf

/-- C8 at 29.02.2024 (accepted on 2025-01-01), 30.02.2024 and 31.02.2000. -/
theorem C8_leap_february_witness :
    (is_string_confirm_to_format "+|29.02.2024|1|10|x".toList 1 (.now ⟨125, 0, 1⟩)).ret = 1 ∧
    FailsWith (is_string_confirm_to_format "+|30.02.2024|1|10|x".toList 1 (.now ⟨125, 0, 1⟩))
      .LeapDayOutOfRange ∧
    FailsWith (is_string_confirm_to_format "+|31.02.2000|1|10|x".toList 1 (.now ⟨125, 0, 1⟩))
      .LeapDayOutOfRange :=
  ⟨(C8_leap_february "+|29.02.2024|1|10|x".toList 1 (.now ⟨125, 0, 1⟩)
      ⟨14, 17, by decide⟩ (by decide) (by decide)).2 (by decide) (by decide),
    (C8_leap_february "+|30.02.2024|1|10|x".toList 1 (.now ⟨125, 0, 1⟩)
      ⟨14, 17, by decide⟩ (by decide) (by decide)).1.mpr (by decide),
    (C8_leap_february "+|31.02.2000|1|10|x".toList 1 (.now ⟨125, 0, 1⟩)
      ⟨14, 17, by decide⟩ (by decide) (by decide)).1.mpr (by decide)⟩

/-- C9, the claim as stated fails: the line `+|29.02.2023|1|10|x` passes
steps 1-12 and is dated day 29 of month 02 of the non-leap year 2023, and on
2025-01-01 the validator returns 1 for it and reports no
`LeapDayOutOfRange`. -/
theorem C9_counterexample :
    Passes 12 "+|29.02.2023|1|10|x".toList (.now ⟨125, 0, 1⟩) ∧
    dayOf "+|29.02.2023|1|10|x".toList = 29 ∧
    monthOf "+|29.02.2023|1|10|x".toList = 2 ∧
    ¬ LeapYear (yearOf "+|29.02.2023|1|10|x".toList) ∧
    ¬ FailsWith (is_string_confirm_to_format "+|29.02.2023|1|10|x".toList 1
      (.now ⟨125, 0, 1⟩)) .LeapDayOutOfRange ∧
    is_string_confirm_to_format "+|29.02.2023|1|10|x".toList 1 (.now ⟨125, 0, 1⟩) = ⟨1, []⟩ :=
  ⟨⟨14, 17, by decide⟩, by decide, by decide, by decide, by decide, by decide⟩

/-- C9 as amended: a line that passes steps 1-12 and is dated day 29 of month
02 in a non-leap year never fails with `LeapDayOutOfRange`: it is accepted
when its date is not in the future, and fails with `DateInFuture` when it
is. -/
theorem C9_february_29_non_leap (str : List Char) (lineno : Nat) (clock : Clock)
    (h : Passes 12 str clock) (_ : dayOf str = 29) (hm : monthOf str = 2)
    (hl : ¬ LeapYear (yearOf str)) :
    ¬ FailsWith (is_string_confirm_to_format str lineno clock) .LeapDayOutOfRange ∧
    (NotInFuture (yearOf str) (monthOf str) (dayOf str) clock →
      (is_string_confirm_to_format str lineno clock).ret = 1) ∧
    (¬ NotInFuture (yearOf str) (monthOf str) (dayOf str) clock →
      FailsWith (is_string_confirm_to_format str lineno clock) .DateInFuture) := by
  obtain ⟨p, q, hpq⟩ := h
  have key := FailsWith_step_iff 13 str lineno clock p q (by omega) (by omega) (by omega)
    (by omega) hpq
  have s13 : StepAt 13 str clock p q := by
    show ¬ (monthOf str = 2 ∧
        ((LeapYear (yearOf str) ∧ 29 < dayOf str) ∨
          ((monthOf str = 4 ∨ monthOf str = 6 ∨ monthOf str = 9 ∨ monthOf str = 11) ∧
            30 < dayOf str)))
    rintro ⟨-, ⟨hc, -⟩ | ⟨hc, -⟩⟩
    · exact hl hc
    · omega
  have P13 := PassesAt_succ 12 str clock p q hpq s13
  refine ⟨fun hf => key.mp hf s13, ?_, ?_⟩
  · intro hf
    exact accepted_of_Passes_13 str lineno clock ⟨p, q, P13⟩ hf
  · intro hf
    exact (FailsWith_step_iff 14 str lineno clock p q (by omega) (by omega) (by omega)
      (by omega) P13).mpr hf

/-- C9 as amended, at 29.02.1900 on 2025-01-01. -/
theorem C9_february_29_non_leap_witness :
    ¬ FailsWith (is_string_confirm_to_format "-|29.02.1900|7|3,50|tea".toList 1
      (.now ⟨125, 0, 1⟩)) .LeapDayOutOfRange ∧
    (is_string_confirm_to_format "-|29.02.1900|7|3,50|tea".toList 1
      (.now ⟨125, 0, 1⟩)).ret = 1 :=
  ⟨(C9_february_29_non_leap "-|29.02.1900|7|3,50|tea".toList 1 (.now ⟨125, 0, 1⟩)
      ⟨14, 19, by decide⟩ (by decide) (by decide) (by decide)).1,
    (C9_february_29_non_leap "-|29.02.1900|7|3,50|tea".toList 1 (.now ⟨125, 0, 1⟩)
      ⟨14, 19, by decide⟩ (by decide) (by decide) (by decide)).2.1 (by decide)⟩

/-- C10: for a year `y` in 1..9999 the macro `ISLEAP` is true exactly when `y`
is divisible by 4 and (not divisible by 100 or divisible by 400); it is true
for 2000 and 2024 and false for 1900 and 2023. -/
theorem C10_ISLEAP_exact (y : Int) (_ : 1 ≤ y) (_ : y ≤ 9999) :
    (ISLEAP y = true ↔ (4 ∣ y ∧ (¬ 100 ∣ y ∨ 400 ∣ y))) ∧
    ISLEAP 2000 = true ∧ ISLEAP 2024 = true ∧ ISLEAP 1900 = false ∧ ISLEAP 2023 = false :=
  ⟨ISLEAP_iff y, by decide, by decide, by decide, by decide⟩

/-- C10 at the year 1600. -/
theorem C10_ISLEAP_exact_witness :
    (ISLEAP 1600 = true ↔ ((4 : Int) ∣ 1600 ∧ (¬ (100 : Int) ∣ 1600 ∨ (400 : Int) ∣ 1600))) ∧
    ISLEAP 2000 = true ∧ ISLEAP 2024 = true ∧ ISLEAP 1900 = false ∧ ISLEAP 2023 = false :=
  C10_ISLEAP_exact 1600 (by decide) (by decide)

/-- C11: with the current date known, a line that passes steps 1-13 fails
with `DateInFuture` exactly when its (year, month, day) is strictly greater
than that of today in the lexicographic order; a line dated exactly today is
accepted. -/
theorem C11_date_in_future (str : List Char) (lineno : Nat) (tm : Tm)
    (h : Passes 13 str (.now tm)) :
    (FailsWith (is_string_confirm_to_format str lineno (.now tm)) .DateInFuture ↔
      today tm < dateKey (yearOf str) (monthOf str) (dayOf str)) ∧
    (dateKey (yearOf str) (monthOf str) (dayOf str) = today tm →
      (is_string_confirm_to_format str lineno (.now tm)).ret = 1) := by
  obtain ⟨p, q, hpq⟩ := h
  have key := FailsWith_step_iff 14 str lineno (.now tm) p q (by omega) (by omega)
    (by omega) (by omega) hpq
  have e : ¬ StepAt 14 str (.now tm) p q ↔
      today tm < dateKey (yearOf str) (monthOf str) (dayOf str) := by
    show ¬ (dateKey (yearOf str) (monthOf str) (dayOf str) ≤ today tm) ↔ _
    exact not_le
  refine ⟨key.trans e, ?_⟩
  intro heq
  exact accepted_of_Passes_13 str lineno (.now tm) ⟨p, q, hpq⟩ (le_of_eq heq)

/-- C11 at `+|01.01.2099|1|10|x` on 2025-01-01 (rejected) and at
`+|01.01.2025|1|10|x` on 2025-01-01 (dated today, accepted). -/
theorem C11_date_in_future_witness :
    FailsWith (is_string_confirm_to_format "+|01.01.2099|1|10|x".toList 1 (.now ⟨125, 0, 1⟩))
      .DateInFuture ∧
    (is_string_confirm_to_format "+|01.01.2025|1|10|x".toList 1 (.now ⟨125, 0, 1⟩)).ret = 1 :=
  ⟨(C11_date_in_future "+|01.01.2099|1|10|x".toList 1 ⟨125, 0, 1⟩
      ⟨14, 17, by decide⟩).1.mpr (by decide),
    (C11_date_in_future "+|01.01.2025|1|10|x".toList 1 ⟨125, 0, 1⟩
      ⟨14, 17, by decide⟩).2 (by decide)⟩

/-- C12: when `time()` or `localtime()` fails, the future-date check is
skipped: every line that passes steps 1-13 is accepted, and no line at all is
rejected with `DateInFuture`. -/
theorem C12_clock_unknown (str : List Char) (lineno : Nat) (clock : Clock)
    (hc : clock = .time_failed ∨ clock = .localtime_failed) :
    (Passes 13 str clock → (is_string_confirm_to_format str lineno clock).ret = 1) ∧
    ¬ FailsWith (is_string_confirm_to_format str lineno clock) .DateInFuture := by
  have nf : NotInFuture (yearOf str) (monthOf str) (dayOf str) clock := by
    rcases hc with rfl | rfl <;> exact trivial
  refine ⟨fun h => accepted_of_Passes_13 str lineno clock h nf, ?_⟩
  intro hf
  obtain ⟨-, -, ⟨p, q, h13⟩, hn⟩ :=
    (FailsWith_iff_LowestViolated 14 str lineno clock (by omega) (by omega)).mp hf
  exact hn ⟨p, q, PassesAt_succ 13 str clock p q h13 nf⟩

/-- C12 at a line dated 31.12.9999, with `time()` failing and with
`localtime()` failing. -/
theorem C12_clock_unknown_witness :
    (is_string_confirm_to_format "+|31.12.9999|1|10|x".toList 1 .time_failed).ret = 1 ∧
    (is_string_confirm_to_format "+|31.12.9999|1|10|x".toList 1 .localtime_failed).ret = 1 :=
  ⟨(C12_clock_unknown "+|31.12.9999|1|10|x".toList 1 .time_failed (Or.inl rfl)).1
      ⟨14, 17, by decide⟩,
    (C12_clock_unknown "+|31.12.9999|1|10|x".toList 1 .localtime_failed (Or.inr rfl)).1
      ⟨14, 17, by decide⟩⟩

/-- C13: for every line the validator accepts, character 0 is `+` or `-`, the
characters 2-3, 5-6 and 8-11 are decimal digits, and the day, month and year
they spell (the values the code computes) satisfy 1 ≤ day ≤ 31,
1 ≤ month ≤ 12 and 1 ≤ year ≤ 9999. -/
theorem C13_accepted_fields (str : List Char) (lineno : Nat) (clock : Clock)
    (h : (is_string_confirm_to_format str lineno clock).ret = 1) :
    (charAt str 0 = '+' ∨ charAt str 0 = '-') ∧
    (isdigit (charAt str 2) = true ∧ isdigit (charAt str 3) = true ∧
      isdigit (charAt str 5) = true ∧ isdigit (charAt str 6) = true ∧
      isdigit (charAt str 8) = true ∧ isdigit (charAt str 9) = true ∧
      isdigit (charAt str 10) = true ∧ isdigit (charAt str 11) = true) ∧
    (digit str 2 * 10 + digit str 3 = dayOf str ∧ 1 ≤ dayOf str ∧ dayOf str ≤ 31) ∧
    (digit str 5 * 10 + digit str 6 = monthOf str ∧ 1 ≤ monthOf str ∧ monthOf str ≤ 12) ∧
    (digit str 8 * 1000 + digit str 9 * 100 + digit str 10 * 10 + digit str 11 = yearOf str ∧
      1 ≤ yearOf str ∧ yearOf str ≤ 9999) := by
  obtain ⟨p, q, hpq⟩ := (ret_eq_one_iff_Passes str lineno clock).mp h
  have s8 : StepAt 8 str clock p q := hpq 8 (by omega) (by omega)
  have hb := date_bounds str clock p q s8
  have s10 : 1 ≤ dayOf str ∧ dayOf str ≤ 31 := hpq 10 (by omega) (by omega)
  have s11 : 1 ≤ monthOf str ∧ monthOf str ≤ 12 := hpq 11 (by omega) (by omega)
  have s12 : 0 < yearOf str := hpq 12 (by omega) (by omega)
  exact ⟨hpq 2 (by omega) (by omega), s8, ⟨dayOf_eq str, s10⟩, ⟨monthOf_eq str, s11⟩,
    ⟨yearOf_eq str, by omega, hb.2.2.2⟩⟩

/-- C13 at `+|01.01.2020|5|100.50|salary` on 2025-01-01: accepted, with sign
`+`, day 1, month 1 and year 2020. -/
theorem C13_accepted_fields_witness :
    ((charAt "+|01.01.2020|5|100.50|salary".toList 0 = '+' ∨
        charAt "+|01.01.2020|5|100.50|salary".toList 0 = '-') ∧
      (1 ≤ dayOf "+|01.01.2020|5|100.50|salary".toList ∧
        dayOf "+|01.01.2020|5|100.50|salary".toList ≤ 31) ∧
      (1 ≤ monthOf "+|01.01.2020|5|100.50|salary".toList ∧
        monthOf "+|01.01.2020|5|100.50|salary".toList ≤ 12) ∧
      (1 ≤ yearOf "+|01.01.2020|5|100.50|salary".toList ∧
        yearOf "+|01.01.2020|5|100.50|salary".toList ≤ 9999)) ∧
    charAt "+|01.01.2020|5|100.50|salary".toList 0 = '+' ∧
    dayOf "+|01.01.2020|5|100.50|salary".toList = 1 ∧
    monthOf "+|01.01.2020|5|100.50|salary".toList = 1 ∧
    yearOf "+|01.01.2020|5|100.50|salary".toList = 2020 :=
  have w := C13_accepted_fields "+|01.01.2020|5|100.50|salary".toList 1 (.now ⟨125, 0, 1⟩)
    (by decide)
  ⟨⟨w.1, w.2.2.1.2, w.2.2.2.1.2, w.2.2.2.2.2⟩, by decide, by decide, by decide, by decide⟩

/-- C15: the result of the validator depends only on the characters of the
line and on the clock.  Two calls on the same line with the same clock and
any two line numbers return the same value and report the same reason; and a
call in a process, whatever the process held at first (the static `struct tm`
of `localtime` included) and whatever lines were validated in it before,
returns the value and adds to the standard error stream the lines that the
line, the line number and the clock alone determine.  A call does change the
static `struct tm`: with the clock at 2025-01-01 it leaves the year 2025
there, and a second call, which finds that year there, gives the same
result. -/
theorem C15_depends_on_line_and_clock_only (str : List Char) (n1 n2 : Nat) (clock : Clock) :
    (is_string_confirm_to_format str n1 clock).ret =
      (is_string_confirm_to_format str n2 clock).ret ∧
    (is_string_confirm_to_format str n1 clock).reason =
      (is_string_confirm_to_format str n2 clock).reason ∧
    (∀ (pr : Process) (before : List (List Char × Nat × Clock)),
      (Stateful.is_string_confirm_to_format (Stateful.run_calls pr before) str n1 clock).1 =
        (is_string_confirm_to_format str n1 clock).ret ∧
      (Stateful.is_string_confirm_to_format (Stateful.run_calls pr before) str n1
          clock).2.stderr =
        (Stateful.run_calls pr before).stderr ++
          (is_string_confirm_to_format str n1 clock).err) ∧
    Stateful.is_string_confirm_to_format ⟨[], ⟨0, 0, 0⟩⟩ "+|01.01.2020|5|100.50|salary".toList 1
        (.now ⟨125, 0, 1⟩) = (1, ⟨[], ⟨2025, 0, 1⟩⟩) ∧
    Stateful.is_string_confirm_to_format ⟨[], ⟨2025, 0, 1⟩⟩
        "+|01.01.2020|5|100.50|salary".toList 2 (.now ⟨125, 0, 1⟩) =
      (1, ⟨[], ⟨2025, 0, 1⟩⟩) :=
  ⟨(ret_and_reason_same_lineno str n1 n2 clock).1,
    (ret_and_reason_same_lineno str n1 n2 clock).2,
    fun pr before => Stateful.call_eq (Stateful.run_calls pr before) str n1 clock,
    by decide, by decide⟩

/-- C16: the later variant is stricter than the earlier one.  Whenever the
later validator accepts a line (returns 1), the earlier validator accepts it
too (returns 0), for every clock and whatever the line numbers are; the
converse fails at `+|01.01.2020|100|x`, which the earlier validator accepts
and the later one rejects for its missing separator after the fourth
field. -/
theorem C16_later_stricter_than_earlier (str : List Char) (lineno lineno2 : Nat)
    (clock : Clock) (h : (is_string_confirm_to_format str lineno clock).ret = 1) :
    (Earlier.is_string_confirm_to_format str lineno2 clock).ret = 0 ∧
    ((Earlier.is_string_confirm_to_format "+|01.01.2020|100|x".toList 1
        (.now ⟨125, 0, 1⟩)).ret = 0 ∧
      (is_string_confirm_to_format "+|01.01.2020|100|x".toList 1 (.now ⟨125, 0, 1⟩)).ret ≠ 1 ∧
      FailsWith (is_string_confirm_to_format "+|01.01.2020|100|x".toList 1 (.now ⟨125, 0, 1⟩))
        .MissingAmountSeparator) :=
  ⟨Earlier.accepts_of_Passes_14 str lineno2 clock
      ((ret_eq_one_iff_Passes str lineno clock).mp h),
    by decide, by decide, by decide⟩

/-- C16 at `+|01.01.2020|5|100.50|salary` on 2025-01-01, accepted by both
variants. -/
theorem C16_later_stricter_than_earlier_witness :
    (Earlier.is_string_confirm_to_format "+|01.01.2020|5|100.50|salary".toList 2
      (.now ⟨125, 0, 1⟩)).ret = 0 :=
  (C16_later_stricter_than_earlier "+|01.01.2020|5|100.50|salary".toList 1 2
    (.now ⟨125, 0, 1⟩) (by decide)).1

/-- C17: with the current date known, the earlier variant returns the
documented code of its first failing test, the tests taken in the order
1 (length below 15), 2 (sign), 3 (separators at 1 and 12), 4 (date digits),
5 (dots at 4 and 7), 6 (day 0 or above 31), 7 (month 0 or above 12),
8 (year 0), 9 (month 2, leap year, day above 29), 11 (date later than today);
it returns 0 exactly when none of these tests fails. -/
theorem C17_earlier_documented_codes (str : List Char) (lineno : Nat) (tm : Tm) :
    (Earlier.is_string_confirm_to_format str lineno (.now tm)).ret =
      Earlier.documented_retval str (.now tm) ∧
    ((Earlier.is_string_confirm_to_format str lineno (.now tm)).ret = 0 ↔
      Earlier.NoTestFails str tm) := by
  refine ⟨Earlier.ret_eq_documented_retval str lineno (.now tm), ?_⟩
  rw [Earlier.ret_eq_documented_retval]
  exact Earlier.documented_retval_eq_zero_iff str tm

/-- C18, what the code does: `+|31.04.2020|10|x` passes tests 1-9 of the
earlier variant (its documented value on 2025-01-01 is that of no failing
test) and is dated day 31 of month 04, and the earlier variant returns 0 for
it, not the documented 10. -/
theorem C18_earlier_returns_0_on_31_04 :
    dayOf "+|31.04.2020|10|x".toList = 31 ∧ monthOf "+|31.04.2020|10|x".toList = 4 ∧
    Earlier.NoTestFails "+|31.04.2020|10|x".toList ⟨125, 0, 1⟩ ∧
    Earlier.is_string_confirm_to_format "+|31.04.2020|10|x".toList 1 (.now ⟨125, 0, 1⟩) =
      ⟨0, []⟩ ∧
    (Earlier.is_string_confirm_to_format "+|31.04.2020|10|x".toList 1
      (.now ⟨125, 0, 1⟩)).ret ≠ 10 :=
  ⟨by decide, by decide,
    (Earlier.documented_retval_eq_zero_iff "+|31.04.2020|10|x".toList ⟨125, 0, 1⟩).mp
      (by decide),
    by decide, by decide⟩

/-- C19, the claim as stated fails: on 2025-01-01 the validator accepts
`+|01.01.2020||10|xx`, in which the next `|` from offset 13 is at offset 13
itself, so that the category field is empty: no `|` found from offset 13 has
one or more digits before it. -/
theorem C19_counterexample :
    (is_string_confirm_to_format "+|01.01.2020||10|xx".toList 1 (.now ⟨125, 0, 1⟩)).ret = 1 ∧
    FirstBarFrom "+|01.01.2020||10|xx".toList 13 13 ∧
    ¬ ∃ p, FirstBarFrom "+|01.01.2020||10|xx".toList 13 p ∧ 13 < p ∧
      ∀ i, 13 ≤ i → i < p → isdigit (charAt "+|01.01.2020||10|xx".toList i) = true := by
  refine ⟨by decide, by decide, ?_⟩
  rintro ⟨p, hp, hlt, -⟩
  have e := FirstBarFrom_unique "+|01.01.2020||10|xx".toList 13 p 13 hp (by decide)
  omega

/-- C19 as amended: for every line the validator accepts, there is a next `|`
from offset 13, at some `p`, and every character from offset 13 up to `p` is a
decimal digit (there may be none). -/
theorem C19_category_field (str : List Char) (lineno : Nat) (clock : Clock)
    (h : (is_string_confirm_to_format str lineno clock).ret = 1) :
    ∃ p, FirstBarFrom str 13 p ∧
      ∀ i, 13 ≤ i → i < p → isdigit (charAt str i) = true := by
  obtain ⟨p, q, hpq⟩ := (ret_eq_one_iff_Passes str lineno clock).mp h
  exact ⟨p, hpq 4 (by omega) (by omega), hpq 6 (by omega) (by omega)⟩

/-- C19 as amended, at `+|01.01.2020|5|100.50|salary` on 2025-01-01. -/
theorem C19_category_field_witness :
    ∃ p, FirstBarFrom "+|01.01.2020|5|100.50|salary".toList 13 p ∧
      ∀ i, 13 ≤ i → i < p →
        isdigit (charAt "+|01.01.2020|5|100.50|salary".toList i) = true :=
  C19_category_field "+|01.01.2020|5|100.50|salary".toList 1 (.now ⟨125, 0, 1⟩) (by decide)

/-- C20, the claim as stated fails: on 2025-01-01 the validator accepts
`+|01.01.2020|1||xxx`, in which the category separator is at offset 14 and the
next `|` at offset 15, so that the amount field is empty. -/
theorem C20_counterexample :
    (is_string_confirm_to_format "+|01.01.2020|1||xxx".toList 1 (.now ⟨125, 0, 1⟩)).ret = 1 ∧
    FirstBarFrom "+|01.01.2020|1||xxx".toList 13 14 ∧
    FirstBarFrom "+|01.01.2020|1||xxx".toList 15 15 ∧
    ¬ ∃ p q, FirstBarFrom "+|01.01.2020|1||xxx".toList 13 p ∧
      FirstBarFrom "+|01.01.2020|1||xxx".toList (p + 1) q ∧ p + 1 < q ∧
      ∀ i, p < i → i < q → AmountChar (charAt "+|01.01.2020|1||xxx".toList i) := by
  refine ⟨by decide, by decide, by decide, ?_⟩
  rintro ⟨p, q, hp, hq, hlt, -⟩
  have e := FirstBarFrom_unique "+|01.01.2020|1||xxx".toList 13 p 14 hp (by decide)
  subst e
  have e2 := FirstBarFrom_unique "+|01.01.2020|1||xxx".toList 15 q 15 hq (by decide)
  omega

/-- C20 as amended: for every line the validator accepts, there are a
category separator at some `p` and a next `|` after it at some `q`, and every
character strictly between `p` and `q` is a decimal digit, `.` or `,` (there
may be none). -/
theorem C20_amount_field (str : List Char) (lineno : Nat) (clock : Clock)
    (h : (is_string_confirm_to_format str lineno clock).ret = 1) :
    ∃ p q, FirstBarFrom str 13 p ∧ FirstBarFrom str (p + 1) q ∧
      ∀ i, p < i → i < q → AmountChar (charAt str i) := by
  obtain ⟨p, q, hpq⟩ := (ret_eq_one_iff_Passes str lineno clock).mp h
  have s7 : ∀ i, p + 1 ≤ i → i < q → AmountChar (charAt str i) := hpq 7 (by omega) (by omega)
  exact ⟨p, q, hpq 4 (by omega) (by omega), hpq 5 (by omega) (by omega),
    fun i hi hi2 => s7 i hi hi2⟩

/-- C20 as amended, at `+|01.01.2020|5|100.50|salary` on 2025-01-01. -/
theorem C20_amount_field_witness :
    ∃ p q, FirstBarFrom "+|01.01.2020|5|100.50|salary".toList 13 p ∧
      FirstBarFrom "+|01.01.2020|5|100.50|salary".toList (p + 1) q ∧
      ∀ i, p < i → i < q → AmountChar (charAt "+|01.01.2020|5|100.50|salary".toList i) :=
  C20_amount_field "+|01.01.2020|5|100.50|salary".toList 1 (.now ⟨125, 0, 1⟩) (by decide)

/-- C22: for every line and every clock (date known or not) the later variant
never reports `DayOutOfRangeForMonth`, and the earlier variant never returns
10 nor reports it: the test on the months 4, 6, 9 and 11 sits inside the
`month == 2` branch and cannot be reached. -/
theorem C22_never_day_out_of_range_for_month (str : List Char) (lineno : Nat)
    (clock : Clock) :
    (is_string_confirm_to_format str lineno clock).reason ≠ some .DayOutOfRangeForMonth ∧
    ¬ FailsWith (is_string_confirm_to_format str lineno clock) .DayOutOfRangeForMonth ∧
    (Earlier.is_string_confirm_to_format str lineno clock).ret ≠ 10 ∧
    (Earlier.is_string_confirm_to_format str lineno clock).reason ≠
      some .DayOutOfRangeForMonth := by
  refine ⟨reason_ne_DayOutOfRangeForMonth str lineno clock,
    fun hf => reason_ne_DayOutOfRangeForMonth str lineno clock hf.2, ?_,
    Earlier.earlier_reason_ne_DayOutOfRangeForMonth str lineno clock⟩
  rw [Earlier.ret_eq_documented_retval]
  exact Earlier.documented_retval_ne_ten str clock

/-- C26: for a line that passes steps 1-12 with month 02 and a non-leap year
the day-of-month check rejects nothing, whatever the day: the line fails
neither with `LeapDayOutOfRange` nor with `DayOutOfRangeForMonth`, and when
its date is not later than today both variants accept it. -/
theorem C26_february_of_non_leap_year (str : List Char) (lineno : Nat) (clock : Clock)
    (h : Passes 12 str clock) (hm : monthOf str = 2) (hl : ¬ LeapYear (yearOf str)) :
    ¬ FailsWith (is_string_confirm_to_format str lineno clock) .LeapDayOutOfRange ∧
    ¬ FailsWith (is_string_confirm_to_format str lineno clock) .DayOutOfRangeForMonth ∧
    (NotInFuture (yearOf str) (monthOf str) (dayOf str) clock →
      (is_string_confirm_to_format str lineno clock).ret = 1 ∧
      (Earlier.is_string_confirm_to_format str lineno clock).ret = 0) := by
  obtain ⟨p, q, hpq⟩ := h
  have key := FailsWith_step_iff 13 str lineno clock p q (by omega) (by omega) (by omega)
    (by omega) hpq
  have s13 : StepAt 13 str clock p q := by
    show ¬ (monthOf str = 2 ∧
        ((LeapYear (yearOf str) ∧ 29 < dayOf str) ∨
          ((monthOf str = 4 ∨ monthOf str = 6 ∨ monthOf str = 9 ∨ monthOf str = 11) ∧
            30 < dayOf str)))
    rintro ⟨-, ⟨hc, -⟩ | ⟨hc, -⟩⟩
    · exact hl hc
    · omega
  have P13 := PassesAt_succ 12 str clock p q hpq s13
  refine ⟨fun hf => key.mp hf s13,
    fun hf => reason_ne_DayOutOfRangeForMonth str lineno clock hf.2, ?_⟩
  intro hf
  exact ⟨accepted_of_Passes_13 str lineno clock ⟨p, q, P13⟩ hf,
    Earlier.accepts_of_Passes_14 str lineno clock
      ⟨p, q, PassesAt_succ 13 str clock p q P13 hf⟩⟩

/-- C26 at 30.02.2023 and at 31.02.1900 on 2025-01-01. -/
theorem C26_february_of_non_leap_year_witness :
    ((is_string_confirm_to_format "+|30.02.2023|1|10|x".toList 1 (.now ⟨125, 0, 1⟩)).ret = 1 ∧
      (Earlier.is_string_confirm_to_format "+|30.02.2023|1|10|x".toList 1
        (.now ⟨125, 0, 1⟩)).ret = 0) ∧
    ((is_string_confirm_to_format "-|31.02.1900|1|10|x".toList 1 (.now ⟨125, 0, 1⟩)).ret = 1 ∧
      (Earlier.is_string_confirm_to_format "-|31.02.1900|1|10|x".toList 1
        (.now ⟨125, 0, 1⟩)).ret = 0) :=
  ⟨(C26_february_of_non_leap_year "+|30.02.2023|1|10|x".toList 1 (.now ⟨125, 0, 1⟩)
      ⟨14, 17, by decide⟩ (by decide) (by decide)).2.2 (by decide),
    (C26_february_of_non_leap_year "-|31.02.1900|1|10|x".toList 1 (.now ⟨125, 0, 1⟩)
      ⟨14, 17, by decide⟩ (by decide) (by decide)).2.2 (by decide)⟩

/-- C28: monotonicity in the current date.  If the validator accepts a line
on the day `tm1`, it accepts it on every day `tm2` that is not earlier in the
lexicographic order on (year, month, day), and it accepts it when the current
date is not known, whatever the line numbers of the calls are. -/
theorem C28_monotone_in_today (str : List Char) (n1 n2 n3 n4 : Nat) (tm1 tm2 : Tm)
    (h12 : today tm1 ≤ today tm2)
    (h : (is_string_confirm_to_format str n1 (.now tm1)).ret = 1) :
    (is_string_confirm_to_format str n2 (.now tm2)).ret = 1 ∧
    (is_string_confirm_to_format str n3 .time_failed).ret = 1 ∧
    (is_string_confirm_to_format str n4 .localtime_failed).ret = 1 := by
  obtain ⟨p, q, hpq⟩ := (ret_eq_one_iff_Passes str n1 (.now tm1)).mp h
  have P13 := PassesAt_mono 13 14 str (.now tm1) p q (by omega) hpq
  have s14 : dateKey (yearOf str) (monthOf str) (dayOf str) ≤ today tm1 :=
    hpq 14 (by omega) (by omega)
  exact ⟨accepted_of_Passes_13 str n2 (.now tm2)
      ⟨p, q, PassesAt_13_clock_free str (.now tm1) (.now tm2) p q P13⟩ (le_trans s14 h12),
    accepted_of_Passes_13 str n3 .time_failed
      ⟨p, q, PassesAt_13_clock_free str (.now tm1) .time_failed p q P13⟩ trivial,
    accepted_of_Passes_13 str n4 .localtime_failed
      ⟨p, q, PassesAt_13_clock_free str (.now tm1) .localtime_failed p q P13⟩ trivial⟩

/-- C28 at `+|01.01.2020|5|100.50|salary`, accepted on 2025-01-01, hence on
2025-01-02 and without a clock. -/
theorem C28_monotone_in_today_witness :
    (is_string_confirm_to_format "+|01.01.2020|5|100.50|salary".toList 2
      (.now ⟨125, 0, 2⟩)).ret = 1 ∧
    (is_string_confirm_to_format "+|01.01.2020|5|100.50|salary".toList 3 .time_failed).ret = 1 ∧
    (is_string_confirm_to_format "+|01.01.2020|5|100.50|salary".toList 4
      .localtime_failed).ret = 1 :=
  C28_monotone_in_today "+|01.01.2020|5|100.50|salary".toList 1 2 3 4 ⟨125, 0, 1⟩ ⟨125, 0, 2⟩
    (by decide) (by decide)

/-- C27: the result of the validator does not depend on the comment.  Two
lines of length at least 18 that agree on every character up to and including
the amount separator (the second `|` found from offset 13, at `q`) get the
same return value and the same reason, for every clock and whatever the line
numbers are; what follows the amount separator may be any characters. -/
theorem C27_comment_is_free (str1 str2 : List Char) (n1 n2 : Nat) (clock : Clock)
    (p q : Nat) (h1 : 18 ≤ strlen str1) (h2 : 18 ≤ strlen str2)
    (hp : FirstBarFrom str1 13 p) (hq : FirstBarFrom str1 (p + 1) q)
    (hagree : ∀ i, i ≤ q → charAt str1 i = charAt str2 i) :
    (is_string_confirm_to_format str1 n1 clock).ret =
      (is_string_confirm_to_format str2 n2 clock).ret ∧
    (is_string_confirm_to_format str1 n1 clock).reason =
      (is_string_confirm_to_format str2 n2 clock).reason :=
  outcome_of_same_Passes str1 str2 n1 n2 clock clock
    (fun k => Passes_iff_of_agree k str1 str2 clock p q h1 h2 hp hq hagree)

/-- C27 at two accepted lines and at two lines dated in the future that
differ in their comments only, one comment holding further `|`. -/
theorem C27_comment_is_free_witness :
    ((is_string_confirm_to_format "+|01.01.2020|5|100.50|salary".toList 1
        (.now ⟨125, 0, 1⟩)).ret =
      (is_string_confirm_to_format "+|01.01.2020|5|100.50|a|b||c".toList 2
        (.now ⟨125, 0, 1⟩)).ret ∧
     (is_string_confirm_to_format "+|01.01.2020|5|100.50|salary".toList 1
        (.now ⟨125, 0, 1⟩)).reason =
      (is_string_confirm_to_format "+|01.01.2020|5|100.50|a|b||c".toList 2
        (.now ⟨125, 0, 1⟩)).reason) ∧
    ((is_string_confirm_to_format "+|01.01.2099|1|10|x".toList 1 (.now ⟨125, 0, 1⟩)).ret =
      (is_string_confirm_to_format "+|01.01.2099|1|10||".toList 2 (.now ⟨125, 0, 1⟩)).ret ∧
     (is_string_confirm_to_format "+|01.01.2099|1|10|x".toList 1 (.now ⟨125, 0, 1⟩)).reason =
      (is_string_confirm_to_format "+|01.01.2099|1|10||".toList 2
        (.now ⟨125, 0, 1⟩)).reason) :=
  ⟨C27_comment_is_free "+|01.01.2020|5|100.50|salary".toList
      "+|01.01.2020|5|100.50|a|b||c".toList 1 2 (.now ⟨125, 0, 1⟩) 14 21
      (by decide) (by decide) (by decide) (by decide) (by decide),
    C27_comment_is_free "+|01.01.2099|1|10|x".toList "+|01.01.2099|1|10||".toList 1 2
      (.now ⟨125, 0, 1⟩) 14 17 (by decide) (by decide) (by decide) (by decide) (by decide)⟩

/-- C21, the claim as stated fails: on 2025-01-01 the validator accepts
`+|01.01.2020|1|10|a|b`, which holds five `|`, not four: the comment is not
examined. -/
theorem C21_counterexample :
    (is_string_confirm_to_format "+|01.01.2020|1|10|a|b".toList 1 (.now ⟨125, 0, 1⟩)).ret = 1 ∧
    "+|01.01.2020|1|10|a|b".toList.count '|' = 5 ∧
    "+|01.01.2020|1|10|a|b".toList.count '|' ≠ 4 :=
  ⟨by decide, by decide, by decide⟩

/-- C21 as amended: every line the validator accepts holds exactly four `|`
up to and including the amount separator, at offsets 1 and 12, at the category
separator `p` and at the amount separator `q`; so it holds at least four `|`
(the comment may hold more). -/
theorem C21_four_separators (str : List Char) (lineno : Nat) (clock : Clock)
    (h : (is_string_confirm_to_format str lineno clock).ret = 1) :
    ∃ p q, FirstBarFrom str 13 p ∧ FirstBarFrom str (p + 1) q ∧
      (∀ i, i ≤ q → (charAt str i = '|' ↔ i = 1 ∨ i = 12 ∨ i = p ∨ i = q)) ∧
      (str.take (q + 1)).count '|' = 4 ∧ 4 ≤ str.count '|' := by
  obtain ⟨p, q, hpq⟩ := (ret_eq_one_iff_Passes str lineno clock).mp h
  have h9 := PassesAt_mono 9 14 str clock p q (by omega) hpq
  have s3 : charAt str 1 = '|' ∧ charAt str 12 = '|' := hpq 3 (by omega) (by omega)
  have s4 : FirstBarFrom str 13 p := hpq 4 (by omega) (by omega)
  have s5 : FirstBarFrom str (p + 1) q := hpq 5 (by omega) (by omega)
  have hc := count_bar_take_amount_separator str clock p q h9
  refine ⟨p, q, s4, s5, ?_, hc, ?_⟩
  · intro i hi
    constructor
    · intro hb
      by_contra hne
      simp only [not_or] at hne
      exact not_bar_of_PassesAt str clock p q h9 i hi hne hb
    · rintro (rfl | rfl | rfl | rfl)
      · exact s3.1
      · exact s3.2
      · exact s4.2.2.1
      · exact s5.2.2.1
  · rw [← hc]
    exact (List.take_sublist (q + 1) str).count_le '|'

/-- C21 as amended, at `+|01.01.2020|1|10|a|b` on 2025-01-01. -/
theorem C21_four_separators_witness :
    ∃ p q, FirstBarFrom "+|01.01.2020|1|10|a|b".toList 13 p ∧
      FirstBarFrom "+|01.01.2020|1|10|a|b".toList (p + 1) q ∧
      (∀ i, i ≤ q →
        (charAt "+|01.01.2020|1|10|a|b".toList i = '|' ↔ i = 1 ∨ i = 12 ∨ i = p ∨ i = q)) ∧
      ("+|01.01.2020|1|10|a|b".toList.take (q + 1)).count '|' = 4 ∧
      4 ≤ "+|01.01.2020|1|10|a|b".toList.count '|' :=
  C21_four_separators "+|01.01.2020|1|10|a|b".toList 1 (.now ⟨125, 0, 1⟩) (by decide)

/-- C23, the claim as stated fails: in this input of one valid line followed
by five lines that the validator rejects, the failures reach 5 at the last
line; the program does not leave through `exit`, and prints its summary from
6 lines read, 1 record and 5 failures. -/
theorem C23_counterexample :
    (is_string_confirm_to_format "x".toList 2 (.now ⟨125, 0, 1⟩)).ret = 0 ∧
    read_and_parse_datafile symbolic
      (("+|01.01.2020|5|100.50|salary\n".toList, Clock.now ⟨125, 0, 1⟩) ::
        List.replicate 5 ("x\n".toList, Clock.now ⟨125, 0, 1⟩)) =
      some ⟨6, 1, 5, ["100.50".toList], []⟩ :=
  ⟨by decide, by decide⟩

/-- C23 as amended: the program leaves through `exit`, and prints no summary,
when it reads a line that is not empty after the failures have reached
`MAX_WRONG_LINES` = 5, wherever in the input that is; when only empty lines
follow, the input is processed to its end.  A line that the validator rejects
while the failures are below 5 adds one to the failures. -/
theorem C23_abort_after_five_failures {F : Type} (ops : FloatOps F)
    (pre rest : List (List Char × Clock)) (curline : List Char) (clock : Clock)
    (st : Totals F) (hpre : read_and_parse_datafile ops pre = some st)
    (hf : st.fails = MAX_WRONG_LINES) (hb : ¬ blank_line curline) :
    read_and_parse_datafile ops (pre ++ (curline, clock) :: rest) = none ∧
    (∀ blanks : List (List Char × Clock), (∀ x ∈ blanks, blank_line x.1) →
      read_and_parse_datafile ops (pre ++ blanks) = some (st.skip blanks.length)) ∧
    (∀ (s : Totals F) (line : List Char) (c : Clock), ¬ blank_line line →
      s.fails ≠ MAX_WRONG_LINES →
      (is_string_confirm_to_format (kill_trailing_newline line) (s.lineno + 1) c).ret = 0 →
      loop_body ops s line c = some { s with lineno := s.lineno + 1, fails := s.fails + 1 }) := by
  unfold read_and_parse_datafile at hpre ⊢
  refine ⟨?_, ?_, ?_⟩
  · rw [run_loop_append, hpre]
    simp only [Option.some_bind, run_loop]
    rw [loop_body_abort ops st curline clock hb hf]
  · intro blanks hbl
    rw [run_loop_append, hpre]
    exact run_loop_blanks ops blanks st hbl
  · intro s line c hb2 hf2 hv
    exact loop_body_rejected ops s line c hb2 hf2 hv

/-- C23 as amended, at five rejected lines followed by a valid line: the
valid line ends the program. -/
theorem C23_abort_after_five_failures_witness :
    read_and_parse_datafile symbolic
      (List.replicate 5 ("x\n".toList, Clock.now ⟨125, 0, 1⟩) ++
        [("+|01.01.2020|5|100.50|salary\n".toList, Clock.now ⟨125, 0, 1⟩)]) = none :=
  (C23_abort_after_five_failures symbolic
    (List.replicate 5 ("x\n".toList, Clock.now ⟨125, 0, 1⟩)) []
    "+|01.01.2020|5|100.50|salary\n".toList (.now ⟨125, 0, 1⟩) ⟨5, 0, 5, [], []⟩
    (by decide) (by decide) (by decide)).1

/-- C24: a line made of a newline only moves the line counter on by one and
changes nothing else, in every state (also with 5 failures, where any other
line ends the program) and whatever the clock is; and in every input, taking
such a line out changes the outcome of the whole run in the line counter
only. -/
theorem C24_blank_line {F : Type} (ops : FloatOps F) (st : Totals F) (clock : Clock) :
    loop_body ops st ['\n'] clock = some { st with lineno := st.lineno + 1 } ∧
    ∀ pre rest : List (List Char × Clock),
      read_and_parse_datafile ops (pre ++ (['\n'], clock) :: rest) =
        (read_and_parse_datafile ops (pre ++ rest)).map (Totals.skip 1) := by
  have hb : blank_line ['\n'] := by decide
  refine ⟨loop_body_blank ops st ['\n'] clock hb, ?_⟩
  intro pre rest
  unfold read_and_parse_datafile
  rw [run_loop_append, run_loop_append]
  cases run_loop ops ⟨0, 0, 0, ops.zero, ops.zero⟩ pre with
  | none => rfl
  | some s =>
    simp only [Option.some_bind, run_loop]
    rw [loop_body_blank ops s ['\n'] clock hb]
    exact run_loop_skip ops 1 rest s

/-- C25, the claim as stated fails: on 2025-01-01 the validator accepts
`+|01.01.2020||10|xx`, whose category is empty, but `sscanf` assigns the sign
only, and the line is counted as a failure, not as a record. -/
theorem C25_counterexample :
    ¬ blank_line "+|01.01.2020||10|xx\n".toList ∧
    kill_trailing_newline "+|01.01.2020||10|xx\n".toList = "+|01.01.2020||10|xx".toList ∧
    (is_string_confirm_to_format "+|01.01.2020||10|xx".toList 1 (.now ⟨125, 0, 1⟩)).ret = 1 ∧
    (sscanf_record symbolic "+|01.01.2020||10|xx".toList).ret = 1 ∧
    loop_body symbolic ⟨0, 0, 0, [], []⟩ "+|01.01.2020||10|xx\n".toList (.now ⟨125, 0, 1⟩) =
      some ⟨1, 0, 1, [], []⟩ :=
  ⟨by decide, by decide, by decide, by decide, by decide⟩

/-- C25 as amended: for a line that is not empty, read while the failures are
not 5, on which the validator returns 1: when `sscanf` assigns both the sign
and the amount, the sign is character 0 of the line, `+` or `-`, the record
counter goes up by one, the failures stay, and the amount is added to the
costs for `-` and to the profit for `+`, the other accumulator staying; when
`sscanf` does not return 2, the line is counted as a failure instead. -/
theorem C25_accepted_line {F : Type} (ops : FloatOps F) (st : Totals F)
    (curline : List Char) (clock : Clock) (hb : ¬ blank_line curline)
    (hf : st.fails ≠ MAX_WRONG_LINES)
    (hv : (is_string_confirm_to_format (kill_trailing_newline curline) (st.lineno + 1)
      clock).ret = 1) :
    (∀ sign curr, sscanf_record ops (kill_trailing_newline curline) = .both sign curr →
      sign = charAt (kill_trailing_newline curline) 0 ∧ (sign = '+' ∨ sign = '-') ∧
      (sign = '-' → loop_body ops st curline clock =
        some { st with lineno := st.lineno + 1, record_count := st.record_count + 1,
                       minus := ops.add st.minus curr }) ∧
      (sign = '+' → loop_body ops st curline clock =
        some { st with lineno := st.lineno + 1, record_count := st.record_count + 1,
                       plus := ops.add st.plus curr })) ∧
    ((sscanf_record ops (kill_trailing_newline curline)).ret ≠ 2 →
      loop_body ops st curline clock =
        some { st with lineno := st.lineno + 1, fails := st.fails + 1 }) := by
  have hv0 : (is_string_confirm_to_format (kill_trailing_newline curline) (st.lineno + 1)
      clock).ret ≠ 0 := by
    rw [hv]
    decide
  have hbody := loop_body_accepted ops st curline clock hb hf hv0
  obtain ⟨p, q, hpq⟩ :=
    (ret_eq_one_iff_Passes (kill_trailing_newline curline) (st.lineno + 1) clock).mp hv
  have hsign : charAt (kill_trailing_newline curline) 0 = '+' ∨
      charAt (kill_trailing_newline curline) 0 = '-' := hpq 2 (by omega) (by omega)
  constructor
  · intro sign curr hs
    have e := sscanf_record_sign ops (kill_trailing_newline curline) sign curr hs
    rw [hs] at hbody
    simp only [] at hbody
    refine ⟨e, by rw [e]; exact hsign, ?_, ?_⟩
    · intro hm
      rw [hbody, if_pos hm]
    · intro hp
      have hne : ¬ sign = '-' := by
        rw [hp]
        decide
      rw [hbody, if_neg hne]
  · intro hne
    rw [hbody]
    split
    · rename_i sign curr hs
      rw [hs] at hne
      exact absurd rfl hne
    · rfl

/-- C25 as amended, at a profit of `100.50` and at a cost of `3,50`, of which
`sscanf` reads `3`. -/
theorem C25_accepted_line_witness :
    loop_body symbolic ⟨0, 0, 0, [], []⟩ "+|01.01.2020|5|100.50|salary\n".toList
      (.now ⟨125, 0, 1⟩) = some ⟨1, 1, 0, ["100.50".toList], []⟩ ∧
    loop_body symbolic ⟨7, 3, 4, [], []⟩ "-|29.02.1900|7|3,50|tea\n".toList
      (.now ⟨125, 0, 1⟩) = some ⟨8, 4, 4, [], ["3".toList]⟩ :=
  ⟨((C25_accepted_line symbolic ⟨0, 0, 0, [], []⟩ "+|01.01.2020|5|100.50|salary\n".toList
      (.now ⟨125, 0, 1⟩) (by decide) (by decide) (by decide)).1 '+' ["100.50".toList]
      (by decide)).2.2.2 rfl,
    ((C25_accepted_line symbolic ⟨7, 3, 4, [], []⟩ "-|29.02.1900|7|3,50|tea\n".toList
      (.now ⟨125, 0, 1⟩) (by decide) (by decide) (by decide)).1 '-' ["3".toList]
      (by decide)).2.2.1 rfl⟩

/-- C29: counter invariant of the line processor.  After every run of the
loop that has not ended the program, the lines read are the empty lines plus
the failures plus the records, so that records plus failures are at most the
lines read, and the failures are at most 5; and every line that is not empty
and does not end the program adds one to exactly one of the failures and the
records. -/
theorem C29_counter_invariant {F : Type} (ops : FloatOps F)
    (input : List (List Char × Clock)) (st : Totals F)
    (h : read_and_parse_datafile ops input = some st) :
    st.lineno = input.length ∧
    st.lineno = blank_count input + st.fails + st.record_count ∧
    st.record_count + st.fails ≤ st.lineno ∧ st.fails ≤ 5 ∧
    ∀ (s s2 : Totals F) (line : List Char) (c : Clock), ¬ blank_line line →
      loop_body ops s line c = some s2 →
      (s2.fails = s.fails + 1 ∧ s2.record_count = s.record_count) ∨
        (s2.fails = s.fails ∧ s2.record_count = s.record_count + 1) := by
  unfold read_and_parse_datafile at h
  obtain ⟨a, b, -, -, e⟩ := run_loop_counters ops input _ st h (Nat.zero_le _)
  simp only [Nat.zero_add] at a b
  refine ⟨a, by omega, by omega, e, ?_⟩
  intro s s2 line c hb hl
  rcases (loop_body_step ops s s2 line c hb hl).2.2 with ⟨e1, e2, -⟩ | ⟨e1, e2⟩
  · exact Or.inl ⟨e1, e2⟩
  · exact Or.inr ⟨e1, e2⟩

/-- C29 at an input of a record, an empty line, a record and a rejected
line. -/
theorem C29_counter_invariant_witness :
    (4 : Nat) =
      blank_count [("+|01.01.2020|5|100.50|salary\n".toList, .now ⟨125, 0, 1⟩),
        ("\n".toList, .now ⟨125, 0, 1⟩),
        ("-|01.01.2020|5|1,5|xx\n".toList, .now ⟨125, 0, 1⟩),
        ("x\n".toList, .now ⟨125, 0, 1⟩)] + 1 + 2 ∧
    (2 : Nat) + 1 ≤ 4 ∧ (1 : Nat) ≤ 5 :=
  have w := C29_counter_invariant symbolic
    [("+|01.01.2020|5|100.50|salary\n".toList, .now ⟨125, 0, 1⟩),
      ("\n".toList, .now ⟨125, 0, 1⟩),
      ("-|01.01.2020|5|1,5|xx\n".toList, .now ⟨125, 0, 1⟩),
      ("x\n".toList, .now ⟨125, 0, 1⟩)]
    ⟨4, 2, 1, ["100.50".toList], ["1".toList]⟩ (by decide)
  ⟨w.2.1, w.2.2.1, w.2.2.2.1⟩

/-- C30: index safety of the validator.  For every C string, in the embedding
in which every read of the string is checked against its bounds (an index up
to the length, where the terminator is, can be read), the later variant, with
fuel for its scans of at least the length plus one, and the earlier variant
never take the out-of-bounds branch: they return the outcome of the unchecked
embedding.  So the fixed-offset reads, the two separator scans and the
category and amount loops stay at indices at most the length of the
string. -/
theorem C30_index_safety (fuel : Nat) (str : List Char) (lineno : Nat) (clock : Clock)
    (hc : CString str) (hfuel : strlen str + 1 ≤ fuel) :
    Checked.is_string_confirm_to_format fuel str lineno clock =
      some (is_string_confirm_to_format str lineno clock) ∧
    Checked.Earlier.is_string_confirm_to_format str lineno clock =
      some (Earlier.is_string_confirm_to_format str lineno clock) :=
  ⟨Checked.eq_some fuel str lineno clock hc hfuel, Checked.Earlier.earlier_eq_some str lineno clock⟩

/-- C30 at a line of exactly 18 characters whose amount separator is its last
character, and at a line of 18 characters without an amount separator, whose
second scan runs to the terminator. -/
theorem C30_index_safety_witness :
    (Checked.is_string_confirm_to_format 19 "+|01.01.2020|12|3|".toList 1 (.now ⟨125, 0, 1⟩) =
        some (is_string_confirm_to_format "+|01.01.2020|12|3|".toList 1 (.now ⟨125, 0, 1⟩)) ∧
      Checked.Earlier.is_string_confirm_to_format "+|01.01.2020|12|3|".toList 1
        (.now ⟨125, 0, 1⟩) =
        some (Earlier.is_string_confirm_to_format "+|01.01.2020|12|3|".toList 1
          (.now ⟨125, 0, 1⟩))) ∧
    (Checked.is_string_confirm_to_format 19 "+|01.01.2020|100|x".toList 1 (.now ⟨125, 0, 1⟩) =
        some (is_string_confirm_to_format "+|01.01.2020|100|x".toList 1 (.now ⟨125, 0, 1⟩)) ∧
      Checked.Earlier.is_string_confirm_to_format "+|01.01.2020|100|x".toList 1
        (.now ⟨125, 0, 1⟩) =
        some (Earlier.is_string_confirm_to_format "+|01.01.2020|100|x".toList 1
          (.now ⟨125, 0, 1⟩))) :=
  ⟨C30_index_safety 19 "+|01.01.2020|12|3|".toList 1 (.now ⟨125, 0, 1⟩) (by decide) (by decide),
    C30_index_safety 19 "+|01.01.2020|100|x".toList 1 (.now ⟨125, 0, 1⟩) (by decide)
      (by decide)⟩

end OpenFM
